import Mathlib

/-!
# Gophermart: a verification development

A shallow embedding of the Mart service of the loyalty-points platform
(`pkg/luhn.go`, `internal/gophermart/repository/postgres/postgres.go`,
`internal/gophermart/service/gofemart.go`, `internal/gophermart/handler/handlers.go`)
together with theorems about the embedded code.

Conventions.
* A Go `string` is a sequence of bytes (`GoString`).
* Go `int` values are modelled by `Int`; the only arithmetic performed on them in the
  embedded code is the Luhn digit sum, which stays below `2^63` for every string shorter
  than `2^53` bytes, so no wrap-around is modelled there. Byte arithmetic wraps modulo 256
  and is written with an explicit `% 256`.
* Monetary amounts (`float64` in Go, aggregated by SQL `SUM`) are modelled by exact
  rationals.
* A Go `error` is a `GoError`; the `nil` error is `none : Option GoError`.
-/

namespace Gophermart

/-! ## Go strings -/

/-- A byte. -/
abbrev Byte := Fin 256

/-- A Go string: an immutable sequence of bytes. -/
abbrev GoString := List Byte

/-- The bytes of a string literal (its UTF-8 encoding, as in Go source text). -/
def str (s : String) : GoString :=
  (s.toList.flatMap String.utf8EncodeChar).map (fun b => b.val)

/-- The replacement rune U+FFFD that decoding yields for invalid UTF-8. -/
def RuneError : Nat := 0xFFFD

/-- The table `first` of `unicode/utf8` for leading bytes `>= 0x80`: the length of the
encoding and the accepted range of the second byte, or `none` for an invalid leading byte. -/
def first (b : Nat) : Option (Nat × Nat × Nat) :=
  if b < 0xC2 then none
  else if b ≤ 0xDF then some (2, 0x80, 0xBF)
  else if b = 0xE0 then some (3, 0xA0, 0xBF)
  else if b ≤ 0xEC then some (3, 0x80, 0xBF)
  else if b = 0xED then some (3, 0x80, 0x9F)
  else if b ≤ 0xEF then some (3, 0x80, 0xBF)
  else if b = 0xF0 then some (4, 0x90, 0xBF)
  else if b ≤ 0xF3 then some (4, 0x80, 0xBF)
  else if b = 0xF4 then some (4, 0x80, 0x8F)
  else none

/-- The function `utf8.DecodeRuneInString`: the first rune of a string and its width in
bytes. This is what `for _, r := range s` evaluates at every position. -/
def DecodeRuneInString (s : GoString) : Nat × Nat :=
  match s with
  | [] => (RuneError, 0)
  | s0 :: rest =>
    if s0.val < 0x80 then (s0.val, 1)
    else
      match first s0.val with
      | none => (RuneError, 1)
      | some (sz, lo, hi) =>
        if rest.length + 1 < sz then (RuneError, 1)
        else
          match rest with
          | [] => (RuneError, 1)
          | s1 :: rest1 =>
            if s1.val < lo ∨ hi < s1.val then (RuneError, 1)
            else if sz ≤ 2 then ((s0.val % 32) * 64 + s1.val % 64, 2)
            else
              match rest1 with
              | [] => (RuneError, 1)
              | s2 :: rest2 =>
                if s2.val < 0x80 ∨ 0xBF < s2.val then (RuneError, 1)
                else if sz ≤ 3 then
                  ((s0.val % 16) * 4096 + (s1.val % 64) * 64 + s2.val % 64, 3)
                else
                  match rest2 with
                  | [] => (RuneError, 1)
                  | s3 :: _ =>
                    if s3.val < 0x80 ∨ 0xBF < s3.val then (RuneError, 1)
                    else
                      ((s0.val % 8) * 262144 + (s1.val % 64) * 4096
                        + (s2.val % 64) * 64 + s3.val % 64, 4)

/-! ## The type `float64` -/

/-- A value of the Go type `float64` (IEEE 754 binary64): a finite value, given by the
rational number it stands for, an infinity, or a NaN. The two zeros are one value here: the
embedded code never divides by a zero and never prints one, so their signs are not
observed. -/
inductive Float64 where
  | finite (value : ℚ)
  | posInf
  | negInf
  | NaN
  deriving DecidableEq, Repr

/-- The integer nearest to `x`, the even one of the two when `x` lies halfway. -/
def roundHalfEven (x : ℚ) : ℤ :=
  if x - ⌊x⌋ < 1 / 2 then ⌊x⌋
  else if 1 / 2 < x - ⌊x⌋ then ⌊x⌋ + 1
  else if ⌊x⌋ % 2 = 0 then ⌊x⌋ else ⌊x⌋ + 1

/-- The number of times that `n` can be halved before it is less than 2, for `n <= fuel`:
the integer `l` with `2 ^ l <= n < 2 ^ (l + 1)` when `n` is positive. -/
def floorLog2Loop : Nat → Nat → Nat
  | 0, _ => 0
  | fuel + 1, n => if n < 2 then 0 else floorLog2Loop fuel (n / 2) + 1

/-- The integer `l` with `2 ^ l <= n < 2 ^ (l + 1)`, for a positive `n`. -/
def floorLog2 (n : Nat) : Nat :=
  floorLog2Loop n n

/-- The exponent of a positive rational `q`: the integer `e` with `2 ^ e <= q < 2 ^ (e + 1)`. -/
def Float64.exponentOf (q : ℚ) : ℤ :=
  let k : ℤ := (floorLog2 q.num.natAbs : ℤ) - (floorLog2 q.den : ℤ)
  if (2 : ℚ) ^ k ≤ q then k else k - 1

/-- The `float64` nearest to a positive rational `q` (round to nearest, ties to even): `q`
is rounded to a multiple of the unit in the last place of its binade, `2 ^ (e - 52)`, where
the exponent `e` is not less than -1022 (below that, the values are subnormal); a result of
`2 ^ 1024` or more overflows to the infinity. -/
def Float64.roundPos (q : ℚ) : Float64 :=
  let e : ℤ := max (Float64.exponentOf q) (-1022)
  let ulp : ℚ := (2 : ℚ) ^ (e - 52)
  let v : ℚ := (roundHalfEven (q / ulp) : ℚ) * ulp
  if (2 : ℚ) ^ (1024 : ℤ) ≤ v then .posInf else .finite v

/-- The negation of a `float64`. -/
def Float64.neg : Float64 → Float64
  | .finite v => .finite (-v)
  | .posInf => .negInf
  | .negInf => .posInf
  | .NaN => .NaN

/-- The `float64` nearest to the rational `q`: what an arithmetic operation returns when its
exact result is `q`, and what the conversion of a decimal number gives. -/
def Float64.ofRat (q : ℚ) : Float64 :=
  if q = 0 then .finite 0
  else if 0 < q then Float64.roundPos q
  else (Float64.roundPos (-q)).neg

/-- The operator `+` of `float64`. -/
def Float64.add : Float64 → Float64 → Float64
  | .finite a, .finite b => Float64.ofRat (a + b)
  | .NaN, _ => .NaN
  | _, .NaN => .NaN
  | .posInf, .negInf => .NaN
  | .negInf, .posInf => .NaN
  | .posInf, _ => .posInf
  | _, .posInf => .posInf
  | .negInf, _ => .negInf
  | _, .negInf => .negInf

/-- The operator `-` of `float64`. -/
def Float64.sub (x y : Float64) : Float64 :=
  Float64.add x y.neg

/-- The operator `*` of `float64`. -/
def Float64.mul : Float64 → Float64 → Float64
  | .finite a, .finite b => Float64.ofRat (a * b)
  | .NaN, _ => .NaN
  | _, .NaN => .NaN
  | .finite a, .posInf => if a = 0 then .NaN else if 0 < a then .posInf else .negInf
  | .finite a, .negInf => if a = 0 then .NaN else if 0 < a then .negInf else .posInf
  | .posInf, .finite b => if b = 0 then .NaN else if 0 < b then .posInf else .negInf
  | .negInf, .finite b => if b = 0 then .NaN else if 0 < b then .negInf else .posInf
  | .posInf, .posInf => .posInf
  | .posInf, .negInf => .negInf
  | .negInf, .posInf => .negInf
  | .negInf, .negInf => .posInf

/-- The operator `/` of `float64`, for a divisor that is not a zero (the sign of a zero is
not modelled; a zero divisor is taken as the positive zero). -/
def Float64.div : Float64 → Float64 → Float64
  | .NaN, _ => .NaN
  | _, .NaN => .NaN
  | .finite a, .finite b =>
    if b = 0 then (if a = 0 then .NaN else if 0 < a then .posInf else .negInf)
    else Float64.ofRat (a / b)
  | .finite _, .posInf => .finite 0
  | .finite _, .negInf => .finite 0
  | .posInf, .finite b => if 0 ≤ b then .posInf else .negInf
  | .negInf, .finite b => if 0 ≤ b then .negInf else .posInf
  | .posInf, _ => .NaN
  | .negInf, _ => .NaN

/-- The operator `<` of `float64`: false when an operand is a NaN. -/
def Float64.lt : Float64 → Float64 → Bool
  | .finite a, .finite b => decide (a < b)
  | .NaN, _ => false
  | _, .NaN => false
  | .negInf, .negInf => false
  | .negInf, _ => true
  | _, .negInf => false
  | .posInf, _ => false
  | _, .posInf => true

/-- The operator `<=` of `float64`: false when an operand is a NaN. -/
def Float64.le : Float64 → Float64 → Bool
  | .finite a, .finite b => decide (a ≤ b)
  | .NaN, _ => false
  | _, .NaN => false
  | .negInf, _ => true
  | _, .posInf => true
  | .posInf, _ => false
  | _, .negInf => false

instance : LT Float64 := ⟨fun x y => Float64.lt x y = true⟩

instance : LE Float64 := ⟨fun x y => Float64.le x y = true⟩

instance (x y : Float64) : Decidable (x < y) := by
  show Decidable (Float64.lt x y = true); infer_instance

instance (x y : Float64) : Decidable (x ≤ y) := by
  show Decidable (Float64.le x y = true); infer_instance

instance (n : Nat) : OfNat Float64 n := ⟨Float64.ofRat n⟩

instance : Neg Float64 := ⟨Float64.neg⟩

/-! ## `pkg/luhn.go` -/

/-- The loop of `ContainsOnlyDigits`: `for _, char := range s`. The counter `skip` is the
number of bytes of the current rune still to be stepped over before the next rune starts. -/
def containsOnlyDigitsLoop : Nat → GoString → Bool
  | _, [] => true
  | skip + 1, _ :: rest => containsOnlyDigitsLoop skip rest
  | 0, b :: rest =>
    let char := (DecodeRuneInString (b :: rest)).1
    if char < 48 ∨ char > 57 then false
    else containsOnlyDigitsLoop ((DecodeRuneInString (b :: rest)).2 - 1) rest

/-- The function `ContainsOnlyDigits` of `pkg/luhn.go`. -/
def ContainsOnlyDigits (s : GoString) : Bool :=
  containsOnlyDigitsLoop 0 s

/-- One iteration of the loop body of `ValidateLuhn`: the value added to `sum` for the
byte `b`. `number[i] - '0'` is a byte subtraction, hence modulo 256. -/
def luhnDigit (b : Byte) (isSecond : Bool) : Int :=
  let digit : Int := ((b.val + 256 - 48) % 256 : Nat)
  if isSecond then
    let digit := digit * 2
    if digit > 9 then digit - 9 else digit
  else digit

/-- The loop of `ValidateLuhn`, run over the bytes from the last to the first. -/
def luhnLoop : List Byte → Int → Bool → Int
  | [], sum, _ => sum
  | b :: rest, sum, isSecond => luhnLoop rest (sum + luhnDigit b isSecond) (!isSecond)

/-- The function `ValidateLuhn` of `pkg/luhn.go`. -/
def ValidateLuhn (number : GoString) : Bool :=
  luhnLoop number.reverse 0 false % 10 == 0

/-- The order-number validity test of the callers:
`ContainsOnlyDigits(n) && ValidateLuhn(n)`. -/
def validOrderNumber (n : GoString) : Bool :=
  ContainsOnlyDigits n && ValidateLuhn n

/-! ### The validity test in the words of the specification -/

/-- A byte that is one of the decimal digits `'0'..'9'`. -/
def isDecimalDigit (b : Byte) : Prop := 48 ≤ b.val ∧ b.val ≤ 57

instance (b : Byte) : Decidable (isDecimalDigit b) := by
  unfold isDecimalDigit; infer_instance

/-- The contribution of the digit `d` at position `i` counted from the right (from 0):
every second digit is doubled, and 9 is subtracted when the doubled digit exceeds 9. -/
def specLuhnTerm (i : Nat) (d : Int) : Int :=
  if i % 2 = 1 then (if 2 * d > 9 then 2 * d - 9 else 2 * d) else d

/-- The Luhn checksum of a digit string, taken right to left. -/
def specLuhnChecksum (n : GoString) : Int :=
  ((n.reverse.enum).map (fun p => specLuhnTerm p.1 ((p.2.val : Int) - 48))).sum

/-- The validity predicate of the specification: non-empty, digits only, checksum
divisible by 10. -/
def specValid (n : GoString) : Prop :=
  n ≠ [] ∧ (∀ b ∈ n, isDecimalDigit b) ∧ specLuhnChecksum n % 10 = 0

instance (n : GoString) : Decidable (specValid n) := by
  unfold specValid; infer_instance

/-! ## Errors (`internal/gophermart/handler/errors.go`) -/

/-- A Go `error` value. The first fourteen constructors are the package-level variables of
`handler/errors.go`, each a distinct value created once by `errors.New`. `other` is any
error that is not one of them: a value allocated at the call site by `errors.New` or by
`fmt.Errorf` without `%w`, or an error of a library (`database/sql`, the driver). `wrap`
is `fmt.Errorf` with `%w`: a new error that wraps `err`. -/
inductive GoError where
  | ErrLoginAndPasswordRequired
  | ErrInvalidUserID
  | ErrInternalServerError
  | ErrInvalidJSONFormat
  | ErrUserIsNotAuthenticated
  | ErrOrderNumberRequired
  | ErrDuplicateOrder
  | ErrOtherUserOrder
  | ErrInvalidOrderNumber
  | ErrLackOfFunds
  | ErrInvalidNumberFormat
  | ErrInvalidLoginOrPassword
  | ErrInvalidRequestFormat
  | ErrLoginAlreadyExists
  | other (text : String)
  | wrap (pre : String) (err : GoError)
  deriving DecidableEq, Repr

/-- The method `Error()`: the text of an error. -/
def GoError.Error : GoError → String
  | .ErrLoginAndPasswordRequired => "login and password are required"
  | .ErrInvalidUserID => "invalid user ID"
  | .ErrInternalServerError => "internal server error"
  | .ErrInvalidJSONFormat => "invalid JSON format"
  | .ErrUserIsNotAuthenticated => "user is not authenticated"
  | .ErrOrderNumberRequired => "order number is required"
  | .ErrDuplicateOrder => "the number has already been downloaded by this user"
  | .ErrOtherUserOrder => "number uploaded by another user"
  | .ErrInvalidOrderNumber => "invalid order number"
  | .ErrLackOfFunds => "lack of funds"
  | .ErrInvalidNumberFormat => "invalid number format"
  | .ErrInvalidLoginOrPassword => "invalid login or password"
  | .ErrInvalidRequestFormat => "invalid request format"
  | .ErrLoginAlreadyExists => "login already exists"
  | .other text => text
  | .wrap pre err => pre ++ err.Error

/-- The function `errors.Is`: `err` is `target` itself, or wraps an error that is. -/
def errorsIs : GoError → GoError → Bool
  | .wrap pre err, target => decide (GoError.wrap pre err = target) || errorsIs err target
  | err, target => decide (err = target)

/-- The variable `sql.ErrNoRows` of `database/sql`. -/
def sqlErrNoRows : GoError := .other "sql: no rows in result set"

/-! ## Models (`internal/gophermart/models`) -/

/-- The struct `models.User`. -/
structure User where
  ID : Int
  Login : GoString
  PasswordHash : GoString
  CreatedAt : Nat
  deriving DecidableEq, Repr

/-- The struct `models.RegisterRequest`. -/
structure RegisterRequest where
  Login : GoString
  Password : GoString
  deriving DecidableEq, Repr

/-- The struct `models.Balance`. -/
structure Balance where
  Current : ℚ
  Withdrawn : ℚ
  deriving DecidableEq, Repr

/-- The struct `models.WithdrawBalance`. -/
structure WithdrawBalance where
  Order : GoString
  Sum : ℚ
  ProcessedAt : Nat
  deriving DecidableEq, Repr

/-- The constant `models.OrderStatusNew`. -/
def OrderStatusNew : String := "NEW"

/-- The constant `models.OrderStatusProcessing`. -/
def OrderStatusProcessing : String := "PROCESSING"

/-- The constant `models.OrderStatusInvalid`. -/
def OrderStatusInvalid : String := "INVALID"

/-- The constant `models.OrderStatusProcessed`. -/
def OrderStatusProcessed : String := "PROCESSED"

/-! ## The Mart store (`internal/gophermart/repository/postgres/postgres.go`) -/

/-- Modelled from the spec: the declaration of table `orders` (the migrations are not among
the sources). A row of `orders(uid, user_id, number unique, status, accrual, uploaded_at)`,
restricted to the columns that the embedded statements read or write; `uid` and
`uploaded_at` are filled in by the database. `accrual` is not nullable: `GetOrders` scans it
into a plain `float64` for rows of every status. -/
structure OrderRow where
  user_id : Int
  number : GoString
  status : String
  accrual : ℚ
  deriving DecidableEq, Repr

/-- Modelled from the spec: the declaration of table `withdrawals` (the migrations are not
among the sources). A row of `withdrawals(user_id, order_number, sum, processed_at)`;
`processed_at` is filled in by the database. -/
structure WithdrawalRow where
  user_id : Int
  order_number : GoString
  sum : ℚ
  deriving DecidableEq, Repr

/-- The state of the Mart database: the rows of `orders` and of `withdrawals`, oldest
first. -/
structure Mart where
  orders : List OrderRow
  withdrawals : List WithdrawalRow
  deriving DecidableEq, Repr

/-- Modelled from the spec: the column default of `accrual` in table `orders` (the
migrations are not among the sources), taken to be zero. The row that `INSERT INTO orders
(user_id, number, status) VALUES ($1, $2, $3)` adds; no embedded statement reads the
accrual of a row whose status is not PROCESSED. -/
def newOrderRow (userID : Int) (number : GoString) (status : String) : OrderRow :=
  { user_id := userID, number := number, status := status, accrual := 0 }

/-- The subquery `COALESCE((SELECT SUM(accrual) FROM orders WHERE user_id = $1 AND
status = 'PROCESSED'), 0)`. -/
def sumAccrualProcessed (db : Mart) (userID : Int) : ℚ :=
  ((db.orders.filter (fun o => decide (o.user_id = userID ∧ o.status = "PROCESSED"))).map
    (fun o => o.accrual)).sum

/-- The subquery `COALESCE((SELECT SUM(sum) FROM withdrawals WHERE user_id = $1), 0)`. -/
def sumWithdrawals (db : Mart) (userID : Int) : ℚ :=
  ((db.withdrawals.filter (fun w => decide (w.user_id = userID))).map (fun w => w.sum)).sum

/-- The SQL statement of `CreateOrder`, run on the state `db`: the discriminator it returns
and the state it leaves. `inserted` is the result of `INSERT ... ON CONFLICT (number) DO
NOTHING RETURNING uid`; `existing` is `SELECT user_id FROM orders WHERE number = $2`,
evaluated on the state before the statement. -/
def createOrderQuery (db : Mart) (userID : Int) (orderNumber : GoString) (status : String) :
    String × Mart :=
  let inserted : List OrderRow :=
    if db.orders.any (fun o => decide (o.number = orderNumber)) then []
    else [newOrderRow userID orderNumber status]
  let existing := db.orders.filter (fun o => decide (o.number = orderNumber))
  let result :=
    if inserted ≠ [] then "inserted"
    else if existing.any (fun o => decide (o.user_id = userID)) then "duplicate"
    else if existing ≠ [] then "conflict"
    else "not_found"
  (result, { db with orders := db.orders ++ inserted })

/-- The method `PostgresStorage.CreateOrder`. `fault` is the error of
`ps.DB.QueryRow(...).Scan(&result)`, if the database fails; a failed statement changes
nothing. -/
def PostgresStorage.CreateOrder (fault : Option GoError) (db : Mart) (userID : Int)
    (orderNumber : GoString) : Option GoError × Mart :=
  match fault with
  | some err => (some (.wrap "failed to create order: " err), db)
  | none =>
    let q := createOrderQuery db userID orderNumber OrderStatusNew
    if q.1 = "inserted" then (none, q.2)
    else if q.1 = "duplicate" then (some .ErrDuplicateOrder, q.2)
    else if q.1 = "conflict" then (some .ErrOtherUserOrder, q.2)
    else (some (.other ("unexpected result: " ++ q.1)), q.2)

/-- The method `PostgresStorage.GetBalance`, with the two numbers that the query computes
given exactly; `PostgresStorage.GetBalance.scanned` gives the `float64` values that `Scan`
stores for them. `fault` is the error of `ps.DB.QueryRow(query, userID).Scan(...)`, if
any. -/
def PostgresStorage.GetBalance (fault : Option GoError) (db : Mart) (userID : Int) :
    Balance × Option GoError :=
  match fault with
  | some err =>
    if err = sqlErrNoRows then ({ Current := 0, Withdrawn := 0 }, none)
    else ({ Current := 0, Withdrawn := 0 }, some (.wrap "failed to get balance: " err))
  | none =>
    ({ Current := sumAccrualProcessed db userID - sumWithdrawals db userID,
       Withdrawn := sumWithdrawals db userID }, none)

/-- The errors the database may answer to the four calls of `Withdraw`: `ps.DB.Begin()`,
`tx.QueryRow(...).Scan(&balance)`, `tx.Exec(...)` and `tx.Commit()`; `none` where the call
succeeds. -/
structure WithdrawFaults where
  Begin : Option GoError
  QueryRow : Option GoError
  Exec : Option GoError
  Commit : Option GoError
  deriving DecidableEq, Repr

/-- The database answers every call without error. -/
def noFaults : WithdrawFaults :=
  { Begin := none, QueryRow := none, Exec := none, Commit := none }

/-- Equality of two results `Except` is decidable when equality of errors and of values
is. -/
instance instDecidableEqExcept {ε α : Type} [DecidableEq ε] [DecidableEq α] :
    DecidableEq (Except ε α)
  | .ok a, .ok b =>
    if h : a = b then isTrue (congrArg Except.ok h)
    else isFalse (fun h2 => h (Except.ok.inj h2))
  | .error a, .error b =>
    if h : a = b then isTrue (congrArg Except.error h)
    else isFalse (fun h2 => h (Except.error.inj h2))
  | .ok _, .error _ => isFalse (fun h => Except.noConfusion h)
  | .error _, .ok _ => isFalse (fun h => Except.noConfusion h)

/-- What `Scan` stores into a `float64` for a column whose value is the number `q`: the
`float64` nearest to `q`. A number outside the range of `float64` makes `Scan` fail.
Modelled from the spec: the columns `accrual` of `orders` and `sum` of `withdrawals` hold
numbers, which the database adds and subtracts exactly (the migrations, which give the types
of the columns, are not among the sources). -/
def scanFloat64 (q : ℚ) : Except GoError Float64 :=
  match Float64.ofRat q with
  | .finite v => .ok (.finite v)
  | _ => .error (.other "sql: Scan error: value out of range")

/-- The `float64` fields `Current` and `Withdrawn` of the `models.Balance` that `GetBalance`
returns: what `Scan` makes of the two numbers that the query computes, which
`PostgresStorage.GetBalance` gives exactly. -/
def PostgresStorage.GetBalance.scanned (fault : Option GoError) (db : Mart) (userID : Int) :
    Except GoError (Float64 × Float64) :=
  match fault with
  | some err =>
    if err = sqlErrNoRows then .ok (.finite 0, .finite 0)
    else .error (.wrap "failed to get balance: " err)
  | none =>
    match scanFloat64 (PostgresStorage.GetBalance none db userID).1.Current with
    | .error err => .error (.wrap "failed to get balance: " err)
    | .ok current =>
      match scanFloat64 (PostgresStorage.GetBalance none db userID).1.Withdrawn with
      | .error err => .error (.wrap "failed to get balance: " err)
      | .ok withdrawn => .ok (current, withdrawn)

/-- The method `PostgresStorage.Withdraw`. Every return before a successful `tx.Commit()`
runs the deferred `tx.Rollback()`, so the state is the one before the call. The query
computes the balance exactly and `Scan` stores it into the `float64` variable `balance`;
`withdraw.Sum` is a `float64`, given by its value, and `balance-withdraw.Sum < 0` is computed
in `float64`. -/
def PostgresStorage.Withdraw (faults : WithdrawFaults) (db : Mart) (userID : Int)
    (withdraw : WithdrawBalance) : Option GoError × Mart :=
  match faults.Begin with
  | some err => (some err, db)
  | none =>
    match faults.QueryRow with
    | some err => (some err, db)
    | none =>
      match scanFloat64 (sumAccrualProcessed db userID - sumWithdrawals db userID) with
      | .error err => (some err, db)
      | .ok balance =>
        if Float64.sub balance (.finite withdraw.Sum) < 0 then (some .ErrLackOfFunds, db)
        else
          match faults.Exec with
          | some err => (some err, db)
          | none =>
            match faults.Commit with
            | some err => (some err, db)
            | none =>
              (none, { db with withdrawals := db.withdrawals ++
                [{ user_id := userID, order_number := withdraw.Order, sum := withdraw.Sum }] })

/-- A sequence of `CreateOrder` calls, each answered by the database without error. -/
def createOrders (db : Mart) (calls : List (Int × GoString)) : Mart :=
  calls.foldl (fun d c => (PostgresStorage.CreateOrder none d c.1 c.2).2) db

/-! ## The service layer (`internal/gophermart/service/gofemart.go`) -/

/-- A call of a method of the interface `GofemartRepo`, with its arguments. -/
inductive RepoCall where
  | GetUserByLoginAndPassword (login password : GoString)
  | CreateOrder (userID : Int) (orderNumber : GoString)
  | Withdraw (userID : Int) (withdraw : WithdrawBalance)
  deriving DecidableEq, Repr

/-- The interface `GofemartRepo`, restricted to the methods called by the embedded code:
what each method answers. A `(*models.User, error)` result is an `Except`, whose `ok none`
is the result `(nil, nil)`. -/
structure GofemartRepo where
  GetUserByLoginAndPassword : GoString → GoString → Except GoError (Option User)
  CreateOrder : Int → GoString → Option GoError
  Withdraw : Int → WithdrawBalance → Option GoError

/-- A repository whose methods answer with zero values and no error. -/
def nilRepo : GofemartRepo :=
  { GetUserByLoginAndPassword := fun _ _ => .ok none
    CreateOrder := fun _ _ => none
    Withdraw := fun _ _ => none }

/-- The method `GofemartService.LoginUser`: its result and the calls it makes to the
repository, in order. -/
def GofemartService.LoginUser (repo : GofemartRepo) (login password : GoString) :
    Except GoError User × List RepoCall :=
  if login = [] ∨ password = [] then
    (.error (.other "login and password are required"), [])
  else
    match repo.GetUserByLoginAndPassword login password with
    | .error err => (.error err, [.GetUserByLoginAndPassword login password])
    | .ok none =>
      (.error (.other "invalid login or password"), [.GetUserByLoginAndPassword login password])
    | .ok (some user) => (.ok user, [.GetUserByLoginAndPassword login password])

/-- The method `GofemartService.CreateOrder`: its result and the calls it makes to the
repository. -/
def GofemartService.CreateOrder (repo : GofemartRepo) (userID : Int)
    (orderNumber : GoString) : Option GoError × List RepoCall :=
  if userID ≤ 0 then (some (.other "invalid user ID"), [])
  else if orderNumber = [] then (some (.other "order number is required"), [])
  else (repo.CreateOrder userID orderNumber, [.CreateOrder userID orderNumber])

/-- The method `GofemartService.Withdraw`: its result and the calls it makes to the
repository. -/
def GofemartService.Withdraw (repo : GofemartRepo) (userID : Int)
    (withdraw : WithdrawBalance) : Option GoError × List RepoCall :=
  (repo.Withdraw userID withdraw, [.Withdraw userID withdraw])

/-! ## The HTTP handlers (`internal/gophermart/handler/handlers.go`) -/

/-- What a handler writes: the status code, the body, and the user id put into the
session cookie, if a cookie is set. -/
structure Response where
  status : Nat
  body : String
  cookie : Option Int
  deriving DecidableEq, Repr

/-- The function `http.Error`: the text followed by a newline, under the given code. -/
def httpError (text : String) (code : Nat) : Response :=
  { status := code, body := text ++ "\n", cookie := none }

/-- The pair `w.WriteHeader(code)` and `json.NewEncoder(w).Encode(v)`, where `text` is the
JSON encoding of `v`. -/
def writeJSON (code : Nat) (text : String) : Response :=
  { status := code, body := text ++ "\n", cookie := none }

/-- The method `Handler.Login`. `contentType` is the request header `Content-Type`, `body`
the result of decoding the body into a `RegisterRequest` (`none` when the decoder fails).
The result is the response and the calls made to the repository. -/
def Handler.Login (repo : GofemartRepo) (contentType : GoString)
    (body : Option RegisterRequest) : Response × List RepoCall :=
  if contentType ≠ str "application/json" then
    (httpError "\x7b\"error\":\"content-type must be application/json\"\x7d" 400, [])
  else
    match body with
    | none =>
      (httpError ("\x7b\"error\":\"" ++ GoError.ErrInvalidJSONFormat.Error ++ "\"\x7d") 400, [])
    | some req =>
      if req.Login = [] ∨ req.Password = [] then
        (httpError ("\x7b\"error\":\"" ++ GoError.ErrLoginAndPasswordRequired.Error ++ "\"\x7d")
          400, [])
      else
        let r := GofemartService.LoginUser repo req.Login req.Password
        match r.1 with
        | .error err =>
          if errorsIs err .ErrInvalidLoginOrPassword then
            (httpError ("\x7b\"error\":\"" ++ err.Error ++ "\"\x7d") 401, r.2)
          else
            (httpError ("\x7b\"error\":\"" ++ GoError.ErrInternalServerError.Error ++ "\"\x7d")
              500, r.2)
        | .ok user => ({ status := 200, body := "", cookie := some user.ID }, r.2)

/-- The method `Handler.CreateOrder`. `TrimSpace` and `Atoi` are `strings.TrimSpace` and
`strconv.Atoi`; `ctxUserID` is the string stored in the request context under `UserIDKey`
(`none` when there is none), `body` the result of `io.ReadAll(r.Body)` (`none` when reading
fails). The result is the response and the calls made to the repository. -/
def Handler.CreateOrder (TrimSpace : GoString → GoString)
    (Atoi : GoString → Int × Option GoError) (repo : GofemartRepo)
    (ctxUserID : Option GoString) (body : Option GoString) : Response × List RepoCall :=
  match ctxUserID with
  | none => (httpError "\x7b\"error\":\"user is not authenticated\"\x7d" 401, [])
  | some userID =>
    match body with
    | none => (httpError "\x7b\"error\":\"failed to read request body\"\x7d" 400, [])
    | some body =>
      let orderNumber := TrimSpace body
      if orderNumber = [] then
        (httpError "\x7b\"error\":\"order number is required\"\x7d" 400, [])
      else if !ContainsOnlyDigits orderNumber || !ValidateLuhn orderNumber then
        (httpError "\x7b\"error\":\"invalid order number\"\x7d" 422, [])
      else
        let userIDint := (Atoi userID).1
        let r := GofemartService.CreateOrder repo userIDint orderNumber
        match r.1 with
        | some err =>
          if errorsIs err .ErrDuplicateOrder then
            (writeJSON 200 "\x7b\"message\":\"order already uploaded\"\x7d", r.2)
          else if errorsIs err .ErrOtherUserOrder then
            (writeJSON 409 "\x7b\"error\":\"order already uploaded by another user\"\x7d", r.2)
          else
            (httpError "\x7b\"error\":\"internal server error\"\x7d" 500, r.2)
        | none =>
          (writeJSON 202 "\x7b\"message\":\"order accepted for processing\"\x7d", r.2)

/-- The method `Handler.Withdraw`. `Atoi` is `strconv.Atoi`; `ctxUserID` is the string
stored in the request context under `UserIDKey`, `contentType` the request header
`Content-Type`, `body` the result of decoding the body into a `WithdrawBalance` (`none`
when the decoder fails). The result is the response and the calls made to the repository. -/
def Handler.Withdraw (Atoi : GoString → Int × Option GoError) (repo : GofemartRepo)
    (ctxUserID : Option GoString) (contentType : GoString)
    (body : Option WithdrawBalance) : Response × List RepoCall :=
  match ctxUserID with
  | none =>
    (httpError ("\x7b\"error\":\"" ++ GoError.ErrUserIsNotAuthenticated.Error ++ "\"\x7d") 401,
      [])
  | some userID =>
    if contentType ≠ str "application/json" then
      (httpError "\x7b\"error\":\"content-type must be application/json\"\x7d" 400, [])
    else
      match body with
      | none =>
        (httpError ("\x7b\"error\":\"" ++ GoError.ErrInvalidJSONFormat.Error ++ "\"\x7d") 400,
          [])
      | some withdraw =>
        if withdraw.Sum ≤ 0 then
          (httpError "\x7b\"error\":\"sum must be positive\"\x7d" 400, [])
        else if !ContainsOnlyDigits withdraw.Order || !ValidateLuhn withdraw.Order then
          (httpError "\x7b\"error\":\"invalid order number\"\x7d" 422, [])
        else
          match (Atoi userID).2 with
          | some _ => (httpError "\x7b\"error\":\"invalid user ID\"\x7d" 500, [])
          | none =>
            let r := GofemartService.Withdraw repo (Atoi userID).1 withdraw
            match r.1 with
            | some err =>
              if err = .ErrInvalidOrderNumber then
                (httpError ("\x7b\"error\":\"" ++ GoError.ErrInvalidOrderNumber.Error ++ "\"\x7d")
                  422, r.2)
              else if err = .ErrLackOfFunds then
                (httpError ("\x7b\"error\":\"" ++ GoError.ErrLackOfFunds.Error ++ "\"\x7d")
                  402, r.2)
              else
                (httpError ("\x7b\"error\":\"" ++ GoError.ErrInternalServerError.Error ++ "\"\x7d")
                  500, r.2)
            | none => (writeJSON 200 "\x7b\x7d", r.2)

/-! ### Library functions on concrete inputs -/

/-- The value of a string of decimal digits, `none` if a byte is not a digit. -/
def parseDigits : GoString → Nat → Option Nat
  | [], acc => some acc
  | b :: rest, acc =>
    if 48 ≤ b.val ∧ b.val ≤ 57 then parseDigits rest (acc * 10 + (b.val - 48)) else none

/-- The function `strconv.Atoi` for 64-bit `int`: an optional sign and decimal digits; a
syntax error gives 0 and a value out of range gives the nearest bound, both with an
error. -/
def strconvAtoi (s : GoString) : Int × Option GoError :=
  let parseFailure : Int × Option GoError := (0, some (.other "strconv.Atoi: invalid syntax"))
  let outOfRange : Option GoError := some (.other "strconv.Atoi: value out of range")
  let neg : Bool := s.head? = some 45
  let digits : GoString := if s.head? = some 45 ∨ s.head? = some 43 then s.tail else s
  if digits = [] then parseFailure
  else
    match parseDigits digits 0 with
    | none => parseFailure
    | some n =>
      if neg then
        if n > 2 ^ 63 then (-(2 ^ 63 : Int), outOfRange) else (-(n : Int), none)
      else
        if n ≥ 2 ^ 63 then ((2 ^ 63 : Int) - 1, outOfRange) else ((n : Int), none)

/-- The function `strings.TrimSpace` on strings whose bytes are all ASCII: the leading and
trailing bytes among tab, line feed, vertical tab, form feed, carriage return and space
are removed. -/
def trimSpaceASCII (s : GoString) : GoString :=
  let isSpace : Byte → Bool := fun b => decide (b.val = 32 ∨ (9 ≤ b.val ∧ b.val ≤ 13))
  ((s.dropWhile isSpace).reverse.dropWhile isSpace).reverse

/-! ### Concrete states -/

/-- The state of scenario S6: user 1 has one PROCESSED order with accrual 700 and no
withdrawals. -/
def scenarioS6 : Mart :=
  { orders := [{ user_id := 1, number := str "12345678903", status := "PROCESSED",
                 accrual := 700 }]
    withdrawals := [] }

/-- A state with a large balance: user 1 has one PROCESSED order with accrual `10^16` and no
withdrawals. Between `2^53` and `2^54` the `float64` values are the even integers. -/
def scenarioLarge : Mart :=
  { orders := [{ user_id := 1, number := str "12345678903", status := "PROCESSED",
                 accrual := 10000000000000000 }]
    withdrawals := [] }

/-- The state `scenarioLarge` after user 1 has withdrawn 1 against the order 2377225624. -/
def scenarioLargeWithdrawn : Mart :=
  { scenarioLarge with
    withdrawals := [{ user_id := 1, order_number := str "2377225624", sum := 1 }] }

/-! ## The Accrual service: models and repository (`internal/accrual`) -/

namespace Accrual

/-- The struct `models.ProductReward`. -/
structure ProductReward where
  Match : GoString
  Reward : ℚ
  RewardType : GoString
  deriving DecidableEq, Repr

/-- The struct `models.Goods`. -/
structure Goods where
  Description : GoString
  Price : ℚ
  deriving DecidableEq, Repr

/-- The struct `models.Order`: the body of `POST /api/orders`. -/
structure Order where
  Order : GoString
  Goods : List Goods
  deriving DecidableEq, Repr

/-- The constant `models.Registered`. -/
def Registered : String := "REGISTERED"

/-- The constant `models.Invalid`. -/
def Invalid : String := "INVALID"

/-- The constant `models.Progressing`. -/
def Progressing : String := "PROCESSING"

/-- The constant `models.Processed`. -/
def Processed : String := "PROCESSED"

/-- The struct `models.AccrualInfo`. -/
structure AccrualInfo where
  Order : Int
  Status : String
  Accrual : Float64
  deriving DecidableEq, Repr

/-- The struct `models.ParseMatch`: one row of the goods query, an order id and the price of
one of its goods lines. -/
structure ParseMatch where
  Order : Int
  Price : ℚ
  deriving DecidableEq, Repr

/-- A call of a method of the interface `Repository` of the service, with its arguments. A
`float64` argument that comes from a decoded request (a reward, a price) is finite and is
given by its value; an accrual, which the service computes, is a `Float64`. -/
inductive Call where
  | CreateProductReward (mtch : GoString) (reward : ℚ) (rewardType : GoString)
  | RegisterNewOrder (order : Int) (goods : List Goods) (status : String)
  | CheckOrderExists (order : Int)
  | GetAccrualInfo (order : Int)
  | UpdateAccrualInfo (order : Int) (accrual : Float64) (status : String)
  | UpdateStatus (status : String) (order : Int)
  | GetProductsInfo
  | ParseMatch (mtch : GoString)
  | GetUnprocessedOrders
  deriving DecidableEq, Repr

/-- The interface `Repository` of `service/service.go` over a store with states `σ`: what
each method returns in a state and, for the methods that write, the state it leaves. -/
structure Repository (σ : Type) where
  CreateProductReward : GoString → ℚ → GoString → σ → Option GoError × σ
  RegisterNewOrder : Int → List Goods → String → σ → Option GoError × σ
  CheckOrderExists : Int → σ → Bool × Option GoError
  GetAccrualInfo : Int → σ → String × Float64 × Option GoError
  UpdateAccrualInfo : Int → Float64 → String → σ → Option GoError × σ
  UpdateStatus : String → Int → σ → Option GoError × σ
  GetProductsInfo : σ → List ProductReward × Option GoError
  ParseMatch : GoString → σ → List ParseMatch × Option GoError
  GetUnprocessedOrders : σ → List Int × Option GoError

/-- The decimal digits of `n`, most significant first; `fuel` bounds their number. -/
def decimalDigits : Nat → Nat → GoString
  | 0, _ => []
  | fuel + 1, n =>
    if n < 10 then [⟨48 + n % 10, by omega⟩]
    else decimalDigits fuel (n / 10) ++ [⟨48 + n % 10, by omega⟩]

/-- The function `strconv.FormatInt(i, 10)` for an `int64`, which has at most 19 digits. -/
def FormatInt (i : Int) : GoString :=
  if i < 0 then (45 : Byte) :: decimalDigits 20 i.natAbs else decimalDigits 20 i.natAbs

/-- The error `ctx.Err()` of a context that is done. -/
def contextCanceled : GoError := .other "context canceled"

/-! ### The matcher (`Service.processOrders`) -/

/-- The struct `orderProductMatch`. -/
structure orderProductMatch where
  Order : ParseMatch
  Product : ProductReward
  deriving DecidableEq, Repr

/-- The statement `m[k] = append(m[k], v)` on a `map[int64][]T`, kept as the list of its
keys, in the order of their first insertion, with their values. -/
def mapAppend {α : Type} : List (Int × List α) → Int → α → List (Int × List α)
  | [], k, v => [(k, [v])]
  | (k', vs) :: rest, k, v =>
    if k' = k then (k', vs ++ [v]) :: rest else (k', vs) :: mapAppend rest k v

/-- The inner loop `for _, order := range orders` of the first loop of `processOrders`,
on the pair of `orderProducts` and of the keys of `processedOrderIDs`. -/
def Service.addOrders (product : ProductReward) :
    List ParseMatch → List (Int × List orderProductMatch) × List Int →
      List (Int × List orderProductMatch) × List Int
  | [], acc => acc
  | order :: rest, acc =>
    Service.addOrders product rest
      (mapAppend acc.1 order.Order { Order := order, Product := product }, order.Order :: acc.2)

/-- What the first loop of `processOrders` leaves: whether it returned because the context
was done, the two maps, and the calls made. -/
structure Service.Matches where
  cancelled : Bool
  orderProducts : List (Int × List orderProductMatch)
  processedOrderIDs : List Int
  calls : List Call
  deriving Repr

/-- The loop `for _, product := range products` of `processOrders`. `ctxDone i` tells
whether the context is done at the check number `i` of the tick. A rule whose `ParseMatch`
fails is skipped. -/
def Service.collectMatches {σ : Type} (repo : Repository σ) (ctxDone : Nat → Bool) (s : σ) :
    Nat → List ProductReward → List (Int × List orderProductMatch) × List Int →
      Service.Matches
  | _, [], acc =>
    { cancelled := false, orderProducts := acc.1, processedOrderIDs := acc.2, calls := [] }
  | i, product :: rest, acc =>
    if ctxDone i then
      { cancelled := true, orderProducts := acc.1, processedOrderIDs := acc.2, calls := [] }
    else
      let r := repo.ParseMatch product.Match s
      let m := Service.collectMatches repo ctxDone s (i + 1) rest
        (match r.2 with
          | some _ => acc
          | none => Service.addOrders product r.1 acc)
      { m with calls := Call.ParseMatch product.Match :: m.calls }

/-- The body of the loop `for _, match := range matches`: the value of `accrual` for one
match, `match.Order.Price * match.Product.Reward / 100` computed in `float64` (the product
is rounded, then the quotient) or `match.Product.Reward`. -/
def Service.accrualOf (m : orderProductMatch) : Float64 :=
  if m.Product.RewardType = str "%" then
    Float64.div (Float64.mul (.finite m.Order.Price) (.finite m.Product.Reward)) 100
  else .finite m.Product.Reward

/-- The loop `for _, match := range matches`: `totalAccrual`, which starts at `0.0` and to
which `totalAccrual += accrual` adds every match in `float64`, in the order of the slice. -/
def Service.totalAccrual (matched : List orderProductMatch) : Float64 :=
  matched.foldl (fun total m => Float64.add total (Service.accrualOf m)) 0

/-- The loop `for orderID, matches := range orderProducts` of `processOrders`, over the
entries in the order in which `range` visits them: whether it returned because the context
was done, the state it leaves and the calls made. The error of an update is only logged. -/
def Service.updateMatched {σ : Type} (repo : Repository σ) (ctxDone : Nat → Bool) :
    Nat → List (Int × List orderProductMatch) → σ → Bool × σ × List Call
  | _, [], s => (false, s, [])
  | i, entry :: rest, s =>
    if ctxDone i then (true, s, [])
    else if !ValidateLuhn (FormatInt entry.1) || !ContainsOnlyDigits (FormatInt entry.1) then
      let t := Service.updateMatched repo ctxDone (i + 1) rest
        (repo.UpdateStatus Invalid entry.1 s).2
      (t.1, t.2.1, Call.UpdateStatus Invalid entry.1 :: t.2.2)
    else
      let t := Service.updateMatched repo ctxDone (i + 1) rest
        (repo.UpdateAccrualInfo entry.1 (Service.totalAccrual entry.2) Processed s).2
      (t.1, t.2.1, Call.UpdateAccrualInfo entry.1 (Service.totalAccrual entry.2) Processed :: t.2.2)

/-- The loop `for _, orderID := range unprocessedOrders` of `processOrders`: the state it
leaves and the calls made. -/
def Service.updateUnmatched {σ : Type} (repo : Repository σ) (processedOrderIDs : List Int) :
    List Int → σ → σ × List Call
  | [], s => (s, [])
  | orderID :: rest, s =>
    if orderID ∈ processedOrderIDs then Service.updateUnmatched repo processedOrderIDs rest s
    else
      let t := Service.updateUnmatched repo processedOrderIDs rest
        (repo.UpdateAccrualInfo orderID 0 Processed s).2
      (t.1, Call.UpdateAccrualInfo orderID 0 Processed :: t.2)

/-- The method `Service.processOrders`, one tick of the matcher: the error it returns, the
state it leaves and the calls it makes to the repository, in order. `ctxDone i` tells
whether the context is done at check number `i`; `rangeOrder` is the order in which
`range orderProducts` visits the entries of the map, which Go leaves unspecified. -/
def Service.processOrders {σ : Type} (repo : Repository σ) (ctxDone : Nat → Bool)
    (rangeOrder : List (Int × List orderProductMatch) → List (Int × List orderProductMatch))
    (s : σ) : Option GoError × σ × List Call :=
  match (repo.GetProductsInfo s).2 with
  | some err => (some (.wrap "failed to get products info: " err), s, [Call.GetProductsInfo])
  | none =>
    let m := Service.collectMatches repo ctxDone s 0 (repo.GetProductsInfo s).1 ([], [])
    if m.cancelled then (some contextCanceled, s, Call.GetProductsInfo :: m.calls)
    else
      let u := Service.updateMatched repo ctxDone (repo.GetProductsInfo s).1.length
        (rangeOrder m.orderProducts) s
      if u.1 then (some contextCanceled, u.2.1, Call.GetProductsInfo :: (m.calls ++ u.2.2))
      else
        match (repo.GetUnprocessedOrders u.2.1).2 with
        | some _ =>
          (none, u.2.1, Call.GetProductsInfo :: (m.calls ++ u.2.2 ++ [Call.GetUnprocessedOrders]))
        | none =>
          let z := Service.updateUnmatched repo m.processedOrderIDs
            (repo.GetUnprocessedOrders u.2.1).1 u.2.1
          (none, z.1,
            Call.GetProductsInfo :: (m.calls ++ u.2.2 ++ Call.GetUnprocessedOrders :: z.2))

end Accrual

/-! ## The Accrual store (`internal/accrual/storage/storage.go`) -/

namespace Accrual

/-- Modelled from the spec: the declaration of table `orders_accrual` (the migrations are not
among the sources). A row of `orders_accrual(order_id primary key, goods array of
(description, price), status, accrual nullable)`. The column `accrual` holds the `float64`
that `UpdateAccrualInfo` hands to the statement, and `Scan` reads it back as it was
written. -/
structure OrderRow where
  order_id : Int
  goods : List Goods
  status : String
  accrual : Option Float64
  deriving DecidableEq, Repr

/-- The state of the Accrual database: the rows of `products` and of `orders_accrual`. -/
structure DB where
  products : List ProductReward
  orders_accrual : List OrderRow
  deriving DecidableEq, Repr

/-- What PostgreSQL computes on the values that the statements of the store hand to it:
`like text pattern` is `text LIKE pattern`, and `castGoods goods` is the value of the array
literal that `RegisterNewOrder` builds from `goods`, cast to `goods[]` (an error when the
literal is malformed). -/
structure Postgres where
  like : GoString → GoString → Bool
  castGoods : List Goods → Except GoError (List Goods)

/-- Modelled from the spec: the variable `storage.ErrKeyExists` (its declaration is not among
the sources), the typed error of a duplicate `match`. -/
def ErrKeyExists : GoError := .other "key exists"

/-- The condition `status NOT IN ('INVALID', 'PROCESSED')`. -/
def nonTerminal (status : String) : Bool :=
  !(status == "INVALID" || status == "PROCESSED")

/-- The method `PostgresDB.CreateProductReward`, answered by the database without failure. -/
def PostgresDB.CreateProductReward (db : DB) (mtch : GoString) (reward : ℚ)
    (rewardType : GoString) : Option GoError × DB :=
  if db.products.any (fun p => decide (p.Match = mtch)) then (some ErrKeyExists, db)
  else
    (none, { db with products := db.products ++
      [{ Match := mtch, Reward := reward, RewardType := rewardType }] })

/-- The method `PostgresDB.RegisterNewOrder`: the `INSERT` fails on an `order_id` that is
already there and on a malformed array literal, and otherwise adds the row, whose accrual
is unset. -/
def PostgresDB.RegisterNewOrder (pg : Postgres) (db : DB) (order : Int) (goods : List Goods)
    (status : String) : Option GoError × DB :=
  if db.orders_accrual.any (fun o => decide (o.order_id = order)) then
    (some (.wrap "path: internal/accrual/storage/RegisterNewOrder Exec err: "
      (.other "duplicate key value violates unique constraint")), db)
  else
    match pg.castGoods goods with
    | .error err =>
      (some (.wrap "path: internal/accrual/storage/RegisterNewOrder Exec err: " err), db)
    | .ok stored =>
      (none, { db with orders_accrual := db.orders_accrual ++
        [{ order_id := order, goods := stored, status := status, accrual := none }] })

/-- The method `PostgresDB.CheckOrderExists`. -/
def PostgresDB.CheckOrderExists (db : DB) (order : Int) : Bool × Option GoError :=
  (db.orders_accrual.any (fun o => decide (o.order_id = order)), none)

/-- The method `PostgresDB.GetAccrualInfo`: a null accrual is read as 0. -/
def PostgresDB.GetAccrualInfo (db : DB) (order : Int) :
    String × Float64 × Option GoError :=
  match db.orders_accrual.find? (fun o => decide (o.order_id = order)) with
  | none =>
    ("", 0, some (.wrap "path: internal/accrual/storage/GetAccrualInfo QueryRow err:"
      sqlErrNoRows))
  | some o => (o.status, o.accrual.getD 0, none)

/-- The method `PostgresDB.UpdateAccrualInfo`: `UPDATE orders_accrual SET accrual = $1,
status = $2 WHERE order_id = $3`. -/
def PostgresDB.UpdateAccrualInfo (db : DB) (order : Int) (accrual : Float64)
    (status : String) :
    Option GoError × DB :=
  (none, { db with orders_accrual := db.orders_accrual.map (fun o =>
    if o.order_id = order then { o with accrual := some accrual, status := status } else o) })

/-- The method `PostgresDB.UpdateStatus`: `UPDATE orders_accrual SET status = $1 WHERE
order_id = $2`. -/
def PostgresDB.UpdateStatus (db : DB) (status : String) (order : Int) : Option GoError × DB :=
  (none, { db with orders_accrual := db.orders_accrual.map (fun o =>
    if o.order_id = order then { o with status := status } else o) })

/-- The method `PostgresDB.GetProductsInfo`. -/
def PostgresDB.GetProductsInfo (db : DB) : List ProductReward × Option GoError :=
  (db.products, none)

/-- The method `PostgresDB.ParseMatch`: `SELECT order_id, (g).price FROM orders_accrual,
UNNEST(goods) AS g WHERE (g).description LIKE $1 AND status NOT IN ('INVALID',
'PROCESSED')` with the pattern `%match%`. -/
def PostgresDB.ParseMatch (pg : Postgres) (db : DB) (mtch : GoString) :
    List ParseMatch × Option GoError :=
  (db.orders_accrual.flatMap (fun o =>
    if nonTerminal o.status then
      (o.goods.filter (fun g => pg.like g.Description ((37 : Byte) :: (mtch ++ [(37 : Byte)])))).map
        (fun g => { Order := o.order_id, Price := g.Price })
    else []), none)

/-- The method `PostgresDB.GetUnprocessedOrders`. -/
def PostgresDB.GetUnprocessedOrders (db : DB) : List Int × Option GoError :=
  ((db.orders_accrual.filter (fun o => nonTerminal o.status)).map (fun o => o.order_id), none)

/-- The store as a `Repository`, every statement answered by the database without
failure. -/
def PostgresDB.repository (pg : Postgres) : Repository DB :=
  { CreateProductReward := fun mtch reward rewardType db =>
      PostgresDB.CreateProductReward db mtch reward rewardType
    RegisterNewOrder := fun order goods status db =>
      PostgresDB.RegisterNewOrder pg db order goods status
    CheckOrderExists := fun order db => PostgresDB.CheckOrderExists db order
    GetAccrualInfo := fun order db => PostgresDB.GetAccrualInfo db order
    UpdateAccrualInfo := fun order accrual status db =>
      PostgresDB.UpdateAccrualInfo db order accrual status
    UpdateStatus := fun status order db => PostgresDB.UpdateStatus db status order
    GetProductsInfo := fun db => PostgresDB.GetProductsInfo db
    ParseMatch := fun mtch db => PostgresDB.ParseMatch pg db mtch
    GetUnprocessedOrders := fun db => PostgresDB.GetUnprocessedOrders db }

/-! ## The Accrual service and handlers (`service/service.go`, `handler/handler.go`) -/

/-- The method `Service.RegisterNewOrder`: its results `(exist, err)`, the state it leaves
and the calls it makes to the repository. `ParseInt` is `strconv.ParseInt(s, 10, 64)`. -/
def Service.RegisterNewOrder {σ : Type} (ParseInt : GoString → Int × Option GoError)
    (repo : Repository σ) (order : Order) (s : σ) : (Bool × Option GoError) × σ × List Call :=
  match (ParseInt order.Order).2 with
  | some err => ((false, some err), s, [])
  | none =>
    let number := (ParseInt order.Order).1
    let c := repo.CheckOrderExists number s
    match c.2 with
    | some err => ((c.1, some err), s, [Call.CheckOrderExists number])
    | none =>
      if c.1 then ((c.1, none), s, [Call.CheckOrderExists number])
      else
        let r := repo.RegisterNewOrder number order.Goods Registered s
        match r.1 with
        | some err =>
          ((c.1, some err), r.2,
            [Call.CheckOrderExists number, Call.RegisterNewOrder number order.Goods Registered])
        | none =>
          ((c.1, none), r.2,
            [Call.CheckOrderExists number, Call.RegisterNewOrder number order.Goods Registered])

/-- The method `Service.GetAccrualInfo`: its results `(status, accrual, exist, err)` and the
calls it makes to the repository. -/
def Service.GetAccrualInfo {σ : Type} (repo : Repository σ) (order : Int) (s : σ) :
    (String × Float64 × Bool × Option GoError) × List Call :=
  let c := repo.CheckOrderExists order s
  match c.2 with
  | some err => (("", 0, c.1, some err), [Call.CheckOrderExists order])
  | none =>
    if !c.1 then (("", 0, c.1, none), [Call.CheckOrderExists order])
    else
      let g := repo.GetAccrualInfo order s
      ((g.1, g.2.1, c.1, g.2.2), [Call.CheckOrderExists order, Call.GetAccrualInfo order])

/-- The interface `Service` of `handler/handler.go` over states `σ`. -/
structure Handler.Service (σ : Type) where
  CreateProductReward : GoString → ℚ → GoString → σ → Option GoError × σ
  RegisterNewOrder : Order → σ → (Bool × Option GoError) × σ
  GetAccrualInfo : Int → σ → String × Float64 × Bool × Option GoError

/-- The struct `service.Service` over a repository, as the `Service` of the handlers. -/
def Service.handlerService {σ : Type} (ParseInt : GoString → Int × Option GoError)
    (repo : Repository σ) : Handler.Service σ :=
  { CreateProductReward := fun mtch reward rewardType s =>
      repo.CreateProductReward mtch reward rewardType s
    RegisterNewOrder := fun order s =>
      ((Service.RegisterNewOrder ParseInt repo order s).1,
        (Service.RegisterNewOrder ParseInt repo order s).2.1)
    GetAccrualInfo := fun order s => (Service.GetAccrualInfo repo order s).1 }

/-- A JSON value written by `json.Marshal`: an integer, a number, or a string. -/
inductive JSONValue where
  | int (i : Int)
  | number (q : ℚ)
  | string (s : String)
  deriving DecidableEq, Repr

/-- What an Accrual handler writes: the status code and the body, `none` when nothing is
written after the header, and otherwise the fields of a JSON object in order. -/
structure HTTPResponse where
  status : Nat
  body : Option (List (String × JSONValue))
  deriving DecidableEq, Repr

/-- The call `json.Marshal(info)` on an `AccrualInfo`: `accrual` has the tag `omitempty` and
is left out when it is zero; a `float64` that is infinite or not a number cannot be encoded
and makes the call fail. -/
def marshalAccrualInfo (info : AccrualInfo) : Except GoError (List (String × JSONValue)) :=
  match info.Accrual with
  | .finite v =>
    .ok ([("order", JSONValue.int info.Order), ("status", JSONValue.string info.Status)] ++
      (if v = 0 then [] else [("accrual", JSONValue.number v)]))
  | _ => .error (.other "json: unsupported value")

/-- The function `strings.Split(s, sep)` for a separator `sep` of one byte. -/
def stringsSplit (sep : Byte) : GoString → List GoString
  | [] => [[]]
  | b :: rest =>
    if b = sep then [] :: stringsSplit sep rest
    else
      match stringsSplit sep rest with
      | [] => [[b]]
      | part :: parts => (b :: part) :: parts

/-- The handler `Handler.RegisterNewOrder`. `body` is what `buf.ReadFrom(r.Body)` read
(`none` when it fails), `Unmarshal` is `json.Unmarshal` into a `models.Order` (`none` when
it fails). The result is the response and the state left. -/
def Handler.RegisterNewOrder {σ : Type} (Unmarshal : GoString → Option Order)
    (service : Handler.Service σ) (body : Option GoString) (s : σ) : HTTPResponse × σ :=
  match body with
  | none => ({ status := 400, body := none }, s)
  | some buf =>
    match Unmarshal buf with
    | none => ({ status := 400, body := none }, s)
    | some order =>
      let r := service.RegisterNewOrder order s
      match r.1.2 with
      | some _ => ({ status := 500, body := none }, r.2)
      | none =>
        if r.1.1 then ({ status := 409, body := none }, r.2)
        else ({ status := 202, body := none }, r.2)

/-- The handler `Handler.GetAccrualInfo` on the URL path `path`; `ParseInt` is
`strconv.ParseInt(n, 10, 64)`. The result is `none` when the read of `pathParts[3]` is out
of range and the handler panics. -/
def Handler.GetAccrualInfo {σ : Type} (ParseInt : GoString → Int × Option GoError)
    (service : Handler.Service σ) (path : GoString) (s : σ) : Option HTTPResponse :=
  let pathParts := stringsSplit 47 path
  if pathParts.length < 3 then some { status := 400, body := none }
  else
    match pathParts.get? 3 with
    | none => none
    | some n =>
      match (ParseInt n).2 with
      | some _ => some { status := 400, body := none }
      | none =>
        let order := (ParseInt n).1
        let r := service.GetAccrualInfo order s
        match r.2.2.2 with
        | some _ => some { status := 500, body := none }
        | none =>
          if !r.2.2.1 then some { status := 204, body := none }
          else
            match marshalAccrualInfo { Order := order, Status := r.1, Accrual := r.2.1 } with
            | .error _ => some { status := 500, body := none }
            | .ok response => some { status := 200, body := some response }

/-- The route `r.Get("/api/orders/{number}", handler.GetAccrualInfo(log))` of
`router.NewRouter`, the only one that leads to the handler: whether the router hands a request
with the URL path `path` to it. The pattern matches `/api/orders/` followed by one part,
which is not empty and has no slash. -/
def routesToGetAccrualInfo (path : GoString) : Bool :=
  (str "/api/orders/").isPrefixOf path && !(path.drop 12).isEmpty &&
    (path.drop 12).all (fun b => b != 47)

/-! ## The rate limiter (`internal/accrual/middleware/limit_requests.go`) -/

/-- The struct `Limiter`: the counter of every remote address (0 for an address that is not
a key of the map) and the time of the last reset. -/
structure Limiter where
  requests : GoString → Int
  lastReset : Int

/-- What the middleware does with a request: it answers itself, or it passes the request to
the wrapped handler. -/
inductive LimitOutcome where
  | rejected (resp : Response)
  | passed
  deriving DecidableEq, Repr

/-- The handler built by `LimitRequestsMiddleware(maxRequests, timeout)`, on one request
from the remote address `ip`: the limiter it leaves and what it does with the request.
`now` is the time read by `time.Since(limiter.lastReset)` and `resetTime` the time read by
the `time.Now()` of the reset. -/
def LimitRequestsMiddleware (maxRequests : Int) (timeout : Int) (limiter : Limiter)
    (now resetTime : Int) (ip : GoString) : Limiter × LimitOutcome :=
  let limiter1 : Limiter :=
    if now - limiter.lastReset > timeout then { requests := fun _ => 0, lastReset := resetTime }
    else limiter
  if limiter1.requests ip ≥ maxRequests then
    (limiter1, LimitOutcome.rejected (httpError "Too many requests" 429))
  else
    ({ limiter1 with requests := Function.update limiter1.requests ip (limiter1.requests ip + 1) },
      LimitOutcome.passed)

end Accrual

/-! ## The Mart order pipeline (`internal/gophermart/listener`) -/

/-- Modelled from the spec: the declaration of table `orders` (the migrations are not among
the sources), with the columns `uid` and `uploaded_at` that the listener reads and
writes. -/
structure OrderRecord extends OrderRow where
  uid : Int
  uploaded_at : Nat
  deriving DecidableEq, Repr

/-- The struct `Job` of `listener/types.go`. -/
structure Job where
  OrderID : Int
  UserID : Int
  Number : GoString
  Status : String
  Attempt : Int
  CreatedAt : Nat
  deriving DecidableEq, Repr

/-- The struct `AccrualResponse` of `listener/types.go`. -/
structure AccrualResponse where
  Order : Int
  Status : String
  Accrual : ℚ
  deriving DecidableEq, Repr

/-- A result of `queryAccrualService`: `(nil, err)`, `(nil, nil)` for the answer 204, or
`(&r, nil)` for a decoded answer 200. -/
inductive QueryResult where
  | failed (err : GoError)
  | notRegistered
  | ok (result : AccrualResponse)
  deriving DecidableEq, Repr

/-- What one run of `processOrder` does outside itself: a call of the Accrual client, or
the `UPDATE` of `updateOrderStatus` with its arguments. -/
inductive ListenerCall where
  | queryAccrualService (number : GoString)
  | updateOrderStatus (uid : Int) (status : String) (accrual : ℚ)
  deriving DecidableEq, Repr

/-- How a run of `processOrder` stands after the client results it was given: it returned
(with an error or nil), or it is still in its loop. -/
inductive ProcessOutcome where
  | returned (err : Option GoError)
  | polling
  deriving DecidableEq, Repr

/-- The statement `UPDATE orders SET status=$1, accrual=$2, uploaded_at=NOW() WHERE uid=$3`
at time `now`: the table it leaves and the number of rows affected. -/
def updateOrdersStatement (orders : List OrderRecord) (now : Nat) (status : String)
    (accrual : ℚ) (uid : Int) : List OrderRecord × Int :=
  (orders.map (fun o =>
      if o.uid = uid then { o with status := status, accrual := accrual, uploaded_at := now }
      else o),
    ((orders.filter (fun o => decide (o.uid = uid))).length : Int))

/-- The method `OrderListener.updateOrderStatus`, given what `ExecContext` answers: an
error, or the number of rows affected. -/
def OrderListener.updateOrderStatus (exec : Except GoError Int) (uid : Int) : Option GoError :=
  match exec with
  | .error err => some (.wrap "db update failed: " err)
  | .ok n => if n = 0 then some (.other ("order not found uid=" ++ toString uid)) else none

/-- The method `OrderListener.processOrder` on the successive results of
`queryAccrualService`. `ctxDone i` tells whether the context is done at the start of
iteration `i`, `exec k` is what the database answers to the `UPDATE` number `k` of the run.
The result is how the run stands when the given results are used up, and the calls made. -/
def OrderListener.processOrder (ctxDone : Nat → Bool) (exec : Nat → Except GoError Int)
    (job : Job) : List QueryResult → Nat → Nat → ProcessOutcome × List ListenerCall
  | [], i, _ =>
    if ctxDone i then (.returned (some (.other "cancelled")), []) else (.polling, [])
  | r :: rest, i, k =>
    if ctxDone i then (.returned (some (.other "cancelled")), [])
    else
      match r with
      | .failed _ =>
        let t := OrderListener.processOrder ctxDone exec job rest (i + 1) k
        (t.1, ListenerCall.queryAccrualService job.Number :: t.2)
      | .notRegistered =>
        let t := OrderListener.processOrder ctxDone exec job rest (i + 1) k
        (t.1, ListenerCall.queryAccrualService job.Number :: t.2)
      | .ok result =>
        match OrderListener.updateOrderStatus (exec k) job.OrderID with
        | some err =>
          (.returned (some err),
            [ListenerCall.queryAccrualService job.Number,
             ListenerCall.updateOrderStatus job.OrderID result.Status result.Accrual])
        | none =>
          if result.Status = "PROCESSED" ∨ result.Status = "INVALID" then
            (.returned none,
              [ListenerCall.queryAccrualService job.Number,
               ListenerCall.updateOrderStatus job.OrderID result.Status result.Accrual])
          else
            let t := OrderListener.processOrder ctxDone exec job rest (i + 1) (k + 1)
            (t.1, ListenerCall.queryAccrualService job.Number ::
              ListenerCall.updateOrderStatus job.OrderID result.Status result.Accrual :: t.2)

/-- The job that `loadExistingOrders` builds from a row: `rows.Scan(&job.OrderID,
&job.UserID, &job.Number, &job.Status, &job.CreatedAt)` and `job.Attempt = 0`. -/
def OrderListener.scanJob (o : OrderRecord) : Job :=
  { OrderID := o.uid, UserID := o.user_id, Number := o.number, Status := o.status,
    Attempt := 0, CreatedAt := o.uploaded_at }

/-- The method `OrderListener.loadExistingOrders` on the table `orders`: the jobs for which
it launches `processOrder`, in order. `queryErr` is the error of `QueryContext`, if any, and
`scanErr` the error of `rows.Scan` on a row, if any; a row that fails to scan is skipped.
The query is `SELECT ... FROM orders WHERE status='NEW' ORDER BY uploaded_at ASC`. -/
def OrderListener.loadExistingOrders (queryErr : Option GoError)
    (scanErr : OrderRecord → Option GoError) (orders : List OrderRecord) : List Job :=
  match queryErr with
  | some _ => []
  | none =>
    ((orders.filter (fun o => decide (o.status = "NEW"))).insertionSort
        (fun a b => a.uploaded_at ≤ b.uploaded_at)).filterMap (fun o =>
      match scanErr o with
      | some _ => none
      | none => some (OrderListener.scanJob o))

/-- The calls that go with one client result: the query itself, followed by one `UPDATE`
when the result is a decoded answer 200. -/
def specCalls (job : Job) : QueryResult → List ListenerCall
  | .ok result =>
    [ListenerCall.queryAccrualService job.Number,
     ListenerCall.updateOrderStatus job.OrderID result.Status result.Accrual]
  | _ => [ListenerCall.queryAccrualService job.Number]

/-- A client result that is a decoded answer 200 with status PROCESSED or INVALID. -/
def QueryResult.isTerminal : QueryResult → Bool
  | .ok result => decide (result.Status = "PROCESSED" ∨ result.Status = "INVALID")
  | _ => false

/-- Whether a call of the listener is an `UPDATE`. -/
def ListenerCall.isUpdate : ListenerCall → Bool
  | .updateOrderStatus _ _ _ => true
  | _ => false

/-! ### Concrete states of the Accrual service -/

/-- Whether `text` contains `part`. -/
def containsBytes (text part : GoString) : Bool :=
  text.tails.any (fun t => part.isPrefixOf t)

/-- PostgreSQL on values without special characters: `LIKE` with a pattern `%m%` in which
`m` has no wildcard and no backslash is containment of `m`, and an array literal built from
descriptions without quotes, commas, parentheses or backslashes and from prices with at most
six decimals is read back as the goods it was built from. -/
def plainPostgres : Accrual.Postgres :=
  { like := fun text pattern => containsBytes text (pattern.drop 1).dropLast
    castGoods := fun goods => .ok goods }

/-- The state of scenarios S2 and S4 with the rule of S1: the rule `Bork` of 10 percent, the
order 9278923470 and the order 1234567890, both registered with one line `Bork toaster` of
price 7000. -/
def scenarioS2 : Accrual.DB :=
  { products := [{ Match := str "Bork", Reward := 10, RewardType := str "%" }]
    orders_accrual :=
      [{ order_id := 9278923470,
         goods := [{ Description := str "Bork toaster", Price := 7000 }],
         status := "REGISTERED", accrual := none },
       { order_id := 1234567890,
         goods := [{ Description := str "Bork toaster", Price := 7000 }],
         status := "REGISTERED", accrual := none }] }

/-- The state of scenario S3 with an order id that fails the Luhn check: the rule `Bork`, and
the order 1234567890 registered with one line `Acme widget` of price 100. -/
def scenarioS3 : Accrual.DB :=
  { products := [{ Match := str "Bork", Reward := 10, RewardType := str "%" }]
    orders_accrual :=
      [{ order_id := 1234567890,
         goods := [{ Description := str "Acme widget", Price := 100 }],
         status := "REGISTERED", accrual := none }] }

/-- The order of the service test "Ok - New Order": the number `12345` with one goods line. -/
def orderOfTest : Accrual.Order :=
  { Order := str "12345"
    Goods := [{ Description := str "product1", Price := 100.5 }] }

/-- An order with the number `1234567890`, which scenario S3 has registered. -/
def orderRegistered : Accrual.Order :=
  { Order := str "1234567890"
    Goods := [{ Description := str "product1", Price := 100.5 }] }

/-- A state whose rule and goods line give an accrual outside the range of `float64`: the rule
`Bork` of `2^600` percent and the order 9278923470 registered with one line `Bork toaster`
of price `2^600`. Both numbers are `float64` values. -/
def scenarioOverflow : Accrual.DB :=
  { products := [{ Match := str "Bork", Reward := 2 ^ 600, RewardType := str "%" }]
    orders_accrual :=
      [{ order_id := 9278923470,
         goods := [{ Description := str "Bork toaster", Price := 2 ^ 600 }],
         status := "REGISTERED", accrual := none }] }

/-- A state in which a product is rounded before it is divided: the rule `Bork` of 7 percent
and the order 9278923470 registered with one line `Bork toaster` whose price is the
`float64` nearest to 0.1. -/
def scenarioRounding : Accrual.DB :=
  { products := [{ Match := str "Bork", Reward := 7, RewardType := str "%" }]
    orders_accrual :=
      [{ order_id := 9278923470,
         goods := [{ Description := str "Bork toaster",
                     Price := 3602879701896397 / 36028797018963968 }],
         status := "REGISTERED", accrual := none }] }

/-- A state in which small terms are absorbed by a large one: the fixed rewards `10^16` for
`Bork`, 1 for `toaster` and 1 for `oast`, and the order 9278923470 registered with one line
`Bork toaster`, which the three rules match. -/
def scenarioAbsorbed : Accrual.DB :=
  { products := [{ Match := str "Bork", Reward := 10000000000000000, RewardType := str "pt" },
                 { Match := str "toaster", Reward := 1, RewardType := str "pt" },
                 { Match := str "oast", Reward := 1, RewardType := str "pt" }]
    orders_accrual :=
      [{ order_id := 9278923470,
         goods := [{ Description := str "Bork toaster", Price := 7000 }],
         status := "REGISTERED", accrual := none }] }

/-- A state with a rule of reward zero: the rule `Bork` of 0 percent and the order 9278923470
registered with one line `Bork toaster` of price 7000. -/
def scenarioZeroReward : Accrual.DB :=
  { products := [{ Match := str "Bork", Reward := 0, RewardType := str "%" }]
    orders_accrual :=
      [{ order_id := 9278923470,
         goods := [{ Description := str "Bork toaster", Price := 7000 }],
         status := "REGISTERED", accrual := none }] }

/-! ### The matcher in the words of the specification -/

namespace Accrual

/-- The value `m[k]` of a `map[int64][]T`, nil for a key that is not in the map. -/
def mapLookup {α : Type} (m : List (Int × List α)) (k : Int) : List α :=
  (m.filter (fun e => decide (e.1 = k))).flatMap (fun e => e.2)

/-- The rows of `ParseMatch` for a rule that the tick uses: none when the call fails. -/
def Service.usedRows {σ : Type} (repo : Repository σ) (s : σ) (product : ProductReward) :
    List ParseMatch :=
  match (repo.ParseMatch product.Match s).2 with
  | some _ => []
  | none => (repo.ParseMatch product.Match s).1

/-- The order ids matched by some product rule in the tick that starts in state `s`. -/
def Service.matchedIDs {σ : Type} (repo : Repository σ) (s : σ) : List Int :=
  (repo.GetProductsInfo s).1.flatMap (fun p => (Service.usedRows repo s p).map (fun o => o.Order))

/-- The call that the second loop of `processOrders` makes for an entry of `orderProducts`. -/
def Service.entryCall (entry : Int × List orderProductMatch) : Call :=
  if !ValidateLuhn (FormatInt entry.1) || !ContainsOnlyDigits (FormatInt entry.1) then
    Call.UpdateStatus Invalid entry.1
  else Call.UpdateAccrualInfo entry.1 (Service.totalAccrual entry.2) Processed

/-- The state in which `processOrders` calls `GetUnprocessedOrders`, when it gets there: the
state left by its first two loops. -/
def Service.stateAfterMatched {σ : Type} (repo : Repository σ) (ctxDone : Nat → Bool)
    (rangeOrder : List (Int × List orderProductMatch) → List (Int × List orderProductMatch))
    (s : σ) : σ :=
  (Service.updateMatched repo ctxDone (repo.GetProductsInfo s).1.length
    (rangeOrder (Service.collectMatches repo ctxDone s 0 (repo.GetProductsInfo s).1
      ([], [])).orderProducts) s).2.1

/-- Whether a call is an `UpdateAccrualInfo` for the order `id`. -/
def Call.isUpdateAccrualInfoOf (id : Int) : Call → Bool
  | .UpdateAccrualInfo order _ _ => decide (order = id)
  | _ => false

/-- The contribution of one goods line of price `price` matched by the rule `product`:
`price * reward / 100` when the reward type is `%`, and `reward` otherwise, as numbers. -/
def specContribution (product : ProductReward) (price : ℚ) : ℚ :=
  if product.RewardType = str "%" then price * product.Reward / 100 else product.Reward

/-- The contribution of one goods line of price `price` matched by the rule `product`, as
the `float64` arithmetic of Go computes it: `price * reward` rounded to a `float64`, and
that divided by 100 and rounded again, when the reward type is `%`, and `reward`
otherwise. -/
def float64Contribution (product : ProductReward) (price : ℚ) : Float64 :=
  if product.RewardType = str "%" then
    Float64.div (Float64.mul (.finite price) (.finite product.Reward)) 100
  else .finite product.Reward

/-- What the invariant on accruals asks of a call: an `UpdateAccrualInfo` sets PROCESSED with
an accrual that is not negative, and an `UpdateStatus` sets INVALID. -/
def Call.keepsInvariant : Call → Prop
  | .UpdateAccrualInfo _ accrual status => status = "PROCESSED" ∧ 0 ≤ accrual
  | .UpdateStatus status _ => status = "INVALID"
  | _ => True

end Accrual

/-- A state with a rule of negative reward: the fixed reward -10 for `Bork`, and the order
9278923470 registered with one line `Bork toaster` of price 7000. -/
def scenarioNegativeReward : Accrual.DB :=
  { products := [{ Match := str "Bork", Reward := -10, RewardType := str "pt" }]
    orders_accrual :=
      [{ order_id := 9278923470,
         goods := [{ Description := str "Bork toaster", Price := 7000 }],
         status := "REGISTERED", accrual := none }] }

/-! ## The Luhn sum in the words of the claim on `ValidateLuhn` -/

/-- The value that the standard Luhn sum takes for the digit `d` that is the `k`-th from the
right (counted from 1): the 1st, 3rd, 5th ... digit is left unchanged, and every 2nd, 4th
... digit is replaced by `2d` if `2d <= 9` and by `2d - 9` otherwise. -/
def standardLuhnTerm (k : Nat) (d : Nat) : Nat :=
  if k % 2 = 0 then (if 2 * d ≤ 9 then 2 * d else 2 * d - 9) else d

/-- The standard Luhn sum of a string of decimal digits, the digits taken from right to
left. -/
def standardLuhnSum (n : GoString) : Nat :=
  ((n.reverse.enumFrom 1).map (fun p => standardLuhnTerm p.1 (p.2.val - 48))).sum

/-! ## The classification of store errors (`repository/postgres/errors.go`) -/

/-- The type `ErrorClassification` with its two constants. -/
inductive ErrorClassification where
  | NonRetriable
  | Retriable
  deriving DecidableEq, Repr

/-- An `error` value as `errors.As` with a target of type `*pgconn.PgError` sees it: a
`*pgconn.PgError` with its field `Code` (the type has no `Unwrap` method), an error of
another type that wraps nothing, or an error that wraps one error (`fmt.Errorf` with one
`%w`, the only way in which the sources wrap errors). -/
inductive StoreError where
  | pgError (Code : GoString)
  | plain (text : String)
  | wrap (pre : String) (err : StoreError)
  deriving DecidableEq, Repr

/-- The function `errors.As(err, &pgErr)` for `pgErr` of type `*pgconn.PgError`: the code of
the first such error in the chain of `err`, if there is one. -/
def errorsAsPgError : StoreError → Option GoString
  | .pgError code => some code
  | .plain _ => none
  | .wrap _ err => errorsAsPgError err

/-- The function `strings.HasPrefix`. -/
def stringsHasPrefix : GoString → GoString → Bool
  | _, [] => true
  | [], _ :: _ => false
  | b :: s, c :: p => b == c && stringsHasPrefix s p

/-- The constant `pgerrcode.SerializationFailure`. The values of the five constants are
those of the SQLSTATE codes that `errors_test.go` gives for the cases of the same names. -/
def pgerrcode.SerializationFailure : GoString := str "40001"

/-- The constant `pgerrcode.DeadlockDetected`. -/
def pgerrcode.DeadlockDetected : GoString := str "40P01"

/-- The constant `pgerrcode.AdminShutdown`. -/
def pgerrcode.AdminShutdown : GoString := str "57P01"

/-- The constant `pgerrcode.CrashShutdown`. -/
def pgerrcode.CrashShutdown : GoString := str "57P02"

/-- The constant `pgerrcode.CannotConnectNow`. -/
def pgerrcode.CannotConnectNow : GoString := str "57P03"

/-- The method `PostgresErrorClassifier.classifyPostgresError`, on the field `Code` of its
argument. -/
def PostgresErrorClassifier.classifyPostgresError (Code : GoString) : ErrorClassification :=
  if stringsHasPrefix Code (str "08") then .Retriable
  else if Code = pgerrcode.SerializationFailure ∨ Code = pgerrcode.DeadlockDetected ∨
      Code = pgerrcode.AdminShutdown ∨ Code = pgerrcode.CrashShutdown ∨
      Code = pgerrcode.CannotConnectNow then .Retriable
  else .NonRetriable

/-- The method `PostgresErrorClassifier.Classify`; `none` is the error `nil`. -/
def PostgresErrorClassifier.Classify (err : Option StoreError) : ErrorClassification :=
  match err with
  | none => .NonRetriable
  | some e =>
    match errorsAsPgError e with
    | some code => PostgresErrorClassifier.classifyPostgresError code
    | none => .NonRetriable

/-- An error is, or wraps, a `*pgconn.PgError` with the code `code`. -/
inductive StoreError.isOrWraps : StoreError → GoString → Prop where
  | self (code : GoString) : StoreError.isOrWraps (.pgError code) code
  | wrap (pre : String) (err : StoreError) (code : GoString) :
      StoreError.isOrWraps err code → StoreError.isOrWraps (.wrap pre err) code

/-- The codes that the claim on `Classify` calls retriable: those that start with `08`, and
40001, 40P01, 57P01, 57P02, 57P03. -/
def specRetriableCode (code : GoString) : Prop :=
  (∃ rest, code = str "08" ++ rest) ∨ code = str "40001" ∨ code = str "40P01" ∨
    code = str "57P01" ∨ code = str "57P02" ∨ code = str "57P03"

/-! ## The table `users` (`repository/postgres/postgres.go`) -/

/-- The function `HashPassword`. `Sum256` is `sha256.Sum256` and `EncodeToString` is
`hex.EncodeToString`. -/
def HashPassword (Sum256 : GoString → GoString) (EncodeToString : GoString → GoString)
    (password : GoString) : GoString :=
  EncodeToString (Sum256 password)

/-- The method `PostgresStorage.GetUserByLogin` on the rows of table `users`. `fault` is the
error of the query, if it fails otherwise than by finding no row. -/
def PostgresStorage.GetUserByLogin (fault : Option GoError) (users : List User)
    (login : GoString) : Except GoError (Option User) :=
  match fault with
  | some err =>
    if err = sqlErrNoRows then .ok none
    else .error (.wrap "failed to get user by login: " err)
  | none => .ok (users.find? (fun u => decide (u.Login = login)))

/-- The errors that the database may answer to the two statements of `CreateUser`. -/
structure CreateUserFaults where
  getUserByLogin : Option GoError
  insert : Option GoError

/-- The method `PostgresStorage.CreateUser`: its result and the rows of table `users` it
leaves. `id` and `now` are the values that the database gives to the columns `id` and
`created_at` of the inserted row. -/
def PostgresStorage.CreateUser (Sum256 : GoString → GoString)
    (EncodeToString : GoString → GoString) (faults : CreateUserFaults) (users : List User)
    (id : Int) (now : Nat) (login password : GoString) : Except GoError User × List User :=
  match PostgresStorage.GetUserByLogin faults.getUserByLogin users login with
  | .error err => (.error (.wrap "failed to check user existence: " err), users)
  | .ok (some _) => (.error (.other "login already exists"), users)
  | .ok none =>
    let hashedPassword := HashPassword Sum256 EncodeToString password
    match faults.insert with
    | some err => (.error (.wrap "failed to create user: " err), users)
    | none =>
      let user : User :=
        { ID := id, Login := login, PasswordHash := hashedPassword, CreatedAt := now }
      (.ok user, users ++ [user])

/-! ## The Accrual client of the listener (`OrderListener.queryAccrualService`) -/

/-- What `client.Get(url)` answers, as far as `queryAccrualService` reads it: the status
code, the header `Retry-After` (`none` when the answer has no such header) and the result
of decoding the body into an `AccrualResponse`. -/
structure AccrualReply where
  StatusCode : Int
  RetryAfter : Option GoString
  Body : Except GoError AccrualResponse

/-- The method `Header.Get`: the value of the header, the empty string when it is absent. -/
def headerGet (header : Option GoString) : GoString :=
  header.getD []

/-- The value of an `int64` expression whose mathematical value is `x`: arithmetic on
`int64` wraps around. -/
def wrapInt64 (x : Int) : Int :=
  (x + 2 ^ 63) % 2 ^ 64 - 2 ^ 63

/-- The constant `time.Second`, in nanoseconds, the unit of `time.Duration`. -/
def timeSecond : Int := 1000000000

/-- The method `OrderListener.queryAccrualService`, given what `client.Get(url)` answers:
its result, and the durations of its calls of `time.Sleep`, in nanoseconds. `Atoi` is
`strconv.Atoi`, whose error the method drops. -/
def OrderListener.queryAccrualService (Atoi : GoString → Int × Option GoError)
    (get : Except GoError AccrualReply) : QueryResult × List Int :=
  match get with
  | .error err => (.failed (.wrap "http request failed: " err), [])
  | .ok resp =>
    if resp.StatusCode = 200 then
      match resp.Body with
      | .error err => (.failed (.wrap "failed to decode accrual response: " err), [])
      | .ok r => (.ok r, [])
    else if resp.StatusCode = 429 then
      let ra := headerGet resp.RetryAfter
      let sec := (Atoi ra).1
      let sec := if sec = 0 then 60 else sec
      (.failed (.other "rate limit"), [wrapInt64 (sec * timeSecond)])
    else if resp.StatusCode = 204 then (.notRegistered, [])
    else (.failed (.other ("unexpected status: " ++ toString resp.StatusCode)), [])

/-! ## The session cookie (`internal/gophermart/middleware/cookie.go`) -/

/-- The interface `cipher.AEAD` as `Encrypt` and `decrypt` use it, without additional data.
`Seal nonce plaintext` is what `gcm.Seal(dst, nonce, plaintext, nil)` appends to `dst`, and
`Open nonce ciphertext` is `gcm.Open(nil, nonce, ciphertext, nil)`. -/
structure AEAD where
  NonceSize : Nat
  Seal : GoString → GoString → GoString
  Open : GoString → GoString → Except GoError GoString

/-- The library functions of `cookie.go`: `aes.NewCipher`, `cipher.NewGCM`, and the methods
`EncodeToString` and `DecodeString` of `base64.URLEncoding`. -/
structure CryptoLibrary (Block : Type) where
  NewCipher : GoString → Except GoError Block
  NewGCM : Block → Except GoError AEAD
  EncodeToString : GoString → GoString
  DecodeString : GoString → Except GoError GoString

/-- The variable `encryptionKey`: the bytes of the constant `config.EncryptionKey`. -/
def encryptionKey : GoString := str "32-bytes-long-key-1234567890777!"

/-- The function `Encrypt`. `rand n` is what `rand.Read` puts into a slice of `n` bytes, or
its error. -/
def Encrypt {Block : Type} (lib : CryptoLibrary Block) (rand : Nat → Except GoError GoString)
    (userID : GoString) : Except GoError GoString :=
  match lib.NewCipher encryptionKey with
  | .error err => .error err
  | .ok block =>
    match lib.NewGCM block with
    | .error err => .error err
    | .ok gcm =>
      match rand gcm.NonceSize with
      | .error err => .error err
      | .ok nonce =>
        let cipherText := nonce ++ gcm.Seal nonce userID
        .ok (lib.EncodeToString cipherText)

/-- The function `decrypt`. -/
def decrypt {Block : Type} (lib : CryptoLibrary Block) (val : GoString) :
    Except GoError GoString :=
  match lib.DecodeString val with
  | .error err => .error err
  | .ok data =>
    match lib.NewCipher encryptionKey with
    | .error err => .error err
    | .ok block =>
      match lib.NewGCM block with
      | .error err => .error err
      | .ok gcm =>
        let nonceSize := gcm.NonceSize
        if data.length < nonceSize then .error (.other "ciphertext to short")
        else
          let nonce := data.take nonceSize
          let cipherText := data.drop nonceSize
          match gcm.Open nonce cipherText with
          | .error err => .error err
          | .ok plainText => .ok plainText

/-- The fields `Value` and `Expires` of an `http.Cookie`; `Expires` is `none` for the zero
time. -/
structure Cookie where
  Value : GoString
  Expires : Option Int
  deriving DecidableEq, Repr

/-- What the middleware does with a request: it answers itself, or it calls the wrapped
handler with the value `userID` under the key `UserIDKey` in the context of the request. -/
inductive AccessOutcome where
  | rejected (resp : Response)
  | next (userID : GoString)
  deriving DecidableEq, Repr

/-- The method `GofemartService.GetUserByID`; `repoGetUserByID` is the method of the same
name of the repository. -/
def GofemartService.GetUserByID (repoGetUserByID : Int → Except GoError (Option User))
    (userID : Int) : Except GoError (Option User) :=
  if userID ≤ 0 then .error (.other "invalid user ID") else repoGetUserByID userID

/-- The handler built by `AccessCookieMiddleware(repo)`, on one request. `cookie` is the
result of `r.Cookie("userID")`, `now` is the time read by `time.Now()`. -/
def AccessCookieMiddleware {Block : Type} (lib : CryptoLibrary Block)
    (Atoi : GoString → Int × Option GoError)
    (repoGetUserByID : Int → Except GoError (Option User)) (now : Int)
    (cookie : Except GoError Cookie) : AccessOutcome :=
  match cookie with
  | .error _ => .rejected (httpError "authentication required" 401)
  | .ok cookie =>
    if (match cookie.Expires with
        | some expires => decide (expires < now)
        | none => false) then
      .rejected (httpError "cookie expired" 401)
    else
      match decrypt lib cookie.Value with
      | .error _ => .rejected (httpError "invalid authentication cookie" 401)
      | .ok userIDStr =>
        match (Atoi userIDStr).2 with
        | some _ => .rejected (httpError "invalid user ID in cookie" 401)
        | none =>
          match GofemartService.GetUserByID repoGetUserByID (Atoi userIDStr).1 with
          | .error _ => .rejected (httpError "user not found" 401)
          | .ok none => .rejected (httpError "user not found" 401)
          | .ok (some _) => .next userIDStr

/-- An instance of the library interfaces that keeps their contracts, for running the
definitions: a cipher that seals a text as itself under a nonce of 12 bytes, and an
encoding that leaves the bytes as they are. -/
def plainLibrary : CryptoLibrary Unit :=
  { NewCipher := fun _ => .ok ()
    NewGCM := fun _ => .ok { NonceSize := 12, Seal := fun _ text => text,
                             Open := fun _ text => .ok text }
    EncodeToString := fun text => text
    DecodeString := fun text => .ok text }

/-! ## Runs of the rate limiter -/

namespace Accrual

/-- One request to the handler of the limiter: the time read by `time.Since`, the time
read by the `time.Now()` of the reset, and the remote address. -/
structure LimitedRequest where
  now : Int
  resetTime : Int
  ip : GoString
  deriving DecidableEq, Repr

/-- What the handler did with one request: whether it reset the counters, the remote
address, and whether it passed the request to the wrapped handler. -/
structure LimitStep where
  reset : Bool
  ip : GoString
  passed : Bool
  deriving DecidableEq, Repr

/-- The limiter that `LimitRequestsMiddleware` creates at time `created`: an empty map. -/
def newLimiter (created : Int) : Limiter :=
  { requests := fun _ => 0, lastReset := created }

/-- The handler on a sequence of requests, served one after the other (the mutex is held
for the whole of a request): the limiter left and what was done with each request. -/
def serveRequests (maxRequests timeout : Int) : Limiter → List LimitedRequest →
    Limiter × List LimitStep
  | limiter, [] => (limiter, [])
  | limiter, r :: rest =>
    let t := LimitRequestsMiddleware maxRequests timeout limiter r.now r.resetTime r.ip
    let u := serveRequests maxRequests timeout t.1 rest
    (u.1, { reset := decide (r.now - limiter.lastReset > timeout), ip := r.ip,
            passed := decide (t.2 = LimitOutcome.passed) } :: u.2)

/-- The number of requests from the address `ip` that were passed to the wrapped handler
among the given steps. -/
def passedFrom (ip : GoString) (steps : List LimitStep) : Nat :=
  steps.countP (fun st => st.passed && decide (st.ip = ip))

end Accrual

/-- The function `strconv.ParseInt(s, 10, 64)`: an optional sign and decimal digits; a
syntax error gives 0 and a value out of range gives the nearest bound, both with an
error. -/
def strconvParseInt (s : GoString) : Int × Option GoError :=
  let parseFailure : Int × Option GoError :=
    (0, some (.other "strconv.ParseInt: invalid syntax"))
  let outOfRange : Option GoError := some (.other "strconv.ParseInt: value out of range")
  let neg : Bool := s.head? = some 45
  let digits : GoString := if s.head? = some 45 ∨ s.head? = some 43 then s.tail else s
  if digits = [] then parseFailure
  else
    match parseDigits digits 0 with
    | none => parseFailure
    | some n =>
      if neg then
        if n > 2 ^ 63 then (-(2 ^ 63 : Int), outOfRange) else (-(n : Int), none)
      else
        if n ≥ 2 ^ 63 then ((2 ^ 63 : Int) - 1, outOfRange) else ((n : Int), none)

namespace Accrual

/-- Whether a call is an update of the order `id`: an `UpdateStatus` or an
`UpdateAccrualInfo` for it. -/
def Call.isUpdateOf (id : Int) : Call → Bool
  | .UpdateAccrualInfo order _ _ => decide (order = id)
  | .UpdateStatus _ order => decide (order = id)
  | _ => false

/-- The calls of a tick that nothing interrupts and in which `GetUnprocessedOrders`
succeeds, written out: the calls of the first loop, one call for every entry of
`orderProducts`, then `GetUnprocessedOrders` and one zero-accrual update for every id it
returns that is not a key of `processedOrderIDs`. -/
def Service.fullCalls {σ : Type} (repo : Repository σ) (ctxDone : Nat → Bool)
    (rangeOrder : List (Int × List orderProductMatch) → List (Int × List orderProductMatch))
    (s : σ) : List Call :=
  Call.GetProductsInfo ::
    ((Service.collectMatches repo ctxDone s 0 (repo.GetProductsInfo s).1 ([], [])).calls ++
      (rangeOrder (Service.collectMatches repo ctxDone s 0 (repo.GetProductsInfo s).1
        ([], [])).orderProducts).map Service.entryCall ++
      Call.GetUnprocessedOrders ::
        (((repo.GetUnprocessedOrders (Service.stateAfterMatched repo ctxDone rangeOrder s)).1.filter
          (fun id => decide (id ∉ (Service.collectMatches repo ctxDone s 0
            (repo.GetProductsInfo s).1 ([], [])).processedOrderIDs))).map
          (fun id => Call.UpdateAccrualInfo id 0 Processed)))

end Accrual

/-! # Theorems -/

/-! ## Lemmas on `pkg/luhn.go` -/

theorem decodeRune_ascii (b : Byte) (rest : GoString) (h : b.val < 0x80) :
    DecodeRuneInString (b :: rest) = (b.val, 1) := by
  simp [DecodeRuneInString, h]

theorem first_some (b sz lo hi : Nat) (h : first b = some (sz, lo, hi)) :
    (sz = 2 ∧ 194 ≤ b ∧ b ≤ 223) ∨
    (sz = 3 ∧ hi ≤ 191 ∧ ((b = 224 ∧ lo = 160) ∨ (225 ≤ b ∧ b ≤ 239))) ∨
    (sz = 4 ∧ hi ≤ 191 ∧ ((b = 240 ∧ lo = 144) ∨ (241 ≤ b ∧ b ≤ 244))) := by
  unfold first at h
  split_ifs at h <;> simp only [Option.some.injEq, Prod.mk.injEq] at h <;> omega

theorem decodeRune_nonascii (b : Byte) (rest : GoString) (h : ¬ b.val < 0x80) :
    57 < (DecodeRuneInString (b :: rest)).1 := by
  simp only [DecodeRuneInString, if_neg h]
  cases hf : first b.val with
  | none => simp [RuneError]
  | some t =>
    obtain ⟨sz, lo, hi⟩ := t
    have hk := first_some _ _ _ _ hf
    rcases rest with _ | ⟨s1, _ | ⟨s2, _ | ⟨s3, rest3⟩⟩⟩ <;> dsimp only <;> split_ifs <;>
      (simp only [RuneError]; omega)

theorem containsOnlyDigitsLoop_iff (s : GoString) :
    containsOnlyDigitsLoop 0 s = true ↔ ∀ b ∈ s, isDecimalDigit b := by
  induction s with
  | nil => simp [containsOnlyDigitsLoop]
  | cons b rest ih =>
    by_cases h : b.val < 0x80
    · simp only [containsOnlyDigitsLoop, decodeRune_ascii b rest h, List.mem_cons,
        forall_eq_or_imp, isDecimalDigit]
      by_cases hd : b.val < 48 ∨ b.val > 57
      · simp only [hd, if_true]
        constructor
        · intro hf; cases hf
        · intro hh; omega
      · simp only [hd, if_false, Nat.sub_self, ih]
        constructor
        · intro hh; exact ⟨by omega, hh⟩
        · intro hh; exact hh.2
    · have h57 := decodeRune_nonascii b rest h
      simp only [containsOnlyDigitsLoop, List.mem_cons, forall_eq_or_imp, isDecimalDigit]
      have : (DecodeRuneInString (b :: rest)).1 < 48 ∨ (DecodeRuneInString (b :: rest)).1 > 57 :=
        Or.inr h57
      simp only [this, if_true]
      constructor
      · intro hf; cases hf
      · intro hh; omega

theorem containsOnlyDigits_iff (s : GoString) :
    ContainsOnlyDigits s = true ↔ ∀ b ∈ s, isDecimalDigit b :=
  containsOnlyDigitsLoop_iff s

theorem luhnDigit_of_ge (b : Byte) (isSecond : Bool) (k : Nat) (hb : 48 ≤ b.val)
    (hk : k % 2 = if isSecond then 1 else 0) :
    luhnDigit b isSecond = specLuhnTerm k ((b.val : Int) - 48) := by
  have hlt := b.isLt
  have hd : (((b.val + 256 - 48) % 256 : Nat) : Int) = (b.val : Int) - 48 := by omega
  cases isSecond
  · simp only [luhnDigit, specLuhnTerm, hd] at hk ⊢
    simp [hk]
  · simp only [luhnDigit, specLuhnTerm, hd, if_true] at hk ⊢
    simp only [hk, if_true]
    split_ifs <;> omega

theorem luhnLoop_eq (l : List Byte) (hl : ∀ b ∈ l, 48 ≤ b.val) :
    ∀ (sum : Int) (isSecond : Bool) (k : Nat), (k % 2 = if isSecond then 1 else 0) →
      luhnLoop l sum isSecond
        = sum + ((l.enumFrom k).map (fun p => specLuhnTerm p.1 ((p.2.val : Int) - 48))).sum := by
  induction l with
  | nil => intro sum isSecond k _; simp [luhnLoop]
  | cons b rest ih =>
    intro sum isSecond k hk
    have hb : 48 ≤ b.val := hl b (List.mem_cons_self _ _)
    have hrest : ∀ b ∈ rest, 48 ≤ b.val := fun x hx => hl x (List.mem_cons_of_mem _ hx)
    have hk' : (k + 1) % 2 = if (!isSecond) then 1 else 0 := by
      cases isSecond <;> simp at hk ⊢ <;> omega
    rw [luhnLoop, ih hrest _ _ (k + 1) hk', luhnDigit_of_ge b isSecond k hb hk]
    simp only [List.enumFrom_cons, List.map_cons, List.sum_cons]
    ring

theorem validateLuhn_eq_spec (n : GoString) (hn : ∀ b ∈ n, isDecimalDigit b) :
    ValidateLuhn n = true ↔ specLuhnChecksum n % 10 = 0 := by
  have h := luhnLoop_eq n.reverse (fun b hb => (hn b (List.mem_reverse.mp hb)).1) 0 false 0
    (by simp)
  simp only [ValidateLuhn, specLuhnChecksum, List.enum, h, zero_add, beq_iff_eq]

theorem validOrderNumber_iff (n : GoString) :
    validOrderNumber n = true ↔
      (∀ b ∈ n, isDecimalDigit b) ∧ specLuhnChecksum n % 10 = 0 := by
  simp only [validOrderNumber, Bool.and_eq_true, containsOnlyDigits_iff]
  constructor
  · rintro ⟨hd, hl⟩
    exact ⟨hd, (validateLuhn_eq_spec n hd).mp hl⟩
  · rintro ⟨hd, hl⟩
    exact ⟨hd, (validateLuhn_eq_spec n hd).mpr hl⟩

theorem not_validOrderNumber_iff (n : GoString) :
    (!ContainsOnlyDigits n || !ValidateLuhn n) = true ↔ validOrderNumber n = false := by
  simp only [validOrderNumber]
  cases ContainsOnlyDigits n <;> cases ValidateLuhn n <;> simp

/-! ## Lemmas on `float64` -/

theorem floorLog2Loop_spec :
    ∀ (fuel n : Nat), 1 ≤ n → n ≤ fuel →
      2 ^ floorLog2Loop fuel n ≤ n ∧ n < 2 ^ (floorLog2Loop fuel n + 1) := by
  intro fuel
  induction fuel with
  | zero => intro n h1 h0; omega
  | succ fuel ih =>
    intro n h1 hf
    by_cases h2 : n < 2
    · simp only [floorLog2Loop, h2, if_true]
      omega
    · simp only [floorLog2Loop, h2, if_false]
      obtain ⟨a, b⟩ := ih (n / 2) (by omega) (by omega)
      rw [pow_succ] at b ⊢
      rw [pow_succ]
      constructor
      · omega
      · omega

theorem floorLog2_spec (n : Nat) (h : 1 ≤ n) :
    2 ^ floorLog2 n ≤ n ∧ n < 2 ^ (floorLog2 n + 1) :=
  floorLog2Loop_spec n n h (le_refl n)

theorem roundHalfEven_cases (x : ℚ) : roundHalfEven x = ⌊x⌋ ∨ roundHalfEven x = ⌊x⌋ + 1 := by
  unfold roundHalfEven
  split_ifs <;> simp

theorem roundHalfEven_nonneg (x : ℚ) (h : 0 ≤ x) : 0 ≤ roundHalfEven x := by
  have hf : 0 ≤ ⌊x⌋ := Int.floor_nonneg.mpr h
  rcases roundHalfEven_cases x with h1 | h1 <;> omega

theorem roundHalfEven_pos (x : ℚ) (h : 1 ≤ x) : 1 ≤ roundHalfEven x := by
  have hf : 1 ≤ ⌊x⌋ := Int.le_floor.mpr (by simpa using h)
  rcases roundHalfEven_cases x with h1 | h1 <;> omega

theorem roundHalfEven_int (k : ℤ) : roundHalfEven (k : ℚ) = k := by
  unfold roundHalfEven
  simp

theorem two_zpow_pos (e : ℤ) : (0 : ℚ) < (2 : ℚ) ^ e :=
  zpow_pos (by norm_num) e

theorem exponentOf_le (q : ℚ) (hq : 0 < q) : (2 : ℚ) ^ (Float64.exponentOf q) ≤ q := by
  have hnum : 0 < q.num := Rat.num_pos.mpr hq
  have hn1 : 1 ≤ q.num.natAbs := by omega
  have hd1 : 1 ≤ q.den := q.den_pos
  obtain ⟨ha, _⟩ := floorLog2_spec q.num.natAbs hn1
  obtain ⟨_, hb⟩ := floorLog2_spec q.den hd1
  have hk : (2 : ℚ) ^ ((floorLog2 q.num.natAbs : ℤ) - (floorLog2 q.den : ℤ) - 1) ≤ q := by
    have h1 : ((q.num.natAbs : ℕ) : ℚ) = (q.num : ℚ) := by
      rw [Nat.cast_natAbs, abs_of_pos hnum]
    have hq' : q = (q.num.natAbs : ℚ) / (q.den : ℚ) := by
      rw [h1]
      exact (Rat.num_div_den q).symm
    have ha' : (2 : ℚ) ^ (floorLog2 q.num.natAbs) ≤ (q.num.natAbs : ℚ) := by
      exact_mod_cast ha
    have hb' : (q.den : ℚ) ≤ (2 : ℚ) ^ (floorLog2 q.den + 1) := by
      exact_mod_cast hb.le
    have hdpos : (0 : ℚ) < q.den := by exact_mod_cast hd1
    rw [show (floorLog2 q.num.natAbs : ℤ) - (floorLog2 q.den : ℤ) - 1
        = (floorLog2 q.num.natAbs : ℤ) - ((floorLog2 q.den + 1 : ℕ) : ℤ) by push_cast; ring]
    rw [zpow_sub₀ (by norm_num : (2 : ℚ) ≠ 0), zpow_natCast, zpow_natCast]
    conv_rhs => rw [hq']
    exact div_le_div₀ (Nat.cast_nonneg _) ha' hdpos hb'
  unfold Float64.exponentOf
  dsimp only
  split_ifs with h
  · exact h
  · exact hk

theorem roundPos_cases (q : ℚ) (hq : 0 < q) :
    Float64.roundPos q = .posInf ∨ ∃ v, 0 ≤ v ∧ Float64.roundPos q = .finite v := by
  unfold Float64.roundPos
  dsimp only
  split_ifs
  · exact Or.inl rfl
  · refine Or.inr ⟨_, ?_, rfl⟩
    apply mul_nonneg
    · exact_mod_cast roundHalfEven_nonneg _ (div_nonneg hq.le (two_zpow_pos _).le)
    · exact (two_zpow_pos _).le

theorem roundPos_grid (q v : ℚ) (h : Float64.roundPos q = .finite v) :
    ∃ k : ℤ, v = (k : ℚ) * (2 : ℚ) ^ (-1074 : ℤ) := by
  unfold Float64.roundPos at h
  dsimp only at h
  split_ifs at h
  simp only [Float64.finite.injEq] at h
  have he : (-1022 : ℤ) ≤ max (Float64.exponentOf q) (-1022) := le_max_right _ _
  obtain ⟨n, hn⟩ : ∃ n : ℕ, max (Float64.exponentOf q) (-1022) - 52 = (n : ℤ) + (-1074) :=
    ⟨(max (Float64.exponentOf q) (-1022) + 1022).toNat, by
      rw [Int.toNat_of_nonneg (by omega)]; ring⟩
  rw [hn, zpow_add₀ (by norm_num : (2 : ℚ) ≠ 0), zpow_natCast] at h
  refine ⟨roundHalfEven (q / ((2 : ℚ) ^ n * (2 : ℚ) ^ (-1074 : ℤ))) * 2 ^ n, ?_⟩
  rw [← h]
  push_cast
  ring

theorem roundPos_pos (q : ℚ) (hq : 0 < q) (hgrid : ∃ j : ℤ, q = (j : ℚ) * (2 : ℚ) ^ (-1074 : ℤ)) :
    Float64.roundPos q = .posInf ∨ ∃ v, 0 < v ∧ Float64.roundPos q = .finite v := by
  have hulp : (2 : ℚ) ^ (max (Float64.exponentOf q) (-1022) - 52) ≤ q := by
    by_cases hc : (-1022 : ℤ) ≤ Float64.exponentOf q
    · rw [max_eq_left hc]
      exact le_trans (zpow_le_zpow_right₀ (by norm_num) (by omega)) (exponentOf_le q hq)
    · rw [max_eq_right (by omega)]
      obtain ⟨j, hj⟩ := hgrid
      have hpos := two_zpow_pos (-1074)
      have hj1 : (1 : ℤ) ≤ j := by
        by_contra hneg
        have hj0 : (j : ℚ) ≤ 0 := by exact_mod_cast (by omega : j ≤ 0)
        have : q ≤ 0 := by rw [hj]; exact mul_nonpos_of_nonpos_of_nonneg hj0 hpos.le
        linarith
      have hj1' : (1 : ℚ) ≤ (j : ℚ) := by exact_mod_cast hj1
      rw [hj, show (-1022 : ℤ) - 52 = -1074 by norm_num]
      nlinarith
  unfold Float64.roundPos
  dsimp only
  split_ifs
  · exact Or.inl rfl
  · refine Or.inr ⟨_, ?_, rfl⟩
    apply mul_pos
    · have h1 : (1 : ℚ) ≤ q / (2 : ℚ) ^ (max (Float64.exponentOf q) (-1022) - 52) := by
        rw [le_div_iff₀ (two_zpow_pos _)]
        simpa using hulp
      exact_mod_cast roundHalfEven_pos _ h1
    · exact two_zpow_pos _

theorem ofRat_zero : Float64.ofRat 0 = .finite 0 := by
  simp [Float64.ofRat]

theorem float64_zero : (0 : Float64) = .finite 0 := by
  show Float64.ofRat ((0 : ℕ) : ℚ) = .finite 0
  simp [Float64.ofRat]

theorem ofRat_nonneg (q : ℚ) (hq : 0 ≤ q) :
    Float64.ofRat q = .posInf ∨ ∃ v, 0 ≤ v ∧ Float64.ofRat q = .finite v := by
  unfold Float64.ofRat
  by_cases h0 : q = 0
  · exact Or.inr ⟨0, le_refl _, by simp [h0]⟩
  · have hpos : 0 < q := lt_of_le_of_ne hq (Ne.symm h0)
    simp only [h0, if_false, hpos, if_true]
    exact roundPos_cases q hpos

theorem ofRat_grid (q v : ℚ) (h : Float64.ofRat q = .finite v) :
    ∃ k : ℤ, v = (k : ℚ) * (2 : ℚ) ^ (-1074 : ℤ) := by
  unfold Float64.ofRat at h
  split_ifs at h with h0 hpos
  · simp only [Float64.finite.injEq] at h
    exact ⟨0, by rw [← h]; simp⟩
  · exact roundPos_grid q v h
  · cases hr : Float64.roundPos (-q) with
    | finite w =>
      rw [hr] at h
      simp only [Float64.neg, Float64.finite.injEq] at h
      obtain ⟨k, hk⟩ := roundPos_grid (-q) w hr
      exact ⟨-k, by rw [← h, hk]; push_cast; ring⟩
    | posInf => rw [hr] at h; cases h
    | negInf => rw [hr] at h; cases h
    | NaN => rw [hr] at h; cases h

theorem ofRat_lt_zero_iff (q : ℚ) (hgrid : ∃ j : ℤ, q = (j : ℚ) * (2 : ℚ) ^ (-1074 : ℤ)) :
    Float64.lt (Float64.ofRat q) (.finite 0) = true ↔ q < 0 := by
  rcases lt_trichotomy q 0 with hneg | h0 | hpos
  · have hq' : 0 < -q := by linarith
    have hgrid' : ∃ j : ℤ, -q = (j : ℚ) * (2 : ℚ) ^ (-1074 : ℤ) := by
      obtain ⟨j, hj⟩ := hgrid
      exact ⟨-j, by rw [hj]; push_cast; ring⟩
    have hne : ¬ q = 0 := by linarith
    have hnp : ¬ 0 < q := by linarith
    simp only [Float64.ofRat, hne, if_false, hnp, hneg, iff_true]
    rcases roundPos_pos (-q) hq' hgrid' with h | ⟨v, hv, h⟩
    · rw [h]; rfl
    · rw [h]
      simp only [Float64.neg, Float64.lt, decide_eq_true_eq]
      linarith
  · subst h0
    simp [Float64.ofRat, Float64.lt]
  · have hne : ¬ q = 0 := by linarith
    have hnn : ¬ q < 0 := by linarith
    simp only [Float64.ofRat, hne, if_false, hpos, if_true, hnn, iff_false]
    rcases roundPos_cases q hpos with h | ⟨v, hv, h⟩
    · rw [h]; simp [Float64.lt]
    · rw [h]
      simp only [Float64.lt, decide_eq_true_eq]
      linarith

theorem exponentOf_lt (q : ℚ) (hq : 0 < q) : q < (2 : ℚ) ^ (Float64.exponentOf q + 1) := by
  have hnum : 0 < q.num := Rat.num_pos.mpr hq
  have hn1 : 1 ≤ q.num.natAbs := by omega
  have hd1 : 1 ≤ q.den := q.den_pos
  obtain ⟨_, ha⟩ := floorLog2_spec q.num.natAbs hn1
  obtain ⟨hb, _⟩ := floorLog2_spec q.den hd1
  have hk : q < (2 : ℚ) ^ ((floorLog2 q.num.natAbs : ℤ) - (floorLog2 q.den : ℤ) + 1) := by
    have h1 : ((q.num.natAbs : ℕ) : ℚ) = (q.num : ℚ) := by
      rw [Nat.cast_natAbs, abs_of_pos hnum]
    have hq' : q = (q.num.natAbs : ℚ) / (q.den : ℚ) := by
      rw [h1]
      exact (Rat.num_div_den q).symm
    have ha' : (q.num.natAbs : ℚ) < (2 : ℚ) ^ (floorLog2 q.num.natAbs + 1) := by
      exact_mod_cast ha
    have hb' : (2 : ℚ) ^ (floorLog2 q.den) ≤ (q.den : ℚ) := by
      exact_mod_cast hb
    have hdpos : (0 : ℚ) < q.den := by exact_mod_cast hd1
    rw [show (floorLog2 q.num.natAbs : ℤ) - (floorLog2 q.den : ℤ) + 1
        = ((floorLog2 q.num.natAbs + 1 : ℕ) : ℤ) - ((floorLog2 q.den : ℕ) : ℤ) by push_cast; ring]
    rw [zpow_sub₀ (by norm_num : (2 : ℚ) ≠ 0), zpow_natCast, zpow_natCast]
    conv_lhs => rw [hq']
    have hpow : (0 : ℚ) < (2 : ℚ) ^ (floorLog2 q.den) := pow_pos (by norm_num) _
    rw [div_lt_div_iff₀ hdpos hpow]
    calc (q.num.natAbs : ℚ) * (2 : ℚ) ^ (floorLog2 q.den)
        ≤ (q.num.natAbs : ℚ) * (q.den : ℚ) :=
          mul_le_mul_of_nonneg_left hb' (Nat.cast_nonneg _)
      _ < (2 : ℚ) ^ (floorLog2 q.num.natAbs + 1) * (q.den : ℚ) :=
          mul_lt_mul_of_pos_right ha' hdpos
  unfold Float64.exponentOf
  dsimp only
  split_ifs with h
  · exact hk
  · rw [sub_add_cancel]
    exact lt_of_not_le h

theorem exponentOf_unique (q : ℚ) (hq : 0 < q) (e : ℤ) (h1 : (2 : ℚ) ^ e ≤ q)
    (h2 : q < (2 : ℚ) ^ (e + 1)) : Float64.exponentOf q = e := by
  have hl := exponentOf_le q hq
  have hu := exponentOf_lt q hq
  have two : (1 : ℚ) < 2 := by norm_num
  have ha : e < Float64.exponentOf q + 1 :=
    (zpow_lt_zpow_iff_right₀ two).mp (lt_of_le_of_lt h1 hu)
  have hb : Float64.exponentOf q < e + 1 :=
    (zpow_lt_zpow_iff_right₀ two).mp (lt_of_le_of_lt hl h2)
  omega

theorem roundHalfEven_ge (x : ℚ) (n : ℤ) (h : (n : ℚ) ≤ x) : n ≤ roundHalfEven x := by
  have hf : n ≤ ⌊x⌋ := Int.le_floor.mpr h
  rcases roundHalfEven_cases x with h1 | h1 <;> omega

theorem roundHalfEven_le (x : ℚ) (n : ℤ) (h : x ≤ (n : ℚ)) : roundHalfEven x ≤ n := by
  rcases eq_or_lt_of_le h with heq | hlt
  · rw [heq, roundHalfEven_int]
  · have hf : ⌊x⌋ < n := Int.floor_lt.mpr hlt
    rcases roundHalfEven_cases x with h1 | h1 <;> omega

theorem roundPos_of_int (v : ℚ) (m e : ℤ)
    (he : max (Float64.exponentOf v) (-1022) = e) (hv : v = (m : ℚ) * (2 : ℚ) ^ (e - 52))
    (hfin : ¬ (2 : ℚ) ^ (1024 : ℤ) ≤ v) : Float64.roundPos v = .finite v := by
  unfold Float64.roundPos
  dsimp only
  rw [he]
  have hdiv : v / (2 : ℚ) ^ (e - 52) = (m : ℚ) := by
    rw [hv]
    exact mul_div_cancel_right₀ _ (two_zpow_pos _).ne'
  rw [hdiv, roundHalfEven_int, ← hv, if_neg hfin]

theorem zpow_split (n : ℕ) (e : ℤ) :
    (((2 : ℤ) ^ n : ℤ) : ℚ) * (2 : ℚ) ^ e = (2 : ℚ) ^ (e + (n : ℤ)) := by
  rw [zpow_add₀ (by norm_num : (2 : ℚ) ≠ 0), zpow_natCast, Int.cast_pow, Int.cast_ofNat]
  ring

theorem roundPos_idem (q v : ℚ) (hq : 0 < q) (h : Float64.roundPos q = .finite v) :
    v = 0 ∨ Float64.roundPos v = .finite v := by
  have two : (1 : ℚ) < 2 := by norm_num
  unfold Float64.roundPos at h
  dsimp only at h
  split_ifs at h with hinf
  simp only [Float64.finite.injEq] at h
  rw [h] at hinf
  have hmaxl := le_max_left (Float64.exponentOf q) (-1022)
  have hmaxc : (-1022 ≤ Float64.exponentOf q ∧
      max (Float64.exponentOf q) (-1022) = Float64.exponentOf q) ∨
      (Float64.exponentOf q + 1 ≤ -1022 ∧ max (Float64.exponentOf q) (-1022) = -1022) := by
    by_cases hc : (-1022 : ℤ) ≤ Float64.exponentOf q
    · exact Or.inl ⟨hc, max_eq_left hc⟩
    · exact Or.inr ⟨by omega, max_eq_right (by omega)⟩
  generalize max (Float64.exponentOf q) (-1022) = e at h hmaxl hmaxc
  generalize hm : roundHalfEven (q / (2 : ℚ) ^ (e - 52)) = m at h
  have hulp := two_zpow_pos (e - 52)
  have hm0 : 0 ≤ m := by
    rw [← hm]
    exact roundHalfEven_nonneg _ (div_nonneg hq.le hulp.le)
  rcases eq_or_lt_of_le hm0 with hz | hmpos
  · left
    rw [← h, ← hz]
    simp
  right
  have hvpos : 0 < v := by
    rw [← h]
    exact mul_pos (by exact_mod_cast hmpos) hulp
  have hqlt : q < (2 : ℚ) ^ (e + 1) :=
    lt_of_lt_of_le (exponentOf_lt q hq) (zpow_le_zpow_right₀ two.le (by omega))
  have hmle : m ≤ 2 ^ 53 := by
    rw [← hm]
    apply roundHalfEven_le
    rw [div_le_iff₀ hulp, zpow_split 53 (e - 52),
      show e - 52 + ((53 : ℕ) : ℤ) = e + 1 by push_cast; ring]
    exact hqlt.le
  have hcast : ∀ (a b : ℤ), a ≤ b → (a : ℚ) * (2 : ℚ) ^ (e - 52) ≤ (b : ℚ) * (2 : ℚ) ^ (e - 52) :=
    fun a b hab => mul_le_mul_of_nonneg_right (by exact_mod_cast hab) hulp.le
  have hcastlt : ∀ (a b : ℤ), a < b →
      (a : ℚ) * (2 : ℚ) ^ (e - 52) < (b : ℚ) * (2 : ℚ) ^ (e - 52) :=
    fun a b hab => mul_lt_mul_of_pos_right (by exact_mod_cast hab) hulp
  have h52 : (((2 : ℤ) ^ 52 : ℤ) : ℚ) * (2 : ℚ) ^ (e - 52) = (2 : ℚ) ^ e := by
    rw [zpow_split 52 (e - 52), show e - 52 + ((52 : ℕ) : ℤ) = e by push_cast; ring]
  have h53 : (((2 : ℤ) ^ 53 : ℤ) : ℚ) * (2 : ℚ) ^ (e - 52) = (2 : ℚ) ^ (e + 1) := by
    rw [zpow_split 53 (e - 52), show e - 52 + ((53 : ℕ) : ℤ) = e + 1 by push_cast; ring]
  rcases hmaxc with ⟨hc, he⟩ | ⟨hc, he⟩
  · -- normal numbers
    subst he
    have hmge : 2 ^ 52 ≤ m := by
      rw [← hm]
      apply roundHalfEven_ge
      rw [le_div_iff₀ hulp, h52]
      exact exponentOf_le q hq
    rcases eq_or_lt_of_le hmle with heq | hlt
    · -- rounded up to the next power of two
      have hv2 : v = (2 : ℚ) ^ (Float64.exponentOf q + 1) := by
        rw [← h, heq, h53]
      have hE : Float64.exponentOf v = Float64.exponentOf q + 1 := by
        apply exponentOf_unique v hvpos
        · rw [hv2]
        · rw [hv2]
          exact zpow_lt_zpow_right₀ two (by omega)
      apply roundPos_of_int v (2 ^ 52) (Float64.exponentOf q + 1)
      · rw [hE]
        exact max_eq_left (by omega)
      · rw [hv2, zpow_split 52 (Float64.exponentOf q + 1 - 52)]
        congr 1
        push_cast
        ring
      · exact hinf
    · have hE : Float64.exponentOf v = Float64.exponentOf q := by
        apply exponentOf_unique v hvpos
        · rw [← h, ← h52]
          exact hcast _ _ hmge
        · rw [← h, ← h53]
          exact hcastlt _ _ hlt
      apply roundPos_of_int v m (Float64.exponentOf q)
      · rw [hE]
        exact max_eq_left hc
      · exact h.symm
      · exact hinf
  · -- subnormal numbers
    subst he
    have hq2 : q < (2 : ℚ) ^ (-1022 : ℤ) :=
      lt_of_lt_of_le (exponentOf_lt q hq) (zpow_le_zpow_right₀ two.le hc)
    have hmle2 : m ≤ 2 ^ 52 := by
      rw [← hm]
      apply roundHalfEven_le
      rw [div_le_iff₀ hulp, h52]
      exact hq2.le
    have hvle : v ≤ (2 : ℚ) ^ (-1022 : ℤ) := by
      rw [← h, ← h52]
      exact hcast _ _ hmle2
    have hE : Float64.exponentOf v ≤ -1022 :=
      (zpow_le_zpow_iff_right₀ two).mp (le_trans (exponentOf_le v hvpos) hvle)
    apply roundPos_of_int v m (-1022)
    · exact max_eq_right hE
    · exact h.symm
    · exact hinf

theorem ofRat_idem (q v : ℚ) (h : Float64.ofRat q = .finite v) :
    Float64.ofRat v = .finite v := by
  unfold Float64.ofRat at h
  split_ifs at h with h0 hpos
  · simp only [Float64.finite.injEq] at h
    rw [← h]
    exact ofRat_zero
  · rcases roundPos_idem q v hpos h with hv | hv
    · rw [hv]
      exact ofRat_zero
    · rcases roundPos_cases q hpos with hinf | ⟨x, hx, hxe⟩
      · rw [hinf] at h
        cases h
      · rw [hxe] at h
        simp only [Float64.finite.injEq] at h
        subst h
        rcases eq_or_lt_of_le hx with hx0 | hxpos
        · rw [← hx0]
          exact ofRat_zero
        · unfold Float64.ofRat
          rw [if_neg hxpos.ne', if_pos hxpos]
          exact hv
  · have hneg : 0 < -q := by
      rcases lt_trichotomy q 0 with hlt | heq | hgt
      · linarith
      · exact absurd heq h0
      · exact absurd hgt hpos
    rcases roundPos_cases (-q) hneg with hinf | ⟨x, hx, hxe⟩
    · rw [hinf] at h
      cases h
    · rw [hxe] at h
      simp only [Float64.neg, Float64.finite.injEq] at h
      subst h
      rcases eq_or_lt_of_le hx with hx0 | hxpos
      · rw [← hx0]
        simp [Float64.ofRat]
      · rcases roundPos_idem (-q) x hneg hxe with hv | hv
        · exact absurd hv hxpos.ne'
        · unfold Float64.ofRat
          rw [if_neg (by linarith : ¬ -x = 0), if_neg (by linarith : ¬ 0 < -x), neg_neg, hv]
          rfl

theorem float64_nonneg_iff (x : Float64) :
    0 ≤ x ↔ x = .posInf ∨ ∃ v, 0 ≤ v ∧ x = .finite v := by
  show Float64.le 0 x = true ↔ _
  rw [float64_zero]
  cases x with
  | finite v => simp [Float64.le]
  | posInf => simp [Float64.le]
  | negInf => simp [Float64.le]
  | NaN => simp [Float64.le]

theorem float64_finite_nonneg (v : ℚ) : 0 ≤ Float64.finite v ↔ 0 ≤ v := by
  rw [float64_nonneg_iff]
  simp

theorem float64_hundred : (100 : Float64) = .finite 100 := by
  show Float64.ofRat ((100 : ℕ) : ℚ) = .finite 100
  decide!

theorem float64_mul_nonneg (a b : ℚ) (ha : 0 ≤ a) (hb : 0 ≤ b) :
    0 ≤ Float64.mul (.finite a) (.finite b) := by
  rw [float64_nonneg_iff]
  exact ofRat_nonneg (a * b) (mul_nonneg ha hb)

theorem float64_div_hundred_nonneg (x : Float64) (hx : 0 ≤ x) : 0 ≤ Float64.div x 100 := by
  rw [float64_hundred]
  rw [float64_nonneg_iff] at hx ⊢
  rcases hx with hx | ⟨v, hv, hx⟩
  · subst hx
    left
    simp [Float64.div]
  · subst hx
    have h100 : (100 : ℚ) ≠ 0 := by norm_num
    simp only [Float64.div, h100, if_false]
    exact ofRat_nonneg (v / 100) (div_nonneg hv (by norm_num))

theorem float64_add_nonneg (x y : Float64) (hx : 0 ≤ x) (hy : 0 ≤ y) :
    0 ≤ Float64.add x y := by
  rw [float64_nonneg_iff] at hx hy ⊢
  rcases hx with hx | ⟨v, hv, hx⟩ <;> rcases hy with hy | ⟨w, hw, hy⟩ <;> subst hx <;> subst hy
  · left; rfl
  · left; rfl
  · left; rfl
  · exact ofRat_nonneg (v + w) (add_nonneg hv hw)

theorem float64_foldl_add_exact (l : List ℚ) :
    ∀ a : ℚ,
      (∀ k, k ≤ l.length →
        Float64.ofRat (a + (l.take k).sum) = .finite (a + (l.take k).sum)) →
      (l.map Float64.finite).foldl Float64.add (.finite a) = .finite (a + l.sum) := by
  induction l with
  | nil => intro a _; simp
  | cons x rest ih =>
    intro a h
    have h1 := h 1 (by simp)
    simp only [List.take_succ_cons, List.take_zero, List.sum_cons, List.sum_nil, add_zero] at h1
    simp only [List.map_cons, List.foldl_cons, List.sum_cons]
    show List.foldl Float64.add (Float64.ofRat (a + x)) (rest.map Float64.finite) = _
    rw [h1, ih (a + x), add_assoc]
    intro k hk
    have h2 := h (k + 1) (by simpa using hk)
    simp only [List.take_succ_cons, List.sum_cons] at h2
    rw [add_assoc]
    exact h2

/-! ## The balance and the withdrawal ledger -/

/-- C1. For every state of the tables `orders` and `withdrawals` and every user `u`,
`GetBalance(u)` answers without error a balance with `Current + Withdrawn` equal to the
sum of the accruals of the PROCESSED orders of `u` and `Withdrawn` equal to the sum of the
withdrawals of `u` (empty sums are 0). -/
theorem getBalance_current_plus_withdrawn (db : Mart) (u : Int) :
    (PostgresStorage.GetBalance none db u).2 = none ∧
    (PostgresStorage.GetBalance none db u).1.Current
        + (PostgresStorage.GetBalance none db u).1.Withdrawn
      = ((db.orders.filter (fun o => decide (o.user_id = u ∧ o.status = "PROCESSED"))).map
          (fun o => o.accrual)).sum ∧
    (PostgresStorage.GetBalance none db u).1.Withdrawn
      = ((db.withdrawals.filter (fun w => decide (w.user_id = u))).map (fun w => w.sum)).sum := by
  simp only [PostgresStorage.GetBalance, sumAccrualProcessed, sumWithdrawals]
  refine ⟨trivial, ?_, trivial⟩
  ring

theorem scanFloat64_ok (q : ℚ) (x : Float64) (h : scanFloat64 q = .ok x) :
    ∃ v, x = .finite v ∧ Float64.ofRat q = .finite v := by
  unfold scanFloat64 at h
  cases hq : Float64.ofRat q with
  | finite v =>
    rw [hq] at h
    exact ⟨v, (Except.ok.inj h).symm, rfl⟩
  | posInf => rw [hq] at h; cases h
  | negInf => rw [hq] at h; cases h
  | NaN => rw [hq] at h; cases h

theorem scanFloat64_of_finite (q v : ℚ) (h : Float64.ofRat q = .finite v) :
    scanFloat64 q = .ok (.finite v) := by
  simp only [scanFloat64, h]

theorem scanFloat64_cases (q : ℚ) :
    (∃ v, Float64.ofRat q = .finite v ∧ scanFloat64 q = .ok (.finite v)) ∨
    (∃ err, scanFloat64 q = .error err) := by
  cases hq : Float64.ofRat q with
  | finite v => exact Or.inl ⟨v, rfl, scanFloat64_of_finite q v hq⟩
  | posInf =>
    exact Or.inr ⟨.other "sql: Scan error: value out of range", by
      simp only [scanFloat64, hq]⟩
  | negInf =>
    exact Or.inr ⟨.other "sql: Scan error: value out of range", by
      simp only [scanFloat64, hq]⟩
  | NaN =>
    exact Or.inr ⟨.other "sql: Scan error: value out of range", by
      simp only [scanFloat64, hq]⟩

theorem float64_sub_lt_zero_iff (b s : ℚ)
    (hb : ∃ j : ℤ, b = (j : ℚ) * (2 : ℚ) ^ (-1074 : ℤ))
    (hs : ∃ j : ℤ, s = (j : ℚ) * (2 : ℚ) ^ (-1074 : ℤ)) :
    Float64.sub (.finite b) (.finite s) < 0 ↔ b < s := by
  obtain ⟨j, hj⟩ := hb
  obtain ⟨k, hk⟩ := hs
  have hgrid : ∃ i : ℤ, b + -s = (i : ℚ) * (2 : ℚ) ^ (-1074 : ℤ) :=
    ⟨j - k, by rw [hj, hk]; push_cast; ring⟩
  show Float64.lt (Float64.sub (.finite b) (.finite s)) 0 = true ↔ b < s
  rw [float64_zero]
  show Float64.lt (Float64.ofRat (b + -s)) (.finite 0) = true ↔ b < s
  rw [ofRat_lt_zero_iff (b + -s) hgrid]
  constructor <;> intro h <;> linarith

theorem withdraw_result_cases (faults : WithdrawFaults) (db : Mart) (u : Int)
    (w : WithdrawBalance) :
    PostgresStorage.Withdraw faults db u w =
      (none, { db with withdrawals := db.withdrawals ++
        [{ user_id := u, order_number := w.Order, sum := w.Sum }] }) ∨
    ((PostgresStorage.Withdraw faults db u w).1 ≠ none ∧
      (PostgresStorage.Withdraw faults db u w).2 = db) := by
  simp only [PostgresStorage.Withdraw]
  rcases faults with ⟨fb, fq, fe, fc⟩
  rcases scanFloat64_cases (sumAccrualProcessed db u - sumWithdrawals db u) with
    ⟨v, _, hv⟩ | ⟨err, herr⟩
  · rw [hv]
    cases fb <;> cases fq <;> cases fe <;> cases fc <;> dsimp only <;>
      first
        | (split_ifs <;> simp)
        | simp
  · rw [herr]
    cases fb <;> cases fq <;> simp

theorem withdraw_noFaults (db : Mart) (u : Int) (w : WithdrawBalance) (b : ℚ)
    (hb : Float64.ofRat (sumAccrualProcessed db u - sumWithdrawals db u) = .finite b)
    (hs : Float64.ofRat w.Sum = .finite w.Sum) :
    PostgresStorage.Withdraw noFaults db u w =
      if b < w.Sum then (some GoError.ErrLackOfFunds, db)
      else
        (none, { db with withdrawals := db.withdrawals ++
          [{ user_id := u, order_number := w.Order, sum := w.Sum }] }) := by
  have hiff := float64_sub_lt_zero_iff b w.Sum (ofRat_grid _ _ hb) (ofRat_grid _ _ hs)
  simp only [PostgresStorage.Withdraw, noFaults, scanFloat64_of_finite _ _ hb]
  by_cases h : b < w.Sum
  · rw [if_pos (hiff.mpr h), if_pos h]
  · rw [if_neg (fun hh => h (hiff.mp hh)), if_neg h]

/-- C2 (counterexample). User 1 has the PROCESSED accrual `10^16` and one withdrawal of 1, so
the balance is `10^16 - 1` and `balance - w.Sum < 0` for `w.Sum = 10^16`; `Scan` stores the
balance into a `float64` as `10^16`, and `Withdraw` returns nil and appends the row. -/
theorem withdraw_rounded_balance :
    (((scenarioLargeWithdrawn.orders.filter
          (fun o => decide (o.user_id = 1 ∧ o.status = "PROCESSED"))).map
          (fun o => o.accrual)).sum
        - ((scenarioLargeWithdrawn.withdrawals.filter
          (fun x => decide (x.user_id = 1))).map (fun x => x.sum)).sum)
        - 10000000000000000 < 0 ∧
    Float64.ofRat 10000000000000000 = .finite 10000000000000000 ∧
    PostgresStorage.Withdraw noFaults scenarioLargeWithdrawn 1
        ⟨str "12345678903", 10000000000000000, 0⟩
      = (none, { scenarioLargeWithdrawn with
          withdrawals := scenarioLargeWithdrawn.withdrawals ++
            [{ user_id := 1, order_number := str "12345678903",
               sum := 10000000000000000 }] }) := by
  refine ⟨by decide!, by decide!, by decide!⟩

/-- C2 (amended). Let `b` be the `float64` that `Scan` stores for the balance of `u`, the
`float64` nearest to the sum of the accruals of the PROCESSED orders of `u` minus the sum of
the withdrawals of `u`, and let `w.Sum` be a `float64`. Without database errors
`Withdraw(u, w)` returns `ErrLackOfFunds` exactly when `b - w.Sum < 0` in `float64`, which
is exactly when `b < w.Sum`, and otherwise returns nil after appending the one row
`(u, w.Order, w.Sum)`. Whatever the database answers, the call either returns nil having
appended exactly that row, or returns an error and leaves the tables as they were. A
withdrawal of the whole of `b` succeeds. When the balance is itself a `float64`, `b` is the
balance. -/
theorem withdraw_lack_of_funds_iff (db : Mart) (u : Int) (w : WithdrawBalance) (b : ℚ)
    (hb : Float64.ofRat
      (((db.orders.filter (fun o => decide (o.user_id = u ∧ o.status = "PROCESSED"))).map
          (fun o => o.accrual)).sum
        - ((db.withdrawals.filter (fun x => decide (x.user_id = u))).map (fun x => x.sum)).sum)
      = .finite b)
    (hs : Float64.ofRat w.Sum = .finite w.Sum) :
    ((PostgresStorage.Withdraw noFaults db u w).1 = some GoError.ErrLackOfFunds ↔
      Float64.sub (.finite b) (.finite w.Sum) < 0) ∧
    ((PostgresStorage.Withdraw noFaults db u w).1 = some GoError.ErrLackOfFunds ↔
      b < w.Sum) ∧
    (PostgresStorage.Withdraw noFaults db u w =
      if b < w.Sum then (some GoError.ErrLackOfFunds, db)
      else
        (none, { db with withdrawals := db.withdrawals ++
          [{ user_id := u, order_number := w.Order, sum := w.Sum }] })) ∧
    (∀ faults : WithdrawFaults,
      PostgresStorage.Withdraw faults db u w =
        (none, { db with withdrawals := db.withdrawals ++
          [{ user_id := u, order_number := w.Order, sum := w.Sum }] }) ∨
      ((PostgresStorage.Withdraw faults db u w).1 ≠ none ∧
        (PostgresStorage.Withdraw faults db u w).2 = db)) ∧
    (PostgresStorage.Withdraw noFaults db u { w with Sum := b }).1 = none ∧
    (Float64.ofRat (sumAccrualProcessed db u - sumWithdrawals db u)
        = .finite (sumAccrualProcessed db u - sumWithdrawals db u) →
      b = sumAccrualProcessed db u - sumWithdrawals db u) := by
  have hb' : Float64.ofRat (sumAccrualProcessed db u - sumWithdrawals db u) = .finite b := hb
  have hw := withdraw_noFaults db u w b hb' hs
  have hiff := float64_sub_lt_zero_iff b w.Sum (ofRat_grid _ _ hb') (ofRat_grid _ _ hs)
  have hmain : (PostgresStorage.Withdraw noFaults db u w).1 = some GoError.ErrLackOfFunds ↔
      b < w.Sum := by
    rw [hw]
    split_ifs with h
    · exact ⟨fun _ => h, fun _ => rfl⟩
    · exact ⟨fun hh => (by cases hh), fun hh => absurd hh h⟩
  refine ⟨hmain.trans hiff.symm, hmain, hw, ?_, ?_, ?_⟩
  · intro faults
    exact withdraw_result_cases faults db u w
  · have hbb : Float64.ofRat b = .finite b := ofRat_idem _ _ hb'
    rw [withdraw_noFaults db u { w with Sum := b } b hb' hbb]
    simp
  · intro hexact
    rw [hb'] at hexact
    exact Float64.finite.inj hexact

/-- C2 (witness). The state of the counterexample: `Scan` stores the balance `10^16 - 1` as
`10^16`, which is not less than the sum `10^16`, and the withdrawal is written. -/
theorem withdraw_lack_of_funds_iff_witness :
    Float64.ofRat
      (((scenarioLargeWithdrawn.orders.filter
          (fun o => decide (o.user_id = 1 ∧ o.status = "PROCESSED"))).map
          (fun o => o.accrual)).sum
        - ((scenarioLargeWithdrawn.withdrawals.filter
          (fun x => decide (x.user_id = 1))).map (fun x => x.sum)).sum)
      = .finite 10000000000000000 ∧
    Float64.ofRat 10000000000000000 = .finite 10000000000000000 ∧
    ¬ ((PostgresStorage.Withdraw noFaults scenarioLargeWithdrawn 1
        ⟨str "12345678903", 10000000000000000, 0⟩).1 = some GoError.ErrLackOfFunds) ∧
    (PostgresStorage.Withdraw noFaults scenarioS6 1 ⟨str "2377225624", 701, 0⟩).1
      = some GoError.ErrLackOfFunds := by
  have hb : Float64.ofRat
      (((scenarioLargeWithdrawn.orders.filter
          (fun o => decide (o.user_id = 1 ∧ o.status = "PROCESSED"))).map
          (fun o => o.accrual)).sum
        - ((scenarioLargeWithdrawn.withdrawals.filter
          (fun x => decide (x.user_id = 1))).map (fun x => x.sum)).sum)
      = .finite 10000000000000000 := by decide!
  have hs : Float64.ofRat 10000000000000000 = .finite 10000000000000000 := by decide!
  have h := withdraw_lack_of_funds_iff scenarioLargeWithdrawn 1
    ⟨str "12345678903", 10000000000000000, 0⟩ 10000000000000000 hb hs
  have h6 := withdraw_lack_of_funds_iff scenarioS6 1 ⟨str "2377225624", 701, 0⟩ 700
    (by decide!) (by decide!)
  refine ⟨hb, hs, ?_, ?_⟩
  · intro hh
    exact absurd (h.2.1.mp hh) (by norm_num)
  · exact h6.2.1.mpr (by norm_num)

theorem sumWithdrawals_append (db : Mart) (row : WithdrawalRow) (v : Int) :
    sumWithdrawals { db with withdrawals := db.withdrawals ++ [row] } v
      = sumWithdrawals db v + (if row.user_id = v then row.sum else 0) := by
  simp only [sumWithdrawals, List.filter_append, List.map_append, List.sum_append]
  by_cases h : row.user_id = v <;> simp [List.filter, h]

theorem sumAccrualProcessed_withdrawals (db : Mart) (ws : List WithdrawalRow) (v : Int) :
    sumAccrualProcessed { db with withdrawals := ws } v = sumAccrualProcessed db v := rfl

theorem getBalance_scanned_ok (db : Mart) (u : Int) (c w : ℚ)
    (h : PostgresStorage.GetBalance.scanned none db u = .ok (.finite c, .finite w)) :
    Float64.ofRat (sumAccrualProcessed db u - sumWithdrawals db u) = .finite c ∧
    Float64.ofRat (sumWithdrawals db u) = .finite w := by
  simp only [PostgresStorage.GetBalance.scanned, PostgresStorage.GetBalance] at h
  rcases scanFloat64_cases (sumAccrualProcessed db u - sumWithdrawals db u) with
    ⟨v, hv1, hv⟩ | ⟨err, herr⟩
  · rw [hv] at h
    rcases scanFloat64_cases (sumWithdrawals db u) with ⟨v2, hv21, hv2⟩ | ⟨err, herr⟩
    · rw [hv2] at h
      simp only [Except.ok.injEq, Prod.mk.injEq, Float64.finite.injEq] at h
      rw [← h.1, ← h.2]
      exact ⟨hv1, hv21⟩
    · rw [herr] at h
      cases h
  · rw [herr] at h
    cases h

theorem getBalance_scanned_of_finite (db : Mart) (u : Int) (c w : ℚ)
    (hc : Float64.ofRat (sumAccrualProcessed db u - sumWithdrawals db u) = .finite c)
    (hw : Float64.ofRat (sumWithdrawals db u) = .finite w) :
    PostgresStorage.GetBalance.scanned none db u = .ok (.finite c, .finite w) := by
  simp only [PostgresStorage.GetBalance.scanned, PostgresStorage.GetBalance,
    scanFloat64_of_finite _ _ hc, scanFloat64_of_finite _ _ hw]

/-- C3 (counterexample). User 1 has the PROCESSED accrual `10^16` and no withdrawals, so
`GetBalance` is `(c, w) = (10^16, 0)`; `s = 1` satisfies `0 < s <= c` and `Withdraw(1, 1)`
succeeds. After it `GetBalance` is `(10^16, 1)` and not `(c - s, w + s)`, because `10^16 - 1`
is not a `float64`, and a further `Withdraw` of `10^16 > c - s` is not refused. -/
theorem withdraw_then_getBalance_rounded :
    PostgresStorage.GetBalance.scanned none scenarioLarge 1
      = .ok (.finite 10000000000000000, .finite 0) ∧
    (0 : ℚ) < 1 ∧ (1 : ℚ) ≤ 10000000000000000 ∧
    Float64.ofRat 1 = .finite 1 ∧
    PostgresStorage.Withdraw noFaults scenarioLarge 1 ⟨str "2377225624", 1, 0⟩
      = (none, scenarioLargeWithdrawn) ∧
    PostgresStorage.GetBalance.scanned none scenarioLargeWithdrawn 1
      = .ok (.finite 10000000000000000, .finite 1) ∧
    PostgresStorage.GetBalance.scanned none scenarioLargeWithdrawn 1
      ≠ .ok (.finite (10000000000000000 - 1), .finite (0 + 1)) ∧
    (10000000000000000 : ℚ) - 1 < 10000000000000000 ∧
    Float64.ofRat 10000000000000000 = .finite 10000000000000000 ∧
    (PostgresStorage.Withdraw noFaults scenarioLargeWithdrawn 1
        ⟨str "12345678903", 10000000000000000, 0⟩).1 = none := by
  refine ⟨by decide!, by norm_num, by norm_num, by decide!, by decide!, by decide!, by decide!,
    by norm_num, by decide!, by decide!⟩

/-- C3 (amended). If `GetBalance(u)` is `(c, w)`, the `float64` values that `Scan` stores for
the two numbers of the query, and `s` is a `float64` with `0 < s <= c`, then `Withdraw(u, s)`
succeeds and the two numbers of the query become the old ones minus `s` and plus `s`. After
it `GetBalance(u)` is `(c2, w2)` for the `float64` values `c2` and `w2` nearest to those two
numbers, which is `(c - s, w + s)` when the balance and the sum of the withdrawals before the
call and `c - s` and `w + s` are `float64` values; every further `Withdraw(u, s2)` with a
`float64` `s2 > c2` is refused with `ErrLackOfFunds` and changes nothing, and the balance of
every other user is what it was. -/
theorem withdraw_then_getBalance (db : Mart) (u : Int) (order : GoString) (s : ℚ) (t : Nat)
    (c w : ℚ)
    (hbal : PostgresStorage.GetBalance.scanned none db u = .ok (.finite c, .finite w))
    (hfloat : Float64.ofRat s = .finite s) (_hs : 0 < s) (hc : s ≤ c) :
    PostgresStorage.Withdraw noFaults db u ⟨order, s, t⟩
      = (none, { db with withdrawals := db.withdrawals ++
          [{ user_id := u, order_number := order, sum := s }] }) ∧
    PostgresStorage.GetBalance none (PostgresStorage.Withdraw noFaults db u ⟨order, s, t⟩).2 u
      = ({ Current := (PostgresStorage.GetBalance none db u).1.Current - s,
           Withdrawn := (PostgresStorage.GetBalance none db u).1.Withdrawn + s }, none) ∧
    (∀ c2 w2 : ℚ,
      Float64.ofRat ((PostgresStorage.GetBalance none db u).1.Current - s) = .finite c2 →
      Float64.ofRat ((PostgresStorage.GetBalance none db u).1.Withdrawn + s) = .finite w2 →
      PostgresStorage.GetBalance.scanned none
          (PostgresStorage.Withdraw noFaults db u ⟨order, s, t⟩).2 u
        = .ok (.finite c2, .finite w2) ∧
      (∀ (order2 : GoString) (s2 : ℚ) (t2 : Nat),
        Float64.ofRat s2 = .finite s2 → c2 < s2 →
        PostgresStorage.Withdraw noFaults
            (PostgresStorage.Withdraw noFaults db u ⟨order, s, t⟩).2 u ⟨order2, s2, t2⟩
          = (some GoError.ErrLackOfFunds,
              (PostgresStorage.Withdraw noFaults db u ⟨order, s, t⟩).2))) ∧
    ((PostgresStorage.GetBalance none db u).1.Current = c →
      (PostgresStorage.GetBalance none db u).1.Withdrawn = w →
      Float64.ofRat (c - s) = .finite (c - s) → Float64.ofRat (w + s) = .finite (w + s) →
      PostgresStorage.GetBalance.scanned none
          (PostgresStorage.Withdraw noFaults db u ⟨order, s, t⟩).2 u
        = .ok (.finite (c - s), .finite (w + s)) ∧
      (∀ (order2 : GoString) (s2 : ℚ) (t2 : Nat),
        Float64.ofRat s2 = .finite s2 → c - s < s2 →
        PostgresStorage.Withdraw noFaults
            (PostgresStorage.Withdraw noFaults db u ⟨order, s, t⟩).2 u ⟨order2, s2, t2⟩
          = (some GoError.ErrLackOfFunds,
              (PostgresStorage.Withdraw noFaults db u ⟨order, s, t⟩).2))) ∧
    (∀ v : Int, v ≠ u →
      PostgresStorage.GetBalance.scanned none
          (PostgresStorage.Withdraw noFaults db u ⟨order, s, t⟩).2 v
        = PostgresStorage.GetBalance.scanned none db v) := by
  obtain ⟨hcur, _⟩ := getBalance_scanned_ok db u c w hbal
  have hw : PostgresStorage.Withdraw noFaults db u ⟨order, s, t⟩
      = (none, { db with withdrawals := db.withdrawals ++
          [{ user_id := u, order_number := order, sum := s }] }) := by
    rw [withdraw_noFaults db u ⟨order, s, t⟩ c hcur hfloat]
    exact if_neg (not_lt.mpr hc)
  have hexact : PostgresStorage.GetBalance none
      { db with withdrawals := db.withdrawals ++
          [{ user_id := u, order_number := order, sum := s }] } u
      = ({ Current := (PostgresStorage.GetBalance none db u).1.Current - s,
           Withdrawn := (PostgresStorage.GetBalance none db u).1.Withdrawn + s }, none) := by
    simp only [PostgresStorage.GetBalance, sumWithdrawals_append,
      sumAccrualProcessed_withdrawals, if_true, Prod.mk.injEq, Balance.mk.injEq, and_true]
    ring
  have hgen : ∀ c2 w2 : ℚ,
      Float64.ofRat ((PostgresStorage.GetBalance none db u).1.Current - s) = .finite c2 →
      Float64.ofRat ((PostgresStorage.GetBalance none db u).1.Withdrawn + s) = .finite w2 →
      PostgresStorage.GetBalance.scanned none
          { db with withdrawals := db.withdrawals ++
            [{ user_id := u, order_number := order, sum := s }] } u
        = .ok (.finite c2, .finite w2) ∧
      (∀ (order2 : GoString) (s2 : ℚ) (t2 : Nat),
        Float64.ofRat s2 = .finite s2 → c2 < s2 →
        PostgresStorage.Withdraw noFaults
            { db with withdrawals := db.withdrawals ++
              [{ user_id := u, order_number := order, sum := s }] } u ⟨order2, s2, t2⟩
          = (some GoError.ErrLackOfFunds,
              { db with withdrawals := db.withdrawals ++
                [{ user_id := u, order_number := order, sum := s }] })) := by
    intro c2 w2 hc2 hw2
    have hc2' : Float64.ofRat (sumAccrualProcessed
        { db with withdrawals := db.withdrawals ++
          [{ user_id := u, order_number := order, sum := s }] } u
        - sumWithdrawals { db with withdrawals := db.withdrawals ++
          [{ user_id := u, order_number := order, sum := s }] } u) = .finite c2 := by
      have h1 := congrArg (fun r => r.1.Current) hexact
      simp only [PostgresStorage.GetBalance] at h1 hc2
      rw [h1]
      exact hc2
    have hw2' : Float64.ofRat (sumWithdrawals { db with withdrawals := db.withdrawals ++
          [{ user_id := u, order_number := order, sum := s }] } u) = .finite w2 := by
      have h1 := congrArg (fun r => r.1.Withdrawn) hexact
      simp only [PostgresStorage.GetBalance] at h1 hw2
      rw [h1]
      exact hw2
    refine ⟨getBalance_scanned_of_finite _ u c2 w2 hc2' hw2', ?_⟩
    intro order2 s2 t2 hs2 hlt
    rw [withdraw_noFaults _ u ⟨order2, s2, t2⟩ c2 hc2' hs2]
    exact if_pos hlt
  rw [hw]
  refine ⟨rfl, hexact, hgen, ?_, ?_⟩
  · intro h1 h2 h3 h4
    exact hgen (c - s) (w + s) (by rw [h1]; exact h3) (by rw [h2]; exact h4)
  · intro v hv
    have hne : ¬ u = v := fun h => hv h.symm
    simp only [PostgresStorage.GetBalance.scanned, PostgresStorage.GetBalance,
      sumWithdrawals_append, sumAccrualProcessed_withdrawals, if_neg hne, add_zero]

/-- C3 (witness). Scenario S6: one PROCESSED order with accrual 700, a withdrawal of 500
leaves `(200, 500)`, and the same withdrawal again is refused. -/
theorem withdraw_then_getBalance_witness :
    PostgresStorage.GetBalance.scanned none scenarioS6 1 = .ok (.finite 700, .finite 0) ∧
    Float64.ofRat 500 = .finite 500 ∧ (0 : ℚ) < 500 ∧ (500 : ℚ) ≤ 700 ∧
    PostgresStorage.GetBalance.scanned none
        (PostgresStorage.Withdraw noFaults scenarioS6 1 ⟨str "2377225624", 500, 0⟩).2 1
      = .ok (.finite 200, .finite 500) ∧
    (PostgresStorage.Withdraw noFaults
        (PostgresStorage.Withdraw noFaults scenarioS6 1 ⟨str "2377225624", 500, 0⟩).2 1
        ⟨str "2377225624", 500, 0⟩).1 = some GoError.ErrLackOfFunds := by
  have hbal : PostgresStorage.GetBalance.scanned none scenarioS6 1
      = .ok (.finite 700, .finite 0) := by decide!
  have hf : Float64.ofRat 500 = .finite 500 := by decide!
  have h := withdraw_then_getBalance scenarioS6 1 (str "2377225624") 500 0 700 0 hbal hf
    (by norm_num) (by norm_num)
  have h200 : (700 : ℚ) - 500 = 200 := by norm_num
  have h500 : (0 : ℚ) + 500 = 500 := by norm_num
  have hex := h.2.2.2.1 (by decide!) (by decide!) (by rw [h200]; decide!)
    (by rw [h500]; decide!)
  rw [h200, h500] at hex
  refine ⟨hbal, hf, by norm_num, by norm_num, hex.1, ?_⟩
  rw [hex.2 (str "2377225624") 500 0 hf (by norm_num)]

/-! ## The order-number validity test -/

/-- C4 (counterexample). The empty string passes the validity test
`ContainsOnlyDigits(n) && ValidateLuhn(n)`, although it is not a non-empty string of decimal
digits with a Luhn checksum divisible by 10. -/
theorem validOrderNumber_empty_string :
    validOrderNumber [] = true ∧ ¬ specValid [] := by
  refine ⟨by decide, ?_⟩
  intro h
  exact h.1 rfl

theorem validOrderNumber_cases (n : GoString) :
    validOrderNumber n = true ↔ n = [] ∨ specValid n := by
  rw [validOrderNumber_iff]
  constructor
  · rintro ⟨hd, hl⟩
    by_cases hn : n = []
    · exact Or.inl hn
    · exact Or.inr ⟨hn, hd, hl⟩
  · rintro (hn | ⟨_, hd, hl⟩)
    · subst hn
      exact ⟨fun b hb => (by cases hb), by decide⟩
    · exact ⟨hd, hl⟩

/-- C4 (amended). For every string `n`, the validity test `ContainsOnlyDigits(n) &&
ValidateLuhn(n)` is true if and only if `n` is empty, or `n` is non-empty, consists only of
the decimal digits 0 to 9 and has a Luhn checksum (right to left, every second digit
doubled, 9 subtracted when the doubled digit exceeds 9) divisible by 10. -/
theorem validOrderNumber_iff_empty_or_specValid (n : GoString) :
    validOrderNumber n = true ↔ n = [] ∨ specValid n :=
  validOrderNumber_cases n

/-! ## `Handler.CreateOrder` -/

/-- C5. For an authenticated request whose body, after trimming, is non-empty and either
contains a byte that is not a decimal digit or fails the Luhn check, `Handler.CreateOrder`
responds 422 and makes no call to the repository, so no row is created. -/
theorem createOrder_handler_invalid_number (TrimSpace : GoString → GoString)
    (Atoi : GoString → Int × Option GoError) (repo : GofemartRepo)
    (userID body : GoString) (hne : TrimSpace body ≠ [])
    (hbad : (∃ b ∈ TrimSpace body, ¬ isDecimalDigit b) ∨ ValidateLuhn (TrimSpace body) = false) :
    (Handler.CreateOrder TrimSpace Atoi repo (some userID) (some body)).1.status = 422 ∧
    (Handler.CreateOrder TrimSpace Atoi repo (some userID) (some body)).2 = [] := by
  have hinv : (!ContainsOnlyDigits (TrimSpace body) || !ValidateLuhn (TrimSpace body)) = true := by
    rcases hbad with ⟨b, hb, hnd⟩ | hl
    · have : ContainsOnlyDigits (TrimSpace body) = false := by
        cases hc : ContainsOnlyDigits (TrimSpace body) with
        | false => rfl
        | true => exact absurd ((containsOnlyDigits_iff _).mp hc b hb) hnd
      simp [this]
    · simp [hl]
  simp only [Handler.CreateOrder, if_neg hne, hinv, if_true, httpError, and_self]

/-- C5 (witness). The body `1234567890` of the handler test "Invalid Luhn number". -/
theorem createOrder_handler_invalid_number_witness :
    trimSpaceASCII (str "1234567890") ≠ [] ∧
    ((∃ b ∈ trimSpaceASCII (str "1234567890"), ¬ isDecimalDigit b) ∨
      ValidateLuhn (trimSpaceASCII (str "1234567890")) = false) ∧
    (Handler.CreateOrder trimSpaceASCII strconvAtoi nilRepo (some (str "1"))
      (some (str "1234567890"))).1.status = 422 ∧
    (Handler.CreateOrder trimSpaceASCII strconvAtoi nilRepo (some (str "1"))
      (some (str "1234567890"))).2 = [] :=
  ⟨by decide, Or.inr (by decide),
    createOrder_handler_invalid_number trimSpaceASCII strconvAtoi nilRepo (str "1")
      (str "1234567890") (by decide) (Or.inr (by decide))⟩

/-! ## `PostgresStorage.CreateOrder` -/

theorem createOrder_absent (db : Mart) (u : Int) (n : GoString)
    (h : ∀ o ∈ db.orders, o.number ≠ n) :
    PostgresStorage.CreateOrder none db u n
      = (none, { db with orders := db.orders ++ [newOrderRow u n OrderStatusNew] }) := by
  have hany : db.orders.any (fun o => decide (o.number = n)) = false := by
    rw [List.any_eq_false]
    intro o ho
    simpa using h o ho
  simp [PostgresStorage.CreateOrder, createOrderQuery, hany]

theorem createOrder_present (db : Mart) (u : Int) (n : GoString)
    (huniq : (db.orders.map (fun o => o.number)).Nodup) (o : OrderRow) (ho : o ∈ db.orders)
    (hn : o.number = n) :
    PostgresStorage.CreateOrder none db u n
      = (some (if o.user_id = u then GoError.ErrDuplicateOrder else GoError.ErrOtherUserOrder),
          db) := by
  have hany : db.orders.any (fun o => decide (o.number = n)) = true := by
    rw [List.any_eq_true]
    exact ⟨o, ho, by simpa using hn⟩
  have hex : (db.orders.filter (fun o => decide (o.number = n))).any
      (fun o => decide (o.user_id = u)) = decide (o.user_id = u) := by
    by_cases hu : o.user_id = u
    · simp only [hu, decide_True, List.any_eq_true, List.mem_filter, decide_eq_true_eq]
      exact ⟨o, ⟨ho, hn⟩, hu⟩
    · simp only [hu, decide_False, List.any_eq_false, List.mem_filter, decide_eq_true_eq]
      rintro o' ⟨ho', hn'⟩ hu'
      have : o' = o := List.inj_on_of_nodup_map huniq ho' ho (hn'.trans hn.symm)
      exact hu (this ▸ hu')
  have hne : db.orders.filter (fun o => decide (o.number = n)) ≠ [] := by
    intro hnil
    have : o ∈ db.orders.filter (fun o => decide (o.number = n)) := by
      simp [List.mem_filter, ho, hn]
    rw [hnil] at this
    cases this
  by_cases hu : o.user_id = u
  · simp [PostgresStorage.CreateOrder, createOrderQuery, hany, hex, hu]
  · simp [PostgresStorage.CreateOrder, createOrderQuery, hany, hex, hu, hne]

theorem createOrders_invariant (calls : List (Int × GoString)) :
    ∀ db : Mart, (db.orders.map (fun o => o.number)).Nodup →
      ((createOrders db calls).orders.map (fun o => o.number)).Nodup ∧
      (createOrders db calls).withdrawals = db.withdrawals ∧
      (∀ o ∈ db.orders, o ∈ (createOrders db calls).orders) ∧
      (∀ o ∈ (createOrders db calls).orders, o ∈ db.orders ∨
        ((∀ o' ∈ db.orders, o'.number ≠ o.number) ∧ o.status = OrderStatusNew ∧
          calls.find? (fun c => decide (c.2 = o.number)) = some (o.user_id, o.number))) := by
  induction calls with
  | nil =>
    intro db h
    exact ⟨h, rfl, fun o ho => ho, fun o ho => Or.inl ho⟩
  | cons c cs ih =>
    intro db h
    by_cases hex : ∃ o ∈ db.orders, o.number = c.2
    · obtain ⟨o, ho, hn⟩ := hex
      have hstep : createOrders db (c :: cs) = createOrders db cs := by
        simp only [createOrders, List.foldl_cons, createOrder_present db c.1 c.2 h o ho hn]
      rw [hstep]
      obtain ⟨h1, h2, h3, h4⟩ := ih db h
      refine ⟨h1, h2, h3, ?_⟩
      intro x hx
      rcases h4 x hx with hin | ⟨hnot, hst, hfind⟩
      · exact Or.inl hin
      · refine Or.inr ⟨hnot, hst, ?_⟩
        have hne : ¬ c.2 = x.number := fun heq => hnot o ho (hn.trans heq)
        simp only [List.find?_cons, hne, decide_False]
        exact hfind
    · have habs : ∀ o ∈ db.orders, o.number ≠ c.2 := fun o ho hn => hex ⟨o, ho, hn⟩
      have hstep : createOrders db (c :: cs)
          = createOrders { db with orders := db.orders ++ [newOrderRow c.1 c.2 OrderStatusNew] }
              cs := by
        simp only [createOrders, List.foldl_cons, createOrder_absent db c.1 c.2 habs]
      rw [hstep]
      have hnodup : (({ db with orders := db.orders ++ [newOrderRow c.1 c.2 OrderStatusNew] } :
          Mart).orders.map (fun o => o.number)).Nodup := by
        simp only [List.map_append, List.map_cons, List.map_nil]
        rw [List.nodup_append]
        refine ⟨h, List.nodup_singleton _, ?_⟩
        intro a ha hb
        simp only [newOrderRow, List.mem_singleton] at hb
        obtain ⟨o, ho, hoa⟩ := List.mem_map.mp ha
        exact habs o ho (hoa.trans hb)
      obtain ⟨h1, h2, h3, h4⟩ := ih _ hnodup
      refine ⟨h1, h2, fun o ho => h3 o (List.mem_append_left _ ho), ?_⟩
      intro x hx
      rcases h4 x hx with hin | ⟨hnot, hst, hfind⟩
      · rcases List.mem_append.mp hin with hin | hin
        · exact Or.inl hin
        · simp only [List.mem_singleton] at hin
          subst hin
          refine Or.inr ⟨habs, rfl, ?_⟩
          simp [newOrderRow]
      · refine Or.inr ⟨fun o' ho' => hnot o' (List.mem_append_left _ ho'), hst, ?_⟩
        have hne : ¬ c.2 = x.number := by
          intro heq
          exact hnot (newOrderRow c.1 c.2 OrderStatusNew)
            (List.mem_append_right _ (List.mem_singleton.mpr rfl)) heq
        simp only [List.find?_cons, hne, decide_False]
        exact hfind

/-- C6. On a table `orders` with unique numbers, `CreateOrder(u, n)` answered without
database error returns nil exactly when no row with number `n` exists, and then leaves the
table with the one new row (owner `u`, number `n`, status NEW) appended; if a row with
number `n` exists the tables are unchanged and the result is `ErrDuplicateOrder` when the
owner of that row is `u` and `ErrOtherUserOrder` otherwise. Hence after any sequence of
`CreateOrder` calls the numbers are still unique, the rows present before are still there,
and every other row has status NEW and is owned by the user of the first call that
submitted its number. -/
theorem createOrder_store_spec (db : Mart) (u : Int) (n : GoString)
    (huniq : (db.orders.map (fun o => o.number)).Nodup) :
    (((PostgresStorage.CreateOrder none db u n).1 = none ↔ ∀ o ∈ db.orders, o.number ≠ n) ∧
     ((∀ o ∈ db.orders, o.number ≠ n) →
        PostgresStorage.CreateOrder none db u n
          = (none, { db with orders := db.orders ++
              [{ user_id := u, number := n, status := "NEW", accrual := 0 }] })) ∧
     (∀ o ∈ db.orders, o.number = n →
        PostgresStorage.CreateOrder none db u n
          = (some (if o.user_id = u then GoError.ErrDuplicateOrder
              else GoError.ErrOtherUserOrder), db))) ∧
    (∀ calls : List (Int × GoString),
      ((createOrders db calls).orders.map (fun o => o.number)).Nodup ∧
      (∀ o ∈ db.orders, o ∈ (createOrders db calls).orders) ∧
      (∀ o ∈ (createOrders db calls).orders, o ∈ db.orders ∨
        (o.status = "NEW" ∧
          calls.find? (fun c => decide (c.2 = o.number)) = some (o.user_id, o.number)))) := by
  refine ⟨⟨?_, ?_, ?_⟩, ?_⟩
  · constructor
    · intro hnil o ho hn
      rw [createOrder_present db u n huniq o ho hn] at hnil
      cases hnil
    · intro habs
      rw [createOrder_absent db u n habs]
  · intro habs
    exact createOrder_absent db u n habs
  · intro o ho hn
    exact createOrder_present db u n huniq o ho hn
  · intro calls
    obtain ⟨h1, _, h3, h4⟩ := createOrders_invariant calls db huniq
    refine ⟨h1, h3, ?_⟩
    intro o ho
    rcases h4 o ho with hin | ⟨_, hst, hfind⟩
    · exact Or.inl hin
    · exact Or.inr ⟨hst, hfind⟩

/-- C6 (witness). The number `12345678903` is already stored for user 1: user 2 gets
`ErrOtherUserOrder`, user 1 gets `ErrDuplicateOrder`, and the table is unchanged. -/
theorem createOrder_store_spec_witness :
    (scenarioS6.orders.map (fun o => o.number)).Nodup ∧
    PostgresStorage.CreateOrder none scenarioS6 2 (str "12345678903")
      = (some GoError.ErrOtherUserOrder, scenarioS6) ∧
    ((PostgresStorage.CreateOrder none scenarioS6 2 (str "2377225624")).1 = none) := by
  have huniq : (scenarioS6.orders.map (fun o => o.number)).Nodup := by decide
  have h := createOrder_store_spec scenarioS6 2 (str "12345678903") huniq
  have h2 := createOrder_store_spec scenarioS6 2 (str "2377225624") huniq
  refine ⟨huniq, ?_, ?_⟩
  · have h3 := h.1.2.2 ⟨1, str "12345678903", "PROCESSED", 700⟩ (by decide) rfl
    rw [h3]
    rfl
  · exact h2.1.1.mpr (by decide)

/-- C7. For an authenticated request with a positive user id and a body that, trimmed, is a
non-empty digits-only Luhn-valid string, `Handler.CreateOrder` calls the repository once
and its status is 202 when `CreateOrder` returns nil, 200 when it returns
`ErrDuplicateOrder`, 409 when it returns `ErrOtherUserOrder`, and 500 for every error that
`errors.Is` matches with neither of the two. A body that is empty after trimming gives 400,
and a request without user id in its context gives 401. -/
theorem createOrder_handler_status (TrimSpace : GoString → GoString)
    (Atoi : GoString → Int × Option GoError) (repo : GofemartRepo)
    (userID body : GoString) (hpos : 0 < (Atoi userID).1) (hvalid : specValid (TrimSpace body)) :
    ((Handler.CreateOrder TrimSpace Atoi repo (some userID) (some body)).2
        = [RepoCall.CreateOrder (Atoi userID).1 (TrimSpace body)] ∧
     (repo.CreateOrder (Atoi userID).1 (TrimSpace body) = none →
        (Handler.CreateOrder TrimSpace Atoi repo (some userID) (some body)).1.status = 202) ∧
     (repo.CreateOrder (Atoi userID).1 (TrimSpace body) = some GoError.ErrDuplicateOrder →
        (Handler.CreateOrder TrimSpace Atoi repo (some userID) (some body)).1.status = 200) ∧
     (repo.CreateOrder (Atoi userID).1 (TrimSpace body) = some GoError.ErrOtherUserOrder →
        (Handler.CreateOrder TrimSpace Atoi repo (some userID) (some body)).1.status = 409) ∧
     (∀ err : GoError, repo.CreateOrder (Atoi userID).1 (TrimSpace body) = some err →
        errorsIs err GoError.ErrDuplicateOrder = false →
        errorsIs err GoError.ErrOtherUserOrder = false →
        (Handler.CreateOrder TrimSpace Atoi repo (some userID) (some body)).1.status = 500)) ∧
    (∀ (uid empty : GoString), TrimSpace empty = [] →
      (Handler.CreateOrder TrimSpace Atoi repo (some uid) (some empty)).1.status = 400 ∧
      (Handler.CreateOrder TrimSpace Atoi repo (some uid) (some empty)).2 = []) ∧
    (∀ anyBody : Option GoString,
      (Handler.CreateOrder TrimSpace Atoi repo none anyBody).1.status = 401 ∧
      (Handler.CreateOrder TrimSpace Atoi repo none anyBody).2 = []) := by
  have hne : TrimSpace body ≠ [] := hvalid.1
  have hv : validOrderNumber (TrimSpace body) = true :=
    (validOrderNumber_cases _).mpr (Or.inr hvalid)
  have hinv : (!ContainsOnlyDigits (TrimSpace body) || !ValidateLuhn (TrimSpace body)) = false := by
    simp only [validOrderNumber, Bool.and_eq_true] at hv
    simp [hv.1, hv.2]
  have hnp : ¬ (Atoi userID).1 ≤ 0 := not_le.mpr hpos
  refine ⟨⟨?_, ?_, ?_, ?_, ?_⟩, ?_, ?_⟩
  · simp only [Handler.CreateOrder, if_neg hne, hinv, GofemartService.CreateOrder, if_neg hnp]
    cases hr : repo.CreateOrder (Atoi userID).1 (TrimSpace body) with
    | none => simp
    | some err =>
      by_cases h1 : errorsIs err GoError.ErrDuplicateOrder = true <;>
        by_cases h2 : errorsIs err GoError.ErrOtherUserOrder = true <;> simp [h1, h2]
  · intro hr
    simp [Handler.CreateOrder, hne, hinv, GofemartService.CreateOrder, hnp, hr, writeJSON]
  · intro hr
    simp [Handler.CreateOrder, hne, hinv, GofemartService.CreateOrder, hnp, hr, writeJSON,
      errorsIs]
  · intro hr
    simp [Handler.CreateOrder, hne, hinv, GofemartService.CreateOrder, hnp, hr, writeJSON,
      errorsIs]
  · intro err hr h1 h2
    simp [Handler.CreateOrder, hne, hinv, GofemartService.CreateOrder, hnp, hr, httpError,
      h1, h2]
  · intro uid empty he
    simp [Handler.CreateOrder, he, httpError]
  · intro anyBody
    simp [Handler.CreateOrder, httpError]

/-- C7 (witness). User `1` submits `12345678903` and the repository reports a duplicate:
the status is 200; a body of a space and a line feed gives 400. -/
theorem createOrder_handler_status_witness :
    0 < (strconvAtoi (str "1")).1 ∧ specValid (trimSpaceASCII (str "12345678903")) ∧
    (Handler.CreateOrder trimSpaceASCII strconvAtoi
      { nilRepo with CreateOrder := fun _ _ => some GoError.ErrDuplicateOrder }
      (some (str "1")) (some (str "12345678903"))).1.status = 200 ∧
    (Handler.CreateOrder trimSpaceASCII strconvAtoi
      { nilRepo with CreateOrder := fun _ _ => some GoError.ErrDuplicateOrder }
      (some (str "1")) (some (str " \n"))).1.status = 400 :=
  ⟨by decide, by decide!,
    (createOrder_handler_status trimSpaceASCII strconvAtoi
      { nilRepo with CreateOrder := fun _ _ => some GoError.ErrDuplicateOrder }
      (str "1") (str "12345678903") (by decide) (by decide!)).1.2.2.1 rfl,
    ((createOrder_handler_status trimSpaceASCII strconvAtoi
      { nilRepo with CreateOrder := fun _ _ => some GoError.ErrDuplicateOrder }
      (str "1") (str "12345678903") (by decide) (by decide!)).2.1 (str "1") (str " \n")
      (by decide)).1⟩

/-! ## `Handler.Withdraw` -/

/-- C8 (counterexample). A request of user `1` with content type `application/json`, sum
751 and the empty string as order: the order is not a non-empty digits-only Luhn-valid
string, yet the handler does not respond 422 and calls the repository's `Withdraw` with
the empty order number; the store, so called in the state of scenario S6 with sum 500,
appends a row whose order number is empty. -/
theorem withdraw_handler_empty_order :
    ¬ specValid ([] : GoString) ∧
    (Handler.Withdraw strconvAtoi nilRepo (some (str "1")) (str "application/json")
      (some ⟨[], 751, 0⟩)).1.status = 200 ∧
    (Handler.Withdraw strconvAtoi nilRepo (some (str "1")) (str "application/json")
      (some ⟨[], 751, 0⟩)).2 = [RepoCall.Withdraw 1 ⟨[], 751, 0⟩] ∧
    (PostgresStorage.Withdraw noFaults scenarioS6 1 ⟨[], 500, 0⟩).2.withdrawals
      = [{ user_id := 1, order_number := [], sum := 500 }] := by
  refine ⟨fun h => h.1 rfl, by decide!, by decide!, by decide!⟩

theorem withdraw_handler_calls (Atoi : GoString → Int × Option GoError) (repo : GofemartRepo)
    (ctxUserID : Option GoString) (contentType : GoString) (body : Option WithdrawBalance)
    (c : RepoCall)
    (hc : c ∈ (Handler.Withdraw Atoi repo ctxUserID contentType body).2) :
    ∃ (userID : GoString) (w : WithdrawBalance), ctxUserID = some userID ∧ body = some w ∧
      c = RepoCall.Withdraw (Atoi userID).1 w ∧ 0 < w.Sum ∧ validOrderNumber w.Order = true := by
  unfold Handler.Withdraw at hc
  cases ctxUserID with
  | none => simp at hc
  | some userID =>
    cases body with
    | none => dsimp only at hc; split_ifs at hc <;> simp at hc
    | some w =>
      dsimp only at hc
      split_ifs at hc with h1 h2 h3
      · simp at hc
      · simp at hc
      · simp at hc
      · have hv : validOrderNumber w.Order = true := by
          cases hv : validOrderNumber w.Order with
          | true => rfl
          | false => exact absurd ((not_validOrderNumber_iff _).mpr hv) h3
        have hsum : 0 < w.Sum := not_le.mp h2
        cases ha : (Atoi userID).2 with
        | some e => simp [ha] at hc
        | none =>
          have hmem : c = RepoCall.Withdraw (Atoi userID).1 w := by
            simp only [ha, GofemartService.Withdraw] at hc
            cases hr : repo.Withdraw (Atoi userID).1 w with
            | none => simpa [hr] using hc
            | some err =>
              simp only [hr] at hc
              split_ifs at hc <;> simpa using hc
          exact ⟨userID, w, rfl, rfl, hmem, hsum, hv⟩

/-- C8 (amended). For an authenticated request with content type `application/json` and a
decodable body: if `sum <= 0` the handler responds 400; otherwise, if the order field is
non-empty and is not a digits-only Luhn-valid string the handler responds 422; in both
cases the repository's `Withdraw` is not called. Every call of `Withdraw` that the handler
makes, on any request, carries a positive sum and an order number that is empty or a
digits-only Luhn-valid string, so every row that the store then appends to `withdrawals`
has a positive sum and such an order number. -/
theorem withdraw_handler_validation (Atoi : GoString → Int × Option GoError)
    (repo : GofemartRepo) (userID : GoString) (w : WithdrawBalance)
    (hbad : w.Sum ≤ 0 ∨ (w.Order ≠ [] ∧ ¬ specValid w.Order)) :
    ((Handler.Withdraw Atoi repo (some userID) (str "application/json") (some w)).1.status
        = if w.Sum ≤ 0 then 400 else 422) ∧
    (Handler.Withdraw Atoi repo (some userID) (str "application/json") (some w)).2 = [] ∧
    (∀ (ctxUserID : Option GoString) (contentType : GoString) (body : Option WithdrawBalance)
      (u : Int) (x : WithdrawBalance),
      RepoCall.Withdraw u x ∈ (Handler.Withdraw Atoi repo ctxUserID contentType body).2 →
      (0 < x.Sum ∧ (x.Order = [] ∨ specValid x.Order)) ∧
      (∀ (faults : WithdrawFaults) (db : Mart),
        ∀ row ∈ (PostgresStorage.Withdraw faults db u x).2.withdrawals,
          row ∈ db.withdrawals ∨
            (0 < row.sum ∧ (row.order_number = [] ∨ specValid row.order_number)))) := by
  have hct : ¬ (str "application/json" ≠ str "application/json") := fun h => h rfl
  refine ⟨?_, ?_, ?_⟩
  · by_cases hs : w.Sum ≤ 0
    · simp [Handler.Withdraw, hs, httpError]
    · rcases hbad with h | ⟨hne, hnv⟩
      · exact absurd h hs
      · have hv : validOrderNumber w.Order = false := by
          cases hv : validOrderNumber w.Order with
          | false => rfl
          | true =>
            rcases (validOrderNumber_cases _).mp hv with h | h
            · exact absurd h hne
            · exact absurd h hnv
        have hinv := (not_validOrderNumber_iff _).mpr hv
        simp only [Handler.Withdraw, if_neg hct, if_neg hs, hinv, if_true, httpError]
  · by_cases hs : w.Sum ≤ 0
    · simp [Handler.Withdraw, hs, httpError]
    · rcases hbad with h | ⟨hne, hnv⟩
      · exact absurd h hs
      · have hv : validOrderNumber w.Order = false := by
          cases hv : validOrderNumber w.Order with
          | false => rfl
          | true =>
            rcases (validOrderNumber_cases _).mp hv with h | h
            · exact absurd h hne
            · exact absurd h hnv
        have hinv := (not_validOrderNumber_iff _).mpr hv
        simp only [Handler.Withdraw, if_neg hct, if_neg hs, hinv, if_true]
  · intro ctxUserID contentType body u x hmem
    obtain ⟨uid, w', _, _, hcall, hsum, hv⟩ :=
      withdraw_handler_calls Atoi repo ctxUserID contentType body _ hmem
    have hx : x = w' := by
      simp only [RepoCall.Withdraw.injEq] at hcall
      exact hcall.2
    subst hx
    have hord := (validOrderNumber_cases _).mp hv
    refine ⟨⟨hsum, hord⟩, ?_⟩
    intro faults db row hrow
    rcases withdraw_result_cases faults db u x with h | ⟨_, h⟩
    · rw [h] at hrow
      rcases List.mem_append.mp hrow with hin | hin
      · exact Or.inl hin
      · simp only [List.mem_singleton] at hin
        subst hin
        exact Or.inr ⟨hsum, hord⟩
    · rw [h] at hrow
      exact Or.inl hrow

/-- C8 (witness). The order `123abc456` with sum 751 is answered 422, and the repository is
not called. -/
theorem withdraw_handler_validation_witness :
    ((751 : ℚ) ≤ 0 ∨ (str "123abc456" ≠ [] ∧ ¬ specValid (str "123abc456"))) ∧
    (Handler.Withdraw strconvAtoi nilRepo (some (str "1")) (str "application/json")
      (some ⟨str "123abc456", 751, 0⟩)).1.status = 422 ∧
    (Handler.Withdraw strconvAtoi nilRepo (some (str "1")) (str "application/json")
      (some ⟨str "123abc456", 751, 0⟩)).2 = [] := by
  have hbad : (751 : ℚ) ≤ 0 ∨ (str "123abc456" ≠ [] ∧ ¬ specValid (str "123abc456")) :=
    Or.inr ⟨by decide, by decide!⟩
  have h := withdraw_handler_validation strconvAtoi nilRepo (str "1")
    ⟨str "123abc456", 751, 0⟩ hbad
  refine ⟨hbad, ?_, h.2.1⟩
  rw [h.1]
  norm_num

/-- C9. For a request that passes the validation of `Handler.Withdraw` (user id in the
context and parsed by `Atoi`, content type `application/json`, decodable body, positive
sum, order number accepted by the validity test), the handler calls the repository's
`Withdraw` once and answers 200 with the JSON body `{}` when it returns nil, 402 when it
returns `ErrLackOfFunds`, 422 when it returns `ErrInvalidOrderNumber`, and 500 for every
other error. -/
theorem withdraw_handler_status (Atoi : GoString → Int × Option GoError)
    (repo : GofemartRepo) (userID : GoString) (w : WithdrawBalance)
    (hid : (Atoi userID).2 = none) (hsum : 0 < w.Sum)
    (hvalid : validOrderNumber w.Order = true) :
    (Handler.Withdraw Atoi repo (some userID) (str "application/json") (some w)).2
      = [RepoCall.Withdraw (Atoi userID).1 w] ∧
    (repo.Withdraw (Atoi userID).1 w = none →
      (Handler.Withdraw Atoi repo (some userID) (str "application/json") (some w)).1
        = { status := 200, body := "\x7b\x7d\n", cookie := none }) ∧
    (repo.Withdraw (Atoi userID).1 w = some GoError.ErrLackOfFunds →
      (Handler.Withdraw Atoi repo (some userID) (str "application/json") (some w)).1.status
        = 402) ∧
    (repo.Withdraw (Atoi userID).1 w = some GoError.ErrInvalidOrderNumber →
      (Handler.Withdraw Atoi repo (some userID) (str "application/json") (some w)).1.status
        = 422) ∧
    (∀ err : GoError, repo.Withdraw (Atoi userID).1 w = some err →
      err ≠ GoError.ErrLackOfFunds → err ≠ GoError.ErrInvalidOrderNumber →
      (Handler.Withdraw Atoi repo (some userID) (str "application/json") (some w)).1.status
        = 500) := by
  have hct : ¬ (str "application/json" ≠ str "application/json") := fun h => h rfl
  have hs : ¬ w.Sum ≤ 0 := not_le.mpr hsum
  have hinv : (!ContainsOnlyDigits w.Order || !ValidateLuhn w.Order) = false := by
    simp only [validOrderNumber, Bool.and_eq_true] at hvalid
    simp [hvalid.1, hvalid.2]
  refine ⟨?_, ?_, ?_, ?_, ?_⟩
  · simp only [Handler.Withdraw, if_neg hct, if_neg hs, hinv, hid, GofemartService.Withdraw]
    cases hr : repo.Withdraw (Atoi userID).1 w with
    | none => simp
    | some err =>
      by_cases h1 : err = GoError.ErrInvalidOrderNumber <;>
        by_cases h2 : err = GoError.ErrLackOfFunds <;> simp [h1, h2]
  · intro hr
    simp [Handler.Withdraw, hs, hinv, hid, GofemartService.Withdraw, hr, writeJSON]
  · intro hr
    simp [Handler.Withdraw, hs, hinv, hid, GofemartService.Withdraw, hr, httpError]
  · intro hr
    simp [Handler.Withdraw, hs, hinv, hid, GofemartService.Withdraw, hr, httpError]
  · intro err hr h1 h2
    simp [Handler.Withdraw, hs, hinv, hid, GofemartService.Withdraw, hr, httpError, h1, h2]

/-- C9 (witness). The request of the handler test "Insufficient funds": order `2377225624`,
sum 751, and a repository that returns `ErrLackOfFunds`; the status is 402. -/
theorem withdraw_handler_status_witness :
    (strconvAtoi (str "1")).2 = none ∧ (0 : ℚ) < 751 ∧
    validOrderNumber (str "2377225624") = true ∧
    (Handler.Withdraw strconvAtoi
      { nilRepo with Withdraw := fun _ _ => some GoError.ErrLackOfFunds }
      (some (str "1")) (str "application/json")
      (some ⟨str "2377225624", 751, 0⟩)).1.status = 402 :=
  ⟨by decide, by norm_num, by decide,
    (withdraw_handler_status strconvAtoi
      { nilRepo with Withdraw := fun _ _ => some GoError.ErrLackOfFunds }
      (str "1") ⟨str "2377225624", 751, 0⟩ (by decide) (by norm_num) (by decide)).2.2.1 rfl⟩

/-! ## `GofemartService.LoginUser` and `Handler.Login` -/

/-- C10 (failing input). Login `nonexistent`, password `password`, and a repository that
returns `(nil, nil)`: `LoginUser` returns a new error whose text is that of
`ErrInvalidLoginOrPassword` but which is not that variable, `errors.Is` does not match it,
and `Handler.Login` responds 500, not 401. -/
theorem login_unknown_user_status :
    nilRepo.GetUserByLoginAndPassword (str "nonexistent") (str "password") = .ok none ∧
    (GofemartService.LoginUser nilRepo (str "nonexistent") (str "password")).1
      = .error (GoError.other "invalid login or password") ∧
    (GoError.other "invalid login or password").Error
      = GoError.ErrInvalidLoginOrPassword.Error ∧
    errorsIs (GoError.other "invalid login or password") GoError.ErrInvalidLoginOrPassword
      = false ∧
    (Handler.Login nilRepo (str "application/json")
      (some ⟨str "nonexistent", str "password"⟩)).1.status = 500 := by
  refine ⟨rfl, by rfl, by decide, by decide, by decide⟩

/-! ## The rate limiter -/

/-- C17. With the limiter state as the counters per remote address and the time of the last
reset: one request at time `now` from address `a` first resets all counters and sets the
time of the last reset (to the time `resetTime` read at the reset, which is `now` when both
readings of the clock agree) exactly when `now - lastReset > timeout`; it is then rejected
with 429 and body `Too many requests` exactly when the counter of `a` is at least the limit,
leaving all counters unchanged, and is otherwise passed to the wrapped handler with the
counter of `a` incremented by one and every other counter unchanged. -/
theorem limitRequests_step (maxRequests timeout : Int) (limiter : Accrual.Limiter)
    (now resetTime : Int) (a : GoString) :
    ((Accrual.LimitRequestsMiddleware maxRequests timeout limiter now resetTime a).1.lastReset
      = if now - limiter.lastReset > timeout then resetTime else limiter.lastReset) ∧
    ((Accrual.LimitRequestsMiddleware maxRequests timeout limiter now resetTime a).2
        = Accrual.LimitOutcome.rejected
            { status := 429, body := "Too many requests\n", cookie := none } ↔
      (if now - limiter.lastReset > timeout then 0 else limiter.requests a) ≥ maxRequests) ∧
    ((Accrual.LimitRequestsMiddleware maxRequests timeout limiter now resetTime a).2
        = Accrual.LimitOutcome.passed ↔
      (if now - limiter.lastReset > timeout then 0 else limiter.requests a) < maxRequests) ∧
    (∀ b : GoString,
      (Accrual.LimitRequestsMiddleware maxRequests timeout limiter now resetTime a).1.requests b
        = (if now - limiter.lastReset > timeout then 0 else limiter.requests b)
          + (if b = a ∧ (if now - limiter.lastReset > timeout then 0 else limiter.requests a)
                < maxRequests then 1 else 0)) := by
  unfold Accrual.LimitRequestsMiddleware
  by_cases hexp : now - limiter.lastReset > timeout
  · simp only [hexp, if_true]
    by_cases hlim : (0 : Int) ≥ maxRequests
    · have hn : ¬ (0 : Int) < maxRequests := not_lt.mpr hlim
      simp [hlim, hn, httpError]
    · have hn : (0 : Int) < maxRequests := not_le.mp hlim
      simp only [ge_iff_le, hlim, if_false, hn, and_true, false_iff, true_iff, true_and]
      refine ⟨⟨fun h => (by cases h), fun h => h.elim⟩, ?_⟩
      intro b
      by_cases hb : b = a
      · subst hb
        simp [Function.update_same]
      · simp [hb, Function.update_noteq hb]
  · simp only [hexp, if_false]
    by_cases hlim : limiter.requests a ≥ maxRequests
    · have hn : ¬ limiter.requests a < maxRequests := not_lt.mpr hlim
      simp [hlim, hn, httpError]
    · have hn : limiter.requests a < maxRequests := not_le.mp hlim
      simp only [ge_iff_le, hlim, if_false, hn, and_true, false_iff, true_iff, true_and]
      refine ⟨⟨fun h => (by cases h), fun h => h.elim⟩, ?_⟩
      intro b
      by_cases hb : b = a
      · subst hb
        simp [Function.update_same]
      · simp [hb, Function.update_noteq hb]

/-! ## The Accrual handlers -/

theorem stringsSplit_no_sep (sep : Byte) (n : GoString) (hn : ∀ b ∈ n, b ≠ sep) :
    Accrual.stringsSplit sep n = [n] := by
  induction n with
  | nil => rfl
  | cons b rest ih =>
    have hb : b ≠ sep := hn b (List.mem_cons_self _ _)
    have hrest : ∀ x ∈ rest, x ≠ sep := fun x hx => hn x (List.mem_cons_of_mem _ hx)
    simp [Accrual.stringsSplit, hb, ih hrest]

theorem stringsSplit_cons (sep : Byte) (s : GoString) :
    ∃ part parts, Accrual.stringsSplit sep s = part :: parts := by
  induction s with
  | nil => exact ⟨[], [], rfl⟩
  | cons b rest ih =>
    obtain ⟨part, parts, h⟩ := ih
    by_cases hb : b = sep
    · exact ⟨[], Accrual.stringsSplit sep rest, by simp [Accrual.stringsSplit, hb]⟩
    · exact ⟨b :: part, parts, by simp [Accrual.stringsSplit, hb, h]⟩

theorem stringsSplit_orders_parts (n : GoString) :
    Accrual.stringsSplit 47 (str "/api/orders/" ++ n)
      = [] :: str "api" :: str "orders" :: Accrual.stringsSplit 47 n := by
  have hp : str "/api/orders/" = [47, 97, 112, 105, 47, 111, 114, 100, 101, 114, 115, 47] := by
    decide
  have ha : str "api" = [97, 112, 105] := by decide
  have ho : str "orders" = [111, 114, 100, 101, 114, 115] := by decide
  obtain ⟨part, parts, h⟩ := stringsSplit_cons 47 n
  rw [hp, ha, ho]
  simp [Accrual.stringsSplit, h]

theorem stringsSplit_orders_path (n : GoString) (hn : ∀ b ∈ n, b ≠ 47) :
    Accrual.stringsSplit 47 (str "/api/orders/" ++ n)
      = [[], str "api", str "orders", n] := by
  rw [stringsSplit_orders_parts, stringsSplit_no_sep 47 n hn]

theorem getAccrualInfo_handler_aux {σ : Type} (ParseInt : GoString → Int × Option GoError)
    (service : Accrual.Handler.Service σ) (path n : GoString) (s : σ)
    (hn : (Accrual.stringsSplit 47 path).get? 3 = some n) :
    Accrual.Handler.GetAccrualInfo ParseInt service path s
      = match (ParseInt n).2 with
        | some _ => some { status := 400, body := none }
        | none =>
          match (service.GetAccrualInfo (ParseInt n).1 s).2.2.2 with
          | some _ => some { status := 500, body := none }
          | none =>
            if !(service.GetAccrualInfo (ParseInt n).1 s).2.2.1 then
              some { status := 204, body := none }
            else
              match Accrual.marshalAccrualInfo
                { Order := (ParseInt n).1, Status := (service.GetAccrualInfo (ParseInt n).1 s).1,
                  Accrual := (service.GetAccrualInfo (ParseInt n).1 s).2.1 } with
              | .error _ => some { status := 500, body := none }
              | .ok response => some { status := 200, body := some response } := by
  have hlen : ¬ (Accrual.stringsSplit 47 path).length < 3 := by
    intro hlt
    have hnone : (Accrual.stringsSplit 47 path).get? 3 = none :=
      List.get?_eq_none.mpr (by omega)
    rw [hnone] at hn
    cases hn
  simp only [Accrual.Handler.GetAccrualInfo, hlen, if_false, hn]
  try rfl

/-- C15 (counterexample). The rule `Bork` of `2^600` percent and the registered order
9278923470 with a line of price `2^600`: the tick of the matcher computes the accrual `+Inf`
and writes the order PROCESSED with it. For `GET /api/orders/9278923470` the service then
reports no error and the order exists, and the response is 500 and not 200, because
`json.Marshal` cannot encode the accrual. -/
theorem getAccrualInfo_handler_unencodable :
    Float64.ofRat (2 ^ 600) = .finite (2 ^ 600) ∧
    (Accrual.Service.processOrders (Accrual.PostgresDB.repository plainPostgres)
        (fun _ => false) id scenarioOverflow).2.1.orders_accrual
      = [{ order_id := 9278923470,
           goods := [{ Description := str "Bork toaster", Price := 2 ^ 600 }],
           status := "PROCESSED", accrual := some .posInf }] ∧
    (Accrual.Service.handlerService strconvAtoi
        (Accrual.PostgresDB.repository plainPostgres)).GetAccrualInfo 9278923470
        (Accrual.Service.processOrders (Accrual.PostgresDB.repository plainPostgres)
          (fun _ => false) id scenarioOverflow).2.1
      = ("PROCESSED", .posInf, true, none) ∧
    Accrual.Handler.GetAccrualInfo strconvAtoi
        (Accrual.Service.handlerService strconvAtoi
          (Accrual.PostgresDB.repository plainPostgres))
        (str "/api/orders/9278923470")
        (Accrual.Service.processOrders (Accrual.PostgresDB.repository plainPostgres)
          (fun _ => false) id scenarioOverflow).2.1
      = some { status := 500, body := none } := by
  refine ⟨by decide!, by decide!, by decide!, by decide!⟩

/-- C15 (amended). For a request `GET /api/orders/{n}`, and more generally for every path
whose part of index 3 is `n`: if `n` does not parse as a base-10 `int64` the response is
400; if the service reports an error it is 500; if the order does not exist it is 204 with
an empty body; if the accrual is infinite or not a number, which `json.Marshal` cannot
encode, it is 500; otherwise it is 200 with the JSON object of the fields `order`, the
parsed integer, `status`, and `accrual`, which is left out exactly when the accrual is
zero. The part of index 3 of the path `/api/orders/` followed by `m` is the part of `m`
before its first slash, `m` itself when it has no slash. -/
theorem getAccrualInfo_handler {σ : Type} (ParseInt : GoString → Int × Option GoError)
    (service : Accrual.Handler.Service σ) (path n : GoString) (s : σ)
    (hn : (Accrual.stringsSplit 47 path).get? 3 = some n) :
    ((ParseInt n).2 ≠ none →
      Accrual.Handler.GetAccrualInfo ParseInt service path s
        = some { status := 400, body := none }) ∧
    ((ParseInt n).2 = none → (service.GetAccrualInfo (ParseInt n).1 s).2.2.2 ≠ none →
      Accrual.Handler.GetAccrualInfo ParseInt service path s
        = some { status := 500, body := none }) ∧
    ((ParseInt n).2 = none → (service.GetAccrualInfo (ParseInt n).1 s).2.2.2 = none →
      (service.GetAccrualInfo (ParseInt n).1 s).2.2.1 = false →
      Accrual.Handler.GetAccrualInfo ParseInt service path s
        = some { status := 204, body := none }) ∧
    ((ParseInt n).2 = none → (service.GetAccrualInfo (ParseInt n).1 s).2.2.2 = none →
      (service.GetAccrualInfo (ParseInt n).1 s).2.2.1 = true →
      (∀ v : ℚ, (service.GetAccrualInfo (ParseInt n).1 s).2.1 ≠ .finite v) →
      Accrual.Handler.GetAccrualInfo ParseInt service path s
        = some { status := 500, body := none }) ∧
    (∀ v : ℚ, (ParseInt n).2 = none →
      (service.GetAccrualInfo (ParseInt n).1 s).2.2.2 = none →
      (service.GetAccrualInfo (ParseInt n).1 s).2.2.1 = true →
      (service.GetAccrualInfo (ParseInt n).1 s).2.1 = .finite v →
      Accrual.Handler.GetAccrualInfo ParseInt service path s
        = some { status := 200,
                 body := some
                  ([("order", Accrual.JSONValue.int (ParseInt n).1),
                    ("status", Accrual.JSONValue.string
                      (service.GetAccrualInfo (ParseInt n).1 s).1)] ++
                   (if v = 0 then []
                    else [("accrual", Accrual.JSONValue.number v)])) }) ∧
    (∀ m : GoString,
      (Accrual.stringsSplit 47 (str "/api/orders/" ++ m)).get? 3
        = (Accrual.stringsSplit 47 m).head?) ∧
    (∀ m : GoString, (∀ b ∈ m, b ≠ 47) →
      (Accrual.stringsSplit 47 (str "/api/orders/" ++ m)).get? 3 = some m) := by
  have haux := getAccrualInfo_handler_aux ParseInt service path n s hn
  refine ⟨?_, ?_, ?_, ?_, ?_, ?_, ?_⟩
  · intro hp
    cases h : (ParseInt n).2 with
    | none => exact absurd h hp
    | some e => rw [haux, h]
  · intro hp he
    cases h : (service.GetAccrualInfo (ParseInt n).1 s).2.2.2 with
    | none => exact absurd h he
    | some e => rw [haux, hp, h]
  · intro hp he hx
    rw [haux, hp, he, hx]
    rfl
  · intro hp he hx hv
    rw [haux, hp, he, hx]
    cases h : (service.GetAccrualInfo (ParseInt n).1 s).2.1 with
    | finite v => exact absurd h (hv v)
    | posInf => simp [Accrual.marshalAccrualInfo, h]
    | negInf => simp [Accrual.marshalAccrualInfo, h]
    | NaN => simp [Accrual.marshalAccrualInfo, h]
  · intro v hp he hx hv
    rw [haux, hp, he, hx]
    simp [Accrual.marshalAccrualInfo, hv]
  · intro m
    obtain ⟨part, parts, h⟩ := stringsSplit_cons 47 m
    rw [stringsSplit_orders_parts, h]
    rfl
  · intro m hm
    rw [stringsSplit_orders_path m hm]
    rfl

/-- C15 (witness). The handler test "Ok": order 12345, PROCESSED, accrual 100.5. -/
theorem getAccrualInfo_handler_witness :
    (Accrual.stringsSplit 47 (str "/api/orders/12345")).get? 3 = some (str "12345") ∧
    Float64.ofRat 100.5 = .finite 100.5 ∧
    Accrual.Handler.GetAccrualInfo strconvAtoi
        ({ CreateProductReward := fun _ _ _ s => (none, s)
           RegisterNewOrder := fun _ s => ((false, none), s)
           GetAccrualInfo := fun _ _ => ("PROCESSED", .finite 100.5, true, none) } :
          Accrual.Handler.Service Unit)
        (str "/api/orders/12345") ()
      = some { status := 200,
               body := some [("order", Accrual.JSONValue.int 12345),
                             ("status", Accrual.JSONValue.string "PROCESSED"),
                             ("accrual", Accrual.JSONValue.number 100.5)] } := by
  have hn : (Accrual.stringsSplit 47 (str "/api/orders/12345")).get? 3
      = some (str "12345") := by decide!
  have h := (getAccrualInfo_handler strconvAtoi
    ({ CreateProductReward := fun _ _ _ s => (none, s)
       RegisterNewOrder := fun _ s => ((false, none), s)
       GetAccrualInfo := fun _ _ => ("PROCESSED", .finite 100.5, true, none) } :
      Accrual.Handler.Service Unit) (str "/api/orders/12345") (str "12345") () hn).2.2.2.2.1
      100.5 (by decide) rfl rfl rfl
  refine ⟨hn, by decide!, ?_⟩
  rw [h]
  have hp : (strconvAtoi (str "12345")).1 = 12345 := by decide!
  simp only [hp]
  norm_num

theorem checkOrderExists_iff (pg : Accrual.Postgres) (db : Accrual.DB) (id : Int) :
    ((Accrual.PostgresDB.repository pg).CheckOrderExists id db = (true, none) ↔
      ∃ o ∈ db.orders_accrual, o.order_id = id) ∧
    ((Accrual.PostgresDB.repository pg).CheckOrderExists id db = (false, none) ↔
      ∀ o ∈ db.orders_accrual, o.order_id ≠ id) := by
  simp only [Accrual.PostgresDB.repository, Accrual.PostgresDB.CheckOrderExists,
    Prod.mk.injEq, and_true]
  constructor
  · simp [List.any_eq_true]
  · simp [List.any_eq_false]

/-- C16. For a request `POST /api/orders`: a body that cannot be read or is not valid JSON for
the order shape gives 400 and changes nothing; an order id that already exists gives 409,
and the service then makes no call of `RegisterNewOrder` and leaves the state as it was; a
new order id gives 202 after the one call `RegisterNewOrder(id, goods, REGISTERED)`, which
on the store appends the row of that id with status REGISTERED; every other failure (an
order field that is not an integer, an error of `CheckOrderExists` or of
`RegisterNewOrder`) gives 500. On the store, `CheckOrderExists` answers true exactly when
`orders_accrual` has a row with that id: the handler answers 409 and leaves the table as it
was when there is one, and when there is none it answers 202 and the table is the old one
followed by the row of the id with the goods, the status REGISTERED and no accrual, or, when
the database rejects the goods, it answers 500 and leaves the table as it was. -/
theorem registerNewOrder_handler {σ : Type} (Unmarshal : GoString → Option Accrual.Order)
    (ParseInt : GoString → Int × Option GoError) (repo : Accrual.Repository σ)
    (buf : GoString) (order : Accrual.Order) (s : σ) (hu : Unmarshal buf = some order) :
    (Accrual.Handler.RegisterNewOrder Unmarshal (Accrual.Service.handlerService ParseInt repo)
        none s = ({ status := 400, body := none }, s)) ∧
    (∀ bad : GoString, Unmarshal bad = none →
      Accrual.Handler.RegisterNewOrder Unmarshal (Accrual.Service.handlerService ParseInt repo)
        (some bad) s = ({ status := 400, body := none }, s)) ∧
    ((ParseInt order.Order).2 = none →
      repo.CheckOrderExists (ParseInt order.Order).1 s = (true, none) →
      Accrual.Handler.RegisterNewOrder Unmarshal (Accrual.Service.handlerService ParseInt repo)
          (some buf) s = ({ status := 409, body := none }, s) ∧
      (Accrual.Service.RegisterNewOrder ParseInt repo order s).2.2
        = [Accrual.Call.CheckOrderExists (ParseInt order.Order).1]) ∧
    ((ParseInt order.Order).2 = none →
      repo.CheckOrderExists (ParseInt order.Order).1 s = (false, none) →
      (repo.RegisterNewOrder (ParseInt order.Order).1 order.Goods "REGISTERED" s).1 = none →
      Accrual.Handler.RegisterNewOrder Unmarshal (Accrual.Service.handlerService ParseInt repo)
          (some buf) s
        = ({ status := 202, body := none },
            (repo.RegisterNewOrder (ParseInt order.Order).1 order.Goods "REGISTERED" s).2) ∧
      (Accrual.Service.RegisterNewOrder ParseInt repo order s).2.2
        = [Accrual.Call.CheckOrderExists (ParseInt order.Order).1,
           Accrual.Call.RegisterNewOrder (ParseInt order.Order).1 order.Goods "REGISTERED"]) ∧
    (((ParseInt order.Order).2 ≠ none ∨
      ((ParseInt order.Order).2 = none ∧
        (repo.CheckOrderExists (ParseInt order.Order).1 s).2 ≠ none) ∨
      ((ParseInt order.Order).2 = none ∧
        repo.CheckOrderExists (ParseInt order.Order).1 s = (false, none) ∧
        (repo.RegisterNewOrder (ParseInt order.Order).1 order.Goods "REGISTERED" s).1 ≠ none)) →
      (Accrual.Handler.RegisterNewOrder Unmarshal
        (Accrual.Service.handlerService ParseInt repo) (some buf) s).1
        = { status := 500, body := none }) ∧
    (∀ (pg : Accrual.Postgres) (db : Accrual.DB) (id : Int) (goods stored : List Accrual.Goods),
      db.orders_accrual.any (fun o => decide (o.order_id = id)) = false →
      pg.castGoods goods = .ok stored →
      (Accrual.PostgresDB.repository pg).RegisterNewOrder id goods "REGISTERED" db
        = (none, { db with orders_accrual := db.orders_accrual ++
            [{ order_id := id, goods := stored, status := "REGISTERED", accrual := none }] })) ∧
    (∀ (pg : Accrual.Postgres) (db : Accrual.DB) (id : Int),
      ((Accrual.PostgresDB.repository pg).CheckOrderExists id db = (true, none) ↔
        ∃ o ∈ db.orders_accrual, o.order_id = id) ∧
      ((Accrual.PostgresDB.repository pg).CheckOrderExists id db = (false, none) ↔
        ∀ o ∈ db.orders_accrual, o.order_id ≠ id)) ∧
    (∀ (pg : Accrual.Postgres) (db : Accrual.DB), (ParseInt order.Order).2 = none →
      (∃ o ∈ db.orders_accrual, o.order_id = (ParseInt order.Order).1) →
      Accrual.Handler.RegisterNewOrder Unmarshal
          (Accrual.Service.handlerService ParseInt (Accrual.PostgresDB.repository pg))
          (some buf) db = ({ status := 409, body := none }, db)) ∧
    (∀ (pg : Accrual.Postgres) (db : Accrual.DB) (stored : List Accrual.Goods),
      (ParseInt order.Order).2 = none →
      (∀ o ∈ db.orders_accrual, o.order_id ≠ (ParseInt order.Order).1) →
      pg.castGoods order.Goods = .ok stored →
      Accrual.Handler.RegisterNewOrder Unmarshal
          (Accrual.Service.handlerService ParseInt (Accrual.PostgresDB.repository pg))
          (some buf) db
        = ({ status := 202, body := none },
            { db with orders_accrual := db.orders_accrual ++
              [{ order_id := (ParseInt order.Order).1, goods := stored,
                 status := "REGISTERED", accrual := none }] })) ∧
    (∀ (pg : Accrual.Postgres) (db : Accrual.DB) (err : GoError),
      (ParseInt order.Order).2 = none →
      (∀ o ∈ db.orders_accrual, o.order_id ≠ (ParseInt order.Order).1) →
      pg.castGoods order.Goods = .error err →
      Accrual.Handler.RegisterNewOrder Unmarshal
          (Accrual.Service.handlerService ParseInt (Accrual.PostgresDB.repository pg))
          (some buf) db = ({ status := 500, body := none }, db)) := by
  refine ⟨rfl, ?_, ?_, ?_, ?_, ?_, ?_, ?_, ?_, ?_⟩
  · intro bad hb
    simp [Accrual.Handler.RegisterNewOrder, hb]
  · intro hp hc
    simp [Accrual.Handler.RegisterNewOrder, hu, Accrual.Service.handlerService,
      Accrual.Service.RegisterNewOrder, hp, hc]
  · intro hp hc hr
    simp [Accrual.Handler.RegisterNewOrder, hu, Accrual.Service.handlerService,
      Accrual.Service.RegisterNewOrder, hp, hc, hr, Accrual.Registered]
  · rintro (hp | ⟨hp, hc⟩ | ⟨hp, hc, hr⟩)
    · cases h : (ParseInt order.Order).2 with
      | none => exact absurd h hp
      | some e =>
        simp [Accrual.Handler.RegisterNewOrder, hu, Accrual.Service.handlerService,
          Accrual.Service.RegisterNewOrder, h]
    · cases h : (repo.CheckOrderExists (ParseInt order.Order).1 s).2 with
      | none => exact absurd h hc
      | some e =>
        simp [Accrual.Handler.RegisterNewOrder, hu, Accrual.Service.handlerService,
          Accrual.Service.RegisterNewOrder, hp, h]
    · cases h : (repo.RegisterNewOrder (ParseInt order.Order).1 order.Goods "REGISTERED" s).1 with
      | none => exact absurd h hr
      | some e =>
        simp [Accrual.Handler.RegisterNewOrder, hu, Accrual.Service.handlerService,
          Accrual.Service.RegisterNewOrder, hp, hc, h, Accrual.Registered]
  · intro pg db id goods stored hex hcast
    simp only [Accrual.PostgresDB.repository, Accrual.PostgresDB.RegisterNewOrder, hex, hcast]
    rfl
  · intro pg db id
    exact checkOrderExists_iff pg db id
  · intro pg db hp hex
    have hc := (checkOrderExists_iff pg db (ParseInt order.Order).1).1.mpr hex
    simp [Accrual.Handler.RegisterNewOrder, hu, Accrual.Service.handlerService,
      Accrual.Service.RegisterNewOrder, hp, hc]
  · intro pg db stored hp hnew hcast
    have hc := (checkOrderExists_iff pg db (ParseInt order.Order).1).2.mpr hnew
    have hany : db.orders_accrual.any (fun o => decide (o.order_id = (ParseInt order.Order).1))
        = false := by
      simp only [Accrual.PostgresDB.repository, Accrual.PostgresDB.CheckOrderExists,
        Prod.mk.injEq, and_true] at hc
      exact hc
    have hr : (Accrual.PostgresDB.repository pg).RegisterNewOrder (ParseInt order.Order).1
        order.Goods "REGISTERED" db
        = (none, { db with orders_accrual := db.orders_accrual ++
            [{ order_id := (ParseInt order.Order).1, goods := stored,
               status := "REGISTERED", accrual := none }] }) := by
      simp only [Accrual.PostgresDB.repository, Accrual.PostgresDB.RegisterNewOrder, hany, hcast]
      rfl
    simp [Accrual.Handler.RegisterNewOrder, hu, Accrual.Service.handlerService,
      Accrual.Service.RegisterNewOrder, hp, hc, hr, Accrual.Registered]
  · intro pg db err hp hnew hcast
    have hc := (checkOrderExists_iff pg db (ParseInt order.Order).1).2.mpr hnew
    have hany : db.orders_accrual.any (fun o => decide (o.order_id = (ParseInt order.Order).1))
        = false := by
      simp only [Accrual.PostgresDB.repository, Accrual.PostgresDB.CheckOrderExists,
        Prod.mk.injEq, and_true] at hc
      exact hc
    have hr : (Accrual.PostgresDB.repository pg).RegisterNewOrder (ParseInt order.Order).1
        order.Goods "REGISTERED" db
        = (some (.wrap "path: internal/accrual/storage/RegisterNewOrder Exec err: " err),
            db) := by
      simp only [Accrual.PostgresDB.repository, Accrual.PostgresDB.RegisterNewOrder, hany, hcast]
      rfl
    simp [Accrual.Handler.RegisterNewOrder, hu, Accrual.Service.handlerService,
      Accrual.Service.RegisterNewOrder, hp, hc, hr, Accrual.Registered]

/-- C16 (witness). On the store of scenario S3, which has the order 1234567890: the order
`12345` with one goods line is new, the response is 202 and the row is stored with status
REGISTERED; the order `1234567890` exists, the response is 409 and the table is as it
was. -/
theorem registerNewOrder_handler_witness :
    (fun _ : GoString => some orderOfTest) [] = some orderOfTest ∧
    Accrual.Handler.RegisterNewOrder (fun _ => some orderOfTest)
        (Accrual.Service.handlerService strconvAtoi (Accrual.PostgresDB.repository plainPostgres))
        (some []) scenarioS3
      = ({ status := 202, body := none },
          { scenarioS3 with orders_accrual := scenarioS3.orders_accrual ++
            [{ order_id := 12345, goods := orderOfTest.Goods,
               status := "REGISTERED", accrual := none }] }) ∧
    (fun _ : GoString => some orderRegistered) [] = some orderRegistered ∧
    Accrual.Handler.RegisterNewOrder (fun _ => some orderRegistered)
        (Accrual.Service.handlerService strconvAtoi (Accrual.PostgresDB.repository plainPostgres))
        (some []) scenarioS3
      = ({ status := 409, body := none }, scenarioS3) := by
  have h := registerNewOrder_handler (fun _ => some orderOfTest)
    strconvAtoi (Accrual.PostgresDB.repository plainPostgres) [] orderOfTest scenarioS3 rfl
  have hp : (strconvAtoi orderOfTest.Order).2 = none := by decide!
  have hid : (strconvAtoi orderOfTest.Order).1 = 12345 := by decide!
  have h202 := h.2.2.2.2.2.2.2.2.1 plainPostgres scenarioS3 orderOfTest.Goods hp
    (by rw [hid]; decide!) rfl
  have h2 := registerNewOrder_handler (fun _ => some orderRegistered)
    strconvAtoi (Accrual.PostgresDB.repository plainPostgres) [] orderRegistered scenarioS3 rfl
  have hp2 : (strconvAtoi orderRegistered.Order).2 = none := by decide!
  have hid2 : (strconvAtoi orderRegistered.Order).1 = 1234567890 := by decide!
  have h409 := h2.2.2.2.2.2.2.2.1 plainPostgres scenarioS3 hp2 (by rw [hid2]; decide!)
  refine ⟨rfl, ?_, rfl, h409⟩
  rw [h202, hid]

/-! ## The per-order processor (`OrderListener.processOrder`) -/

theorem processOrder_trace (ctxDone : Nat → Bool) (exec : Nat → Except GoError Int) (job : Job)
    (results : List QueryResult) :
    ∀ i k : Nat, ∃ c : Nat, c ≤ results.length ∧
      (OrderListener.processOrder ctxDone exec job results i k).2
        = (results.take c).flatMap (specCalls job) ∧
      (∀ j : Nat, j + 1 < c → ∀ r, results.get? j = some r → r.isTerminal = false) ∧
      ((OrderListener.processOrder ctxDone exec job results i k).1 = .returned none →
        ∃ r, 0 < c ∧ results.get? (c - 1) = some r ∧ r.isTerminal = true) := by
  induction results with
  | nil =>
    intro i k
    refine ⟨0, le_refl _, ?_, ?_, ?_⟩
    · simp only [OrderListener.processOrder]
      split_ifs <;> rfl
    · intro j hj; omega
    · simp only [OrderListener.processOrder]
      split_ifs <;> intro h <;> cases h
  | cons r rest ih =>
    intro i k
    by_cases hd : ctxDone i = true
    · refine ⟨0, Nat.zero_le _, ?_, ?_, ?_⟩
      · simp [OrderListener.processOrder, hd]
      · intro j hj; omega
      · simp [OrderListener.processOrder, hd]
    · cases r with
      | failed err =>
        obtain ⟨c, hc, htr, hnt, hnil⟩ := ih (i + 1) k
        refine ⟨c + 1, by simpa using hc, ?_, ?_, ?_⟩
        · simp [OrderListener.processOrder, hd, htr, specCalls]
        · intro j hj r' hr'
          cases j with
          | zero => simp at hr'; subst hr'; rfl
          | succ j => exact hnt j (by omega) r' (by simpa using hr')
        · intro hout
          simp only [OrderListener.processOrder, hd] at hout
          obtain ⟨r', hpos, hget, hterm⟩ := hnil hout
          refine ⟨r', by omega, ?_, hterm⟩
          have : c + 1 - 1 = (c - 1) + 1 := by omega
          rw [this]
          simpa using hget
      | notRegistered =>
        obtain ⟨c, hc, htr, hnt, hnil⟩ := ih (i + 1) k
        refine ⟨c + 1, by simpa using hc, ?_, ?_, ?_⟩
        · simp [OrderListener.processOrder, hd, htr, specCalls]
        · intro j hj r' hr'
          cases j with
          | zero => simp at hr'; subst hr'; rfl
          | succ j => exact hnt j (by omega) r' (by simpa using hr')
        · intro hout
          simp only [OrderListener.processOrder, hd] at hout
          obtain ⟨r', hpos, hget, hterm⟩ := hnil hout
          refine ⟨r', by omega, ?_, hterm⟩
          have : c + 1 - 1 = (c - 1) + 1 := by omega
          rw [this]
          simpa using hget
      | ok result =>
        cases hu : OrderListener.updateOrderStatus (exec k) job.OrderID with
        | some err =>
          refine ⟨1, by simp, ?_, ?_, ?_⟩
          · simp [OrderListener.processOrder, hd, hu, specCalls]
          · intro j hj; omega
          · simp [OrderListener.processOrder, hd, hu]
        | none =>
          by_cases ht : result.Status = "PROCESSED" ∨ result.Status = "INVALID"
          · refine ⟨1, by simp, ?_, ?_, ?_⟩
            · simp [OrderListener.processOrder, hd, hu, ht, specCalls]
            · intro j hj; omega
            · intro _
              exact ⟨.ok result, by omega, by simp, by simp [QueryResult.isTerminal, ht]⟩
          · obtain ⟨c, hc, htr, hnt, hnil⟩ := ih (i + 1) (k + 1)
            refine ⟨c + 1, by simpa using hc, ?_, ?_, ?_⟩
            · simp [OrderListener.processOrder, hd, hu, ht, htr, specCalls]
            · intro j hj r' hr'
              cases j with
              | zero =>
                simp at hr'; subst hr'
                simp [QueryResult.isTerminal, ht]
              | succ j => exact hnt j (by omega) r' (by simpa using hr')
            · intro hout
              simp only [OrderListener.processOrder, hd, hu, ht] at hout
              obtain ⟨r', hpos, hget, hterm⟩ := hnil hout
              refine ⟨r', by omega, ?_, hterm⟩
              have : c + 1 - 1 = (c - 1) + 1 := by omega
              rw [this]
              simpa using hget

theorem processOrder_returns_nil (ctxDone : Nat → Bool) (exec : Nat → Except GoError Int)
    (job : Job) (hctx : ∀ i, ctxDone i = false)
    (hexec : ∀ k, ∃ n : Int, n ≠ 0 ∧ exec k = .ok n)
    (pre : List QueryResult) (r : QueryResult) (post : List QueryResult)
    (hpre : ∀ x ∈ pre, x.isTerminal = false) (hr : r.isTerminal = true) :
    ∀ i k : Nat, OrderListener.processOrder ctxDone exec job (pre ++ r :: post) i k
      = (.returned none, (pre ++ [r]).flatMap (specCalls job)) := by
  have hupd : ∀ k, OrderListener.updateOrderStatus (exec k) job.OrderID = none := by
    intro k
    obtain ⟨n, hn, he⟩ := hexec k
    simp [OrderListener.updateOrderStatus, he, hn]
  induction pre with
  | nil =>
    intro i k
    cases r with
    | failed err => simp [QueryResult.isTerminal] at hr
    | notRegistered => simp [QueryResult.isTerminal] at hr
    | ok result =>
      have ht : result.Status = "PROCESSED" ∨ result.Status = "INVALID" := by
        simpa [QueryResult.isTerminal] using hr
      simp [OrderListener.processOrder, hctx, hupd, ht, specCalls]
  | cons x rest ih =>
    intro i k
    have hx : x.isTerminal = false := hpre x (List.mem_cons_self _ _)
    have hrest : ∀ y ∈ rest, y.isTerminal = false :=
      fun y hy => hpre y (List.mem_cons_of_mem _ hy)
    cases x with
    | failed err => simp [OrderListener.processOrder, hctx, ih hrest, specCalls]
    | notRegistered => simp [OrderListener.processOrder, hctx, ih hrest, specCalls]
    | ok result =>
      have ht : ¬ (result.Status = "PROCESSED" ∨ result.Status = "INVALID") := by
        simpa [QueryResult.isTerminal] using hx
      simp [OrderListener.processOrder, hctx, hupd, ht, ih hrest, specCalls]

theorem processOrder_zero_rows (ctxDone : Nat → Bool) (exec : Nat → Except GoError Int)
    (job : Job) (results : List QueryResult) :
    ∀ i k k' : Nat, k ≤ k' → exec k' = .ok 0 →
      ((OrderListener.processOrder ctxDone exec job results i k).2.filter
          ListenerCall.isUpdate).length ≤ k' - k + 1 ∧
      (((OrderListener.processOrder ctxDone exec job results i k).2.filter
          ListenerCall.isUpdate).length = k' - k + 1 →
        (OrderListener.processOrder ctxDone exec job results i k).1
          = .returned (some (.other ("order not found uid=" ++ toString job.OrderID)))) := by
  induction results with
  | nil =>
    intro i k k' hk he
    simp only [OrderListener.processOrder]
    split_ifs <;> simp
  | cons r rest ih =>
    intro i k k' hk he
    by_cases hd : ctxDone i = true
    · simp [OrderListener.processOrder, hd]
    · cases r with
      | failed err =>
        have := ih (i + 1) k k' hk he
        simpa [OrderListener.processOrder, hd, ListenerCall.isUpdate] using this
      | notRegistered =>
        have := ih (i + 1) k k' hk he
        simpa [OrderListener.processOrder, hd, ListenerCall.isUpdate] using this
      | ok result =>
        cases hu : OrderListener.updateOrderStatus (exec k) job.OrderID with
        | some err =>
          simp only [OrderListener.processOrder, hd, hu, List.filter, ListenerCall.isUpdate,
            List.length_cons, List.length_nil]
          refine ⟨by omega, ?_⟩
          intro hlen
          have hkk : k' = k := by omega
          subst hkk
          rw [he] at hu
          simp [OrderListener.updateOrderStatus] at hu
          simp [hu]
        | none =>
          have hne : k' ≠ k := by
            intro hkk
            subst hkk
            rw [he] at hu
            simp [OrderListener.updateOrderStatus] at hu
          by_cases ht : result.Status = "PROCESSED" ∨ result.Status = "INVALID"
          · simp only [OrderListener.processOrder, hd, hu, ht, List.filter,
              ListenerCall.isUpdate, List.length_cons, List.length_nil]
            refine ⟨by omega, ?_⟩
            intro hlen
            omega
          · have := ih (i + 1) (k + 1) k' (by omega) he
            simp only [OrderListener.processOrder, hd, hu, ht, List.filter,
              ListenerCall.isUpdate, List.length_cons]
            refine ⟨by omega, ?_⟩
            intro hlen
            exact this.2 (by omega)

/-- C18. For every sequence of client results given to one run of `processOrder`: the calls
of the run are those of the results it used, one query each and one `UPDATE` for each
decoded answer 200, none for an answer 204 or an error; no result before the last used one
is an answer 200 with status PROCESSED or INVALID, and when the run returns nil the last
used one is. If the context is never done and every `UPDATE` affects a row, the run returns
nil right after the first answer 200 with status PROCESSED or INVALID, with no call after
the `UPDATE` of that answer. If the `UPDATE` number `k` affects 0 rows, it is the last one
and the run returns the error `order not found`. -/
theorem processOrder_updates (ctxDone : Nat → Bool) (exec : Nat → Except GoError Int)
    (job : Job) (results : List QueryResult) :
    (∃ c : Nat, c ≤ results.length ∧
      (OrderListener.processOrder ctxDone exec job results 0 0).2
        = (results.take c).flatMap (specCalls job) ∧
      (∀ j : Nat, j + 1 < c → ∀ r, results.get? j = some r → r.isTerminal = false) ∧
      ((OrderListener.processOrder ctxDone exec job results 0 0).1 = .returned none →
        ∃ r, 0 < c ∧ results.get? (c - 1) = some r ∧ r.isTerminal = true)) ∧
    (∀ (pre : List QueryResult) (r : QueryResult) (post : List QueryResult),
      results = pre ++ r :: post → (∀ x ∈ pre, x.isTerminal = false) → r.isTerminal = true →
      (∀ i, ctxDone i = false) → (∀ k, ∃ n : Int, n ≠ 0 ∧ exec k = .ok n) →
      OrderListener.processOrder ctxDone exec job results 0 0
        = (.returned none, (pre ++ [r]).flatMap (specCalls job))) ∧
    (∀ k : Nat, exec k = .ok 0 →
      ((OrderListener.processOrder ctxDone exec job results 0 0).2.filter
          ListenerCall.isUpdate).length ≤ k + 1 ∧
      (((OrderListener.processOrder ctxDone exec job results 0 0).2.filter
          ListenerCall.isUpdate).length = k + 1 →
        (OrderListener.processOrder ctxDone exec job results 0 0).1
          = .returned (some (.other ("order not found uid=" ++ toString job.OrderID))))) := by
  refine ⟨processOrder_trace ctxDone exec job results 0 0, ?_, ?_⟩
  · intro pre r post hres hpre hr hctx hexec
    rw [hres]
    exact processOrder_returns_nil ctxDone exec job hctx hexec pre r post hpre hr 0 0
  · intro k he
    simpa using processOrder_zero_rows ctxDone exec job results 0 0 k (Nat.zero_le _) he

/-- C18 (witness). The results 204, 200 REGISTERED, an error, 200 PROCESSED, 200 PROCESSED: two
`UPDATE`s are made, and the run returns nil after the first PROCESSED answer. -/
theorem processOrder_updates_witness :
    OrderListener.processOrder (fun _ => false) (fun _ => .ok 1)
        { OrderID := 7, UserID := 1, Number := str "9278923470", Status := "NEW",
          Attempt := 0, CreatedAt := 0 }
        [.notRegistered, .ok ⟨9278923470, "REGISTERED", 0⟩, .failed (.other "rate limit"),
         .ok ⟨9278923470, "PROCESSED", 700⟩, .ok ⟨9278923470, "PROCESSED", 700⟩] 0 0
      = (.returned none,
          [ListenerCall.queryAccrualService (str "9278923470"),
           ListenerCall.queryAccrualService (str "9278923470"),
           ListenerCall.updateOrderStatus 7 "REGISTERED" 0,
           ListenerCall.queryAccrualService (str "9278923470"),
           ListenerCall.queryAccrualService (str "9278923470"),
           ListenerCall.updateOrderStatus 7 "PROCESSED" 700]) := by
  have h := (processOrder_updates (fun _ => false) (fun _ => .ok 1)
    { OrderID := 7, UserID := 1, Number := str "9278923470", Status := "NEW",
      Attempt := 0, CreatedAt := 0 }
    [.notRegistered, .ok ⟨9278923470, "REGISTERED", 0⟩, .failed (.other "rate limit"),
     .ok ⟨9278923470, "PROCESSED", 700⟩, .ok ⟨9278923470, "PROCESSED", 700⟩]).2.1
    [.notRegistered, .ok ⟨9278923470, "REGISTERED", 0⟩, .failed (.other "rate limit")]
    (.ok ⟨9278923470, "PROCESSED", 700⟩) [.ok ⟨9278923470, "PROCESSED", 700⟩]
    rfl (by decide) (by decide) (fun _ => rfl) (fun _ => ⟨1, by decide, rfl⟩)
  rw [h]
  rfl

/-- C19 (failing input). The Accrual answer 200 with status REGISTERED, which Accrual gives
for an order that its matcher has not processed yet: `processOrder` makes the `UPDATE` with
the status REGISTERED, which is none of NEW, PROCESSING, INVALID, PROCESSED, and the
statement leaves the row of the order with that status. -/
theorem processOrder_writes_registered :
    OrderListener.processOrder (fun _ => false) (fun _ => .ok 1)
        { OrderID := 7, UserID := 1, Number := str "9278923470", Status := "NEW",
          Attempt := 0, CreatedAt := 0 }
        [.ok ⟨9278923470, "REGISTERED", 0⟩] 0 0
      = (.polling,
          [ListenerCall.queryAccrualService (str "9278923470"),
           ListenerCall.updateOrderStatus 7 "REGISTERED" 0]) ∧
    "REGISTERED" ∉ [OrderStatusNew, OrderStatusProcessing, OrderStatusInvalid,
      OrderStatusProcessed] ∧
    ((updateOrdersStatement
        [{ user_id := 1, number := str "9278923470", status := "NEW", accrual := 0,
           uid := 7, uploaded_at := 0 }] 5 "REGISTERED" 0 7).1.map (fun o => o.status))
      = ["REGISTERED"] := by
  refine ⟨by rfl, by decide, by decide⟩

/-! ## The replayer (`OrderListener.loadExistingOrders`) -/

/-- C20 (counterexample). A table whose only order has the status PROCESSING, which is not
terminal: the replayer launches no task, so the order is not polled again. -/
theorem loadExistingOrders_skips_processing :
    OrderStatusProcessing ≠ OrderStatusProcessed ∧ OrderStatusProcessing ≠ OrderStatusInvalid ∧
    OrderListener.loadExistingOrders none (fun _ => none)
        [{ user_id := 1, number := str "9278923470", status := OrderStatusProcessing,
           accrual := 0, uid := 7, uploaded_at := 0 }]
      = [] := by
  refine ⟨by decide, by decide, by decide⟩

theorem loadExistingOrders_perm (orders : List OrderRecord) :
    (OrderListener.loadExistingOrders none (fun _ => none) orders).Perm
      ((orders.filter (fun o => decide (o.status = "NEW"))).map OrderListener.scanJob) := by
  have hfm : ∀ l : List OrderRecord,
      l.filterMap (fun o => match (none : Option GoError) with
        | some _ => none
        | none => some (OrderListener.scanJob o)) = l.map OrderListener.scanJob := by
    intro l
    induction l with
    | nil => rfl
    | cons a t ih => simp [List.filterMap_cons, ih]
  simp only [OrderListener.loadExistingOrders, hfm]
  exact (List.perm_insertionSort _ _).map _

/-- C20 (amended). At startup, when the query and the scans succeed, the replayer launches
one processing task for every Mart order whose status is NEW and none for any other order:
the launched jobs are, up to their order, the jobs of the rows with status NEW. So an order
whose processing was interrupted by a restart while its status was NEW is polled again. -/
theorem loadExistingOrders_new_orders (orders : List OrderRecord) :
    (OrderListener.loadExistingOrders none (fun _ => none) orders).Perm
      ((orders.filter (fun o => decide (o.status = "NEW"))).map OrderListener.scanJob) ∧
    (∀ o ∈ orders, o.status = "NEW" →
      OrderListener.scanJob o ∈ OrderListener.loadExistingOrders none (fun _ => none) orders) ∧
    (∀ job ∈ OrderListener.loadExistingOrders none (fun _ => none) orders,
      job.Status = "NEW" ∧ ∃ o ∈ orders, o.uid = job.OrderID ∧ o.status = "NEW") := by
  have hp := loadExistingOrders_perm orders
  refine ⟨hp, ?_, ?_⟩
  · intro o ho hs
    rw [hp.mem_iff]
    exact List.mem_map.mpr ⟨o, List.mem_filter.mpr ⟨ho, by simpa using hs⟩, rfl⟩
  · intro job hj
    rw [hp.mem_iff] at hj
    obtain ⟨o, ho, hjo⟩ := List.mem_map.mp hj
    have hf := List.mem_filter.mp ho
    have hs : o.status = "NEW" := by simpa using hf.2
    subst hjo
    exact ⟨hs, o, hf.1, rfl, hs⟩

/-! ## The matcher (`Service.processOrders`) -/

theorem mapAppend_keys {α : Type} (m : List (Int × List α)) (k : Int) (v : α) :
    (Accrual.mapAppend m k v).map Prod.fst
      = if k ∈ m.map Prod.fst then m.map Prod.fst else m.map Prod.fst ++ [k] := by
  induction m with
  | nil => simp [Accrual.mapAppend]
  | cons e rest ih =>
    obtain ⟨k', vs⟩ := e
    by_cases hk : k' = k
    · simp [Accrual.mapAppend, hk]
    · have hk2 : ¬ k = k' := fun h => hk h.symm
      simp only [Accrual.mapAppend, hk, if_false, List.map_cons, ih, List.mem_cons, hk2,
        false_or]
      split_ifs <;> simp

theorem mapAppend_nodup {α : Type} (m : List (Int × List α)) (k : Int) (v : α)
    (h : (m.map Prod.fst).Nodup) : ((Accrual.mapAppend m k v).map Prod.fst).Nodup := by
  rw [mapAppend_keys]
  split_ifs with hk
  · exact h
  · rw [List.nodup_append]
    refine ⟨h, List.nodup_singleton _, ?_⟩
    intro a ha hb
    simp only [List.mem_singleton] at hb
    exact hk (hb ▸ ha)

theorem mapAppend_mem_keys {α : Type} (m : List (Int × List α)) (k : Int) (v : α) (id : Int) :
    id ∈ (Accrual.mapAppend m k v).map Prod.fst ↔ id = k ∨ id ∈ m.map Prod.fst := by
  rw [mapAppend_keys]
  split_ifs with hk
  · constructor
    · intro h; exact Or.inr h
    · rintro (h | h)
      · exact h ▸ hk
      · exact h
  · simp only [List.mem_append, List.mem_singleton]
    tauto

theorem mapLookup_not_mem {α : Type} (m : List (Int × List α)) (id : Int)
    (h : id ∉ m.map Prod.fst) : Accrual.mapLookup m id = [] := by
  have : m.filter (fun e => decide (e.1 = id)) = [] := by
    rw [List.filter_eq_nil_iff]
    intro e he hd
    exact h (List.mem_map.mpr ⟨e, he, by simpa using hd⟩)
  simp [Accrual.mapLookup, this]

theorem mapLookup_mapAppend {α : Type} (m : List (Int × List α)) (k : Int) (v : α) (id : Int)
    (h : (m.map Prod.fst).Nodup) :
    Accrual.mapLookup (Accrual.mapAppend m k v) id
      = if k = id then Accrual.mapLookup m id ++ [v] else Accrual.mapLookup m id := by
  induction m with
  | nil =>
    by_cases hk : k = id <;> simp [Accrual.mapAppend, Accrual.mapLookup, hk]
  | cons e rest ih =>
    obtain ⟨k', vs⟩ := e
    have hrest : (rest.map Prod.fst).Nodup := (List.nodup_cons.mp h).2
    have hnot : k' ∉ rest.map Prod.fst := (List.nodup_cons.mp h).1
    by_cases hk : k' = k
    · subst hk
      by_cases hid : k' = id
      · subst hid
        have hnil := mapLookup_not_mem rest k' hnot
        simp only [Accrual.mapLookup] at hnil
        simp [Accrual.mapAppend, Accrual.mapLookup, List.filter_cons, hnil]
      · simp [Accrual.mapAppend, Accrual.mapLookup, List.filter_cons, hid]
    · have ih' := ih hrest
      simp only [Accrual.mapLookup] at ih'
      by_cases hid : k' = id
      · subst hid
        have hk2 : ¬ k = k' := fun h => hk h.symm
        simp only [hk2, if_false] at ih'
        simp [Accrual.mapAppend, Accrual.mapLookup, List.filter_cons, hk, hk2, ih']
      · simp only [Accrual.mapAppend, hk, if_false, Accrual.mapLookup, List.filter_cons, hid,
          decide_False, Bool.false_eq_true]
        exact ih'

theorem mapLookup_filter_singleton {α : Type} (m : List (Int × List α)) (id : Int)
    (h : (m.map Prod.fst).Nodup) (hid : id ∈ m.map Prod.fst) :
    m.filter (fun e => decide (e.1 = id)) = [(id, Accrual.mapLookup m id)] := by
  induction m with
  | nil => simp at hid
  | cons e rest ih =>
    obtain ⟨k', vs⟩ := e
    have hrest : (rest.map Prod.fst).Nodup := (List.nodup_cons.mp h).2
    have hnot : k' ∉ rest.map Prod.fst := (List.nodup_cons.mp h).1
    by_cases hk : k' = id
    · subst hk
      have hnil : rest.filter (fun e => decide (e.1 = k')) = [] := by
        rw [List.filter_eq_nil_iff]
        intro e he hd
        exact hnot (List.mem_map.mpr ⟨e, he, by simpa using hd⟩)
      simp [Accrual.mapLookup, List.filter_cons, hnil]
    · have hid' : id ∈ rest.map Prod.fst := by
        simp only [List.map_cons, List.mem_cons] at hid
        rcases hid with h1 | h1
        · exact absurd h1.symm hk
        · exact h1
      have ih' := ih hrest hid'
      simp only [Accrual.mapLookup] at ih' ⊢
      simp only [List.filter_cons, hk, decide_False, Bool.false_eq_true, if_false]
      exact ih'

theorem addOrders_spec (product : Accrual.ProductReward) (rows : List Accrual.ParseMatch) :
    ∀ acc : List (Int × List Accrual.orderProductMatch) × List Int,
      (acc.1.map Prod.fst).Nodup →
      ((Accrual.Service.addOrders product rows acc).1.map Prod.fst).Nodup ∧
      (∀ id, Accrual.mapLookup (Accrual.Service.addOrders product rows acc).1 id
        = Accrual.mapLookup acc.1 id ++
          (rows.filter (fun o => decide (o.Order = id))).map
            (fun o => { Order := o, Product := product })) ∧
      (∀ id, id ∈ (Accrual.Service.addOrders product rows acc).1.map Prod.fst ↔
        id ∈ acc.1.map Prod.fst ∨ id ∈ rows.map (fun o => o.Order)) ∧
      (∀ id, id ∈ (Accrual.Service.addOrders product rows acc).2 ↔
        id ∈ acc.2 ∨ id ∈ rows.map (fun o => o.Order)) := by
  induction rows with
  | nil =>
    intro acc h
    simp [Accrual.Service.addOrders, h]
  | cons o rest ih =>
    intro acc h
    have hn := mapAppend_nodup acc.1 o.Order
      ({ Order := o, Product := product } : Accrual.orderProductMatch) h
    obtain ⟨h1, h2, h3, h4⟩ := ih
      (Accrual.mapAppend acc.1 o.Order { Order := o, Product := product }, o.Order :: acc.2) hn
    refine ⟨h1, ?_, ?_, ?_⟩
    · intro id
      simp only [Accrual.Service.addOrders]
      rw [h2 id, mapLookup_mapAppend _ _ _ _ h]
      by_cases hid : o.Order = id
      · simp [hid, List.filter_cons]
      · simp [hid, List.filter_cons]
    · intro id
      simp only [Accrual.Service.addOrders]
      rw [h3 id, mapAppend_mem_keys]
      simp only [List.map_cons, List.mem_cons]
      tauto
    · intro id
      simp only [Accrual.Service.addOrders]
      rw [h4 id]
      simp only [List.map_cons, List.mem_cons]
      tauto

theorem collectMatches_cons {σ : Type} (repo : Accrual.Repository σ) (ctxDone : Nat → Bool)
    (s : σ) (i : Nat) (product : Accrual.ProductReward) (rest : List Accrual.ProductReward)
    (acc : List (Int × List Accrual.orderProductMatch) × List Int) (hd : ctxDone i = false) :
    Accrual.Service.collectMatches repo ctxDone s i (product :: rest) acc
      = { cancelled := (Accrual.Service.collectMatches repo ctxDone s (i + 1) rest
            (Accrual.Service.addOrders product (Accrual.Service.usedRows repo s product)
              acc)).cancelled
          orderProducts := (Accrual.Service.collectMatches repo ctxDone s (i + 1) rest
            (Accrual.Service.addOrders product (Accrual.Service.usedRows repo s product)
              acc)).orderProducts
          processedOrderIDs := (Accrual.Service.collectMatches repo ctxDone s (i + 1) rest
            (Accrual.Service.addOrders product (Accrual.Service.usedRows repo s product)
              acc)).processedOrderIDs
          calls := Accrual.Call.ParseMatch product.Match ::
            (Accrual.Service.collectMatches repo ctxDone s (i + 1) rest
              (Accrual.Service.addOrders product (Accrual.Service.usedRows repo s product)
                acc)).calls } := by
  unfold Accrual.Service.usedRows
  simp only [Accrual.Service.collectMatches, hd, Bool.false_eq_true, if_false]
  cases (repo.ParseMatch product.Match s).2 <;> simp [Accrual.Service.addOrders]

theorem collectMatches_spec {σ : Type} (repo : Accrual.Repository σ) (ctxDone : Nat → Bool)
    (s : σ) (hctx : ∀ i, ctxDone i = false) (products : List Accrual.ProductReward) :
    ∀ (i : Nat) (acc : List (Int × List Accrual.orderProductMatch) × List Int),
      (acc.1.map Prod.fst).Nodup →
      (Accrual.Service.collectMatches repo ctxDone s i products acc).cancelled = false ∧
      (Accrual.Service.collectMatches repo ctxDone s i products acc).calls
        = products.map (fun p => Accrual.Call.ParseMatch p.Match) ∧
      ((Accrual.Service.collectMatches repo ctxDone s i products acc).orderProducts.map
        Prod.fst).Nodup ∧
      (∀ id, Accrual.mapLookup
          (Accrual.Service.collectMatches repo ctxDone s i products acc).orderProducts id
        = Accrual.mapLookup acc.1 id ++
          products.flatMap (fun p =>
            ((Accrual.Service.usedRows repo s p).filter (fun o => decide (o.Order = id))).map
              (fun o => { Order := o, Product := p }))) ∧
      (∀ id, id ∈ (Accrual.Service.collectMatches repo ctxDone s i products
            acc).orderProducts.map Prod.fst ↔
        id ∈ acc.1.map Prod.fst ∨
          id ∈ products.flatMap (fun p =>
            (Accrual.Service.usedRows repo s p).map (fun o => o.Order))) ∧
      (∀ id, id ∈ (Accrual.Service.collectMatches repo ctxDone s i products
            acc).processedOrderIDs ↔
        id ∈ acc.2 ∨
          id ∈ products.flatMap (fun p =>
            (Accrual.Service.usedRows repo s p).map (fun o => o.Order))) := by
  induction products with
  | nil =>
    intro i acc h
    simp [Accrual.Service.collectMatches, h]
  | cons p rest ih =>
    intro i acc h
    obtain ⟨a1, a2, a3, a4⟩ := addOrders_spec p (Accrual.Service.usedRows repo s p) acc h
    obtain ⟨h1, h2, h3, h4, h5, h6⟩ := ih (i + 1)
      (Accrual.Service.addOrders p (Accrual.Service.usedRows repo s p) acc) a1
    rw [collectMatches_cons repo ctxDone s i p rest acc (hctx i)]
    dsimp only
    refine ⟨h1, by simp [h2], h3, ?_, ?_, ?_⟩
    · intro id
      rw [h4 id, a2 id]
      simp [List.flatMap_cons]
    · intro id
      rw [h5 id, a3 id]
      simp only [List.flatMap_cons, List.mem_append]
      tauto
    · intro id
      rw [h6 id, a4 id]
      simp only [List.flatMap_cons, List.mem_append]
      tauto

theorem updateMatched_calls {σ : Type} (repo : Accrual.Repository σ) (ctxDone : Nat → Bool)
    (hctx : ∀ i, ctxDone i = false) (entries : List (Int × List Accrual.orderProductMatch)) :
    ∀ (i : Nat) (s : σ),
      (Accrual.Service.updateMatched repo ctxDone i entries s).1 = false ∧
      (Accrual.Service.updateMatched repo ctxDone i entries s).2.2
        = entries.map Accrual.Service.entryCall := by
  induction entries with
  | nil => intro i s; simp [Accrual.Service.updateMatched]
  | cons e rest ih =>
    intro i s
    by_cases hv : (!ValidateLuhn (Accrual.FormatInt e.1)
        || !ContainsOnlyDigits (Accrual.FormatInt e.1)) = true
    · simp only [Accrual.Service.updateMatched, hctx, Bool.false_eq_true, if_false, hv, if_true,
        List.map_cons, Accrual.Service.entryCall]
      exact ⟨(ih _ _).1, by rw [(ih _ _).2]⟩
    · simp only [Accrual.Service.updateMatched, hctx, Bool.false_eq_true, if_false, hv,
        List.map_cons, Accrual.Service.entryCall]
      exact ⟨(ih _ _).1, by rw [(ih _ _).2]⟩

theorem updateUnmatched_calls {σ : Type} (repo : Accrual.Repository σ) (processed : List Int)
    (ids : List Int) :
    ∀ s : σ, (Accrual.Service.updateUnmatched repo processed ids s).2
      = (ids.filter (fun id => decide (id ∉ processed))).map
          (fun id => Accrual.Call.UpdateAccrualInfo id 0 Accrual.Processed) := by
  induction ids with
  | nil => intro s; simp [Accrual.Service.updateUnmatched]
  | cons id rest ih =>
    intro s
    by_cases hp : id ∈ processed
    · simp [Accrual.Service.updateUnmatched, hp, ih, List.filter_cons]
    · simp [Accrual.Service.updateUnmatched, hp, ih, List.filter_cons]

theorem processOrders_calls {σ : Type} (repo : Accrual.Repository σ) (ctxDone : Nat → Bool)
    (rangeOrder : List (Int × List Accrual.orderProductMatch) →
      List (Int × List Accrual.orderProductMatch))
    (s : σ) (hprod : (repo.GetProductsInfo s).2 = none) (hctx : ∀ i, ctxDone i = false) :
    (Accrual.Service.processOrders repo ctxDone rangeOrder s).1 = none ∧
    (Accrual.Service.processOrders repo ctxDone rangeOrder s).2.2
      = (Accrual.Call.GetProductsInfo ::
          ((repo.GetProductsInfo s).1.map (fun p => Accrual.Call.ParseMatch p.Match) ++
            (rangeOrder (Accrual.Service.collectMatches repo ctxDone s 0
              (repo.GetProductsInfo s).1 ([], [])).orderProducts).map
                Accrual.Service.entryCall)) ++
        Accrual.Call.GetUnprocessedOrders ::
          (match (repo.GetUnprocessedOrders
              (Accrual.Service.stateAfterMatched repo ctxDone rangeOrder s)).2 with
            | some _ => []
            | none =>
              ((repo.GetUnprocessedOrders
                  (Accrual.Service.stateAfterMatched repo ctxDone rangeOrder s)).1.filter
                (fun id => decide (id ∉ (Accrual.Service.collectMatches repo ctxDone s 0
                  (repo.GetProductsInfo s).1 ([], [])).processedOrderIDs))).map
                (fun id => Accrual.Call.UpdateAccrualInfo id 0 Accrual.Processed)) := by
  obtain ⟨c1, c2, _⟩ := collectMatches_spec repo ctxDone s hctx (repo.GetProductsInfo s).1 0
    ([], []) (by simp)
  have hu := updateMatched_calls repo ctxDone hctx
    (rangeOrder (Accrual.Service.collectMatches repo ctxDone s 0
      (repo.GetProductsInfo s).1 ([], [])).orderProducts) (repo.GetProductsInfo s).1.length s
  simp only [Accrual.Service.processOrders, hprod, c1, Bool.false_eq_true, if_false, hu.1, c2,
    hu.2, Accrual.Service.stateAfterMatched]
  cases hg : (repo.GetUnprocessedOrders
      (Accrual.Service.updateMatched repo ctxDone (repo.GetProductsInfo s).1.length
        (rangeOrder (Accrual.Service.collectMatches repo ctxDone s 0
          (repo.GetProductsInfo s).1 ([], [])).orderProducts) s).2.1).2 with
  | some e => simp
  | none => simp [updateUnmatched_calls]

theorem totalAccrual_eq_foldl (l : List Accrual.orderProductMatch) :
    Accrual.Service.totalAccrual l = (l.map Accrual.Service.accrualOf).foldl Float64.add 0 := by
  simp only [Accrual.Service.totalAccrual, List.foldl_map]

theorem accrualOf_eq_contribution (p : Accrual.ProductReward) (o : Accrual.ParseMatch) :
    Accrual.Service.accrualOf { Order := o, Product := p }
      = Accrual.float64Contribution p o.Price := rfl

theorem float64Contribution_exact (p : Accrual.ProductReward) (price : ℚ)
    (h : p.RewardType = str "%" →
      Float64.ofRat (price * p.Reward) = .finite (price * p.Reward) ∧
      Float64.ofRat (price * p.Reward / 100) = .finite (price * p.Reward / 100)) :
    Accrual.float64Contribution p price = .finite (Accrual.specContribution p price) := by
  unfold Accrual.float64Contribution Accrual.specContribution
  split_ifs with hp
  · obtain ⟨h1, h2⟩ := h hp
    have h100 : (100 : ℚ) ≠ 0 := by norm_num
    rw [float64_hundred]
    simp only [Float64.mul, h1, Float64.div, h100, if_false, h2]
  · rfl

theorem flatMap_congr_mem {α β : Type} (l : List α) (f g : α → List β)
    (h : ∀ a ∈ l, f a = g a) : l.flatMap f = l.flatMap g := by
  induction l with
  | nil => rfl
  | cons a rest ih =>
    simp only [List.flatMap_cons]
    rw [h a (List.mem_cons_self _ _), ih (fun b hb => h b (List.mem_cons_of_mem _ hb))]

theorem usedRows_of_ok {σ : Type} (repo : Accrual.Repository σ) (s : σ)
    (p : Accrual.ProductReward) (h : (repo.ParseMatch p.Match s).2 = none) :
    Accrual.Service.usedRows repo s p = (repo.ParseMatch p.Match s).1 := by
  simp [Accrual.Service.usedRows, h]

theorem entryCall_filter (id : Int) (hvalid : validOrderNumber (Accrual.FormatInt id) = true)
    (entries : List (Int × List Accrual.orderProductMatch)) :
    (entries.map Accrual.Service.entryCall).filter (Accrual.Call.isUpdateAccrualInfoOf id)
      = (entries.filter (fun e => decide (e.1 = id))).map Accrual.Service.entryCall := by
  have hv : (!ValidateLuhn (Accrual.FormatInt id)
      || !ContainsOnlyDigits (Accrual.FormatInt id)) = false := by
    simp only [validOrderNumber, Bool.and_eq_true] at hvalid
    simp [hvalid.1, hvalid.2]
  induction entries with
  | nil => rfl
  | cons e rest ih =>
    by_cases he : e.1 = id
    · have : Accrual.Call.isUpdateAccrualInfoOf id (Accrual.Service.entryCall e) = true := by
        simp [Accrual.Service.entryCall, he, hv, Accrual.Call.isUpdateAccrualInfoOf]
      simp [List.filter_cons, this, he, ih]
    · have : Accrual.Call.isUpdateAccrualInfoOf id (Accrual.Service.entryCall e) = false := by
        unfold Accrual.Service.entryCall
        split_ifs <;> simp [Accrual.Call.isUpdateAccrualInfoOf, he]
      simp [List.filter_cons, this, he, ih]

theorem matcher_accrual_update_aux {σ : Type} (repo : Accrual.Repository σ)
    (ctxDone : Nat → Bool)
    (rangeOrder : List (Int × List Accrual.orderProductMatch) →
      List (Int × List Accrual.orderProductMatch))
    (s : σ) (hprod : (repo.GetProductsInfo s).2 = none)
    (hpm : ∀ p ∈ (repo.GetProductsInfo s).1, (repo.ParseMatch p.Match s).2 = none)
    (hctx : ∀ i, ctxDone i = false) (hperm : ∀ m, (rangeOrder m).Perm m) (id : Int)
    (hvalid : validOrderNumber (Accrual.FormatInt id) = true)
    (hmatch : ∃ p ∈ (repo.GetProductsInfo s).1, ∃ o ∈ (repo.ParseMatch p.Match s).1,
      o.Order = id) :
    (Accrual.Service.processOrders repo ctxDone rangeOrder s).2.2.filter
        (Accrual.Call.isUpdateAccrualInfoOf id)
      = [Accrual.Call.UpdateAccrualInfo id
          (((repo.GetProductsInfo s).1.flatMap (fun p =>
            ((repo.ParseMatch p.Match s).1.filter (fun o => decide (o.Order = id))).map
              (fun o => Accrual.float64Contribution p o.Price))).foldl Float64.add 0)
          "PROCESSED"] ∧
    (∀ st, Accrual.Call.UpdateStatus st id ∉
      (Accrual.Service.processOrders repo ctxDone rangeOrder s).2.2) := by
  have hv : (!ValidateLuhn (Accrual.FormatInt id)
      || !ContainsOnlyDigits (Accrual.FormatInt id)) = false := by
    simp only [validOrderNumber, Bool.and_eq_true] at hvalid
    simp [hvalid.1, hvalid.2]
  obtain ⟨_, _, c3, c4, c5, c6⟩ := collectMatches_spec repo ctxDone s hctx
    (repo.GetProductsInfo s).1 0 ([], []) (by simp)
  obtain ⟨_, hcalls⟩ := processOrders_calls repo ctxDone rangeOrder s hprod hctx
  -- the order is a key of the map and one of the processed ids
  have hmem : id ∈ (repo.GetProductsInfo s).1.flatMap (fun p =>
      (Accrual.Service.usedRows repo s p).map (fun o => o.Order)) := by
    obtain ⟨p, hp, o, ho, hoid⟩ := hmatch
    rw [List.mem_flatMap]
    refine ⟨p, hp, ?_⟩
    rw [usedRows_of_ok repo s p (hpm p hp)]
    exact List.mem_map.mpr ⟨o, ho, hoid⟩
  have hkey := (c5 id).mpr (Or.inr hmem)
  have hproc := (c6 id).mpr (Or.inr hmem)
  -- the one entry of the order
  have hfilter : (rangeOrder (Accrual.Service.collectMatches repo ctxDone s 0
      (repo.GetProductsInfo s).1 ([], [])).orderProducts).filter (fun e => decide (e.1 = id))
      = [(id, Accrual.mapLookup (Accrual.Service.collectMatches repo ctxDone s 0
          (repo.GetProductsInfo s).1 ([], [])).orderProducts id)] := by
    have hp := (hperm (Accrual.Service.collectMatches repo ctxDone s 0
      (repo.GetProductsInfo s).1 ([], [])).orderProducts).filter (fun e => decide (e.1 = id))
    rw [mapLookup_filter_singleton _ id c3 hkey] at hp
    exact List.perm_singleton.mp hp
  -- its accrual
  have htotal : Accrual.Service.totalAccrual (Accrual.mapLookup
      (Accrual.Service.collectMatches repo ctxDone s 0
        (repo.GetProductsInfo s).1 ([], [])).orderProducts id)
      = ((repo.GetProductsInfo s).1.flatMap (fun p =>
          ((repo.ParseMatch p.Match s).1.filter (fun o => decide (o.Order = id))).map
            (fun o => Accrual.float64Contribution p o.Price))).foldl Float64.add 0 := by
    rw [totalAccrual_eq_foldl, c4 id]
    simp only [Accrual.mapLookup, List.filter_nil, List.flatMap_nil, List.nil_append,
      List.map_flatMap, List.map_map]
    congr 1
    apply flatMap_congr_mem
    intro p hp
    rw [usedRows_of_ok repo s p (hpm p hp)]
    rfl
  constructor
  · rw [hcalls]
    simp only [List.filter_cons, List.filter_append, Accrual.Call.isUpdateAccrualInfoOf,
      Bool.false_eq_true, if_false]
    rw [entryCall_filter id hvalid, hfilter]
    have hparse : ((repo.GetProductsInfo s).1.map
        (fun p => Accrual.Call.ParseMatch p.Match)).filter
        (Accrual.Call.isUpdateAccrualInfoOf id) = [] := by
      rw [List.filter_eq_nil_iff]
      intro c hc
      obtain ⟨p, _, hpc⟩ := List.mem_map.mp hc
      subst hpc
      simp [Accrual.Call.isUpdateAccrualInfoOf]
    have hzero : (match (repo.GetUnprocessedOrders
          (Accrual.Service.stateAfterMatched repo ctxDone rangeOrder s)).2 with
        | some _ => []
        | none =>
          ((repo.GetUnprocessedOrders
              (Accrual.Service.stateAfterMatched repo ctxDone rangeOrder s)).1.filter
            (fun id => decide (id ∉ (Accrual.Service.collectMatches repo ctxDone s 0
              (repo.GetProductsInfo s).1 ([], [])).processedOrderIDs))).map
            (fun id => Accrual.Call.UpdateAccrualInfo id 0 Accrual.Processed)).filter
        (Accrual.Call.isUpdateAccrualInfoOf id) = [] := by
      rw [List.filter_eq_nil_iff]
      intro c hc
      split at hc
      · simp at hc
      · obtain ⟨x, hx, hxc⟩ := List.mem_map.mp hc
        subst hxc
        have hx2 := (List.mem_filter.mp hx).2
        simp only [decide_eq_true_eq] at hx2
        simp only [Accrual.Call.isUpdateAccrualInfoOf, decide_eq_true_eq]
        intro hxid
        exact hx2 (hxid ▸ hproc)
    rw [hparse, hzero]
    simp [Accrual.Service.entryCall, hv, htotal, Accrual.Processed]
  · intro st hst
    rw [hcalls] at hst
    simp only [List.mem_cons, List.mem_append, List.mem_map, reduceCtorEq, false_or] at hst
    rcases hst with (⟨p, _, hp⟩ | ⟨e, _, he⟩) | hz
    · cases hp
    · unfold Accrual.Service.entryCall at he
      split_ifs at he with hinv
      · simp only [Accrual.Call.UpdateStatus.injEq] at he
        rw [he.2] at hinv
        exact absurd hinv (by rw [hv]; simp)
    · split at hz
      · simp at hz
      · simp at hz

/-- C11 (counterexample). Two ticks of the matcher on the store, each with the one order
9278923470, whose number is valid and which is matched. With the rule of 7 percent and the
price `p`, the `float64` nearest to 0.1, the accrual written is not `p * 7 / 100` and not
the `float64` nearest to it, because the product is rounded before it is divided. With the
fixed rewards `10^16`, 1 and 1 of three rules that match the one line, the accrual written
is `10^16` and not the sum `10^16 + 2`, which is a `float64`, because each addition is
rounded. -/
theorem matcher_accrual_rounded :
    validOrderNumber (Accrual.FormatInt 9278923470) = true ∧
    Float64.ofRat (3602879701896397 / 36028797018963968)
      = .finite (3602879701896397 / 36028797018963968) ∧
    (Accrual.Service.processOrders (Accrual.PostgresDB.repository plainPostgres)
        (fun _ => false) id scenarioRounding).2.2.filter
        (Accrual.Call.isUpdateAccrualInfoOf 9278923470)
      = [Accrual.Call.UpdateAccrualInfo 9278923470
          (.finite (4035225266123965 / 576460752303423488)) "PROCESSED"] ∧
    (4035225266123965 / 576460752303423488 : ℚ)
      ≠ 3602879701896397 / 36028797018963968 * 7 / 100 ∧
    Float64.ofRat (3602879701896397 / 36028797018963968 * 7 / 100)
      = .finite (8070450532247929 / 1152921504606846976) ∧
    (4035225266123965 / 576460752303423488 : ℚ)
      ≠ 8070450532247929 / 1152921504606846976 ∧
    (Accrual.Service.processOrders (Accrual.PostgresDB.repository plainPostgres)
        (fun _ => false) id scenarioAbsorbed).2.2.filter
        (Accrual.Call.isUpdateAccrualInfoOf 9278923470)
      = [Accrual.Call.UpdateAccrualInfo 9278923470 (.finite 10000000000000000) "PROCESSED"] ∧
    (10000000000000000 : ℚ) ≠ 10000000000000000 + 1 + 1 ∧
    Float64.ofRat (10000000000000000 + 1 + 1) = .finite (10000000000000000 + 1 + 1) := by
  refine ⟨by decide!, by decide!, by decide!, by norm_num, by decide!, by norm_num, by decide!,
    by norm_num, by decide!⟩

/-- C11 (amended). In one matcher tick in which the context is not done and neither
`GetProductsInfo` nor any `ParseMatch` fails: for every order id whose decimal form passes
the validity test and that is matched by at least one (rule, goods line) pair, the calls of
the tick contain exactly one `UpdateAccrualInfo` for that id, with status PROCESSED and with
the accrual that `float64` arithmetic gives: starting from 0, the contributions are added
one by one, each sum rounded, over the rules in the order of `GetProductsInfo` and for each
rule over the lines of that order in the order of `ParseMatch`, the contribution being
`price * reward` rounded and then divided by 100 and rounded again when the reward type is
`%`, and `reward` otherwise (a line matched by several rules counts once per rule); there
is no `UpdateStatus` for the id. When no step rounds (every product, every quotient and
every partial sum is a `float64`), that accrual is the sum of `price * reward / 100` or
`reward`. -/
theorem matcher_accrual_update {σ : Type} (repo : Accrual.Repository σ)
    (ctxDone : Nat → Bool)
    (rangeOrder : List (Int × List Accrual.orderProductMatch) →
      List (Int × List Accrual.orderProductMatch))
    (s : σ) (hprod : (repo.GetProductsInfo s).2 = none)
    (hpm : ∀ p ∈ (repo.GetProductsInfo s).1, (repo.ParseMatch p.Match s).2 = none)
    (hctx : ∀ i, ctxDone i = false) (hperm : ∀ m, (rangeOrder m).Perm m) (id : Int)
    (hvalid : validOrderNumber (Accrual.FormatInt id) = true)
    (hmatch : ∃ p ∈ (repo.GetProductsInfo s).1, ∃ o ∈ (repo.ParseMatch p.Match s).1,
      o.Order = id) :
    (Accrual.Service.processOrders repo ctxDone rangeOrder s).2.2.filter
        (Accrual.Call.isUpdateAccrualInfoOf id)
      = [Accrual.Call.UpdateAccrualInfo id
          (((repo.GetProductsInfo s).1.flatMap (fun p =>
            ((repo.ParseMatch p.Match s).1.filter (fun o => decide (o.Order = id))).map
              (fun o => if p.RewardType = str "%" then
                  Float64.div (Float64.mul (.finite o.Price) (.finite p.Reward)) 100
                else .finite p.Reward))).foldl Float64.add 0) "PROCESSED"] ∧
    (∀ st, Accrual.Call.UpdateStatus st id ∉
      (Accrual.Service.processOrders repo ctxDone rangeOrder s).2.2) ∧
    ((∀ p ∈ (repo.GetProductsInfo s).1, ∀ o ∈ (repo.ParseMatch p.Match s).1,
        o.Order = id → p.RewardType = str "%" →
        Float64.ofRat (o.Price * p.Reward) = .finite (o.Price * p.Reward) ∧
        Float64.ofRat (o.Price * p.Reward / 100) = .finite (o.Price * p.Reward / 100)) →
      (∀ k, Float64.ofRat
          ((((repo.GetProductsInfo s).1.flatMap (fun p =>
            ((repo.ParseMatch p.Match s).1.filter (fun o => decide (o.Order = id))).map
              (fun o => if p.RewardType = str "%" then o.Price * p.Reward / 100
                else p.Reward))).take k).sum)
        = .finite ((((repo.GetProductsInfo s).1.flatMap (fun p =>
            ((repo.ParseMatch p.Match s).1.filter (fun o => decide (o.Order = id))).map
              (fun o => if p.RewardType = str "%" then o.Price * p.Reward / 100
                else p.Reward))).take k).sum)) →
      (Accrual.Service.processOrders repo ctxDone rangeOrder s).2.2.filter
          (Accrual.Call.isUpdateAccrualInfoOf id)
        = [Accrual.Call.UpdateAccrualInfo id
            (.finite (((repo.GetProductsInfo s).1.flatMap (fun p =>
              ((repo.ParseMatch p.Match s).1.filter (fun o => decide (o.Order = id))).map
                (fun o => if p.RewardType = str "%" then o.Price * p.Reward / 100
                  else p.Reward))).sum)) "PROCESSED"]) := by
  obtain ⟨h1, h2⟩ :=
    matcher_accrual_update_aux repo ctxDone rangeOrder s hprod hpm hctx hperm id hvalid hmatch
  refine ⟨h1, h2, ?_⟩
  intro hterm hsum
  rw [h1]
  congr 2
  have hmap : (repo.GetProductsInfo s).1.flatMap (fun p =>
      ((repo.ParseMatch p.Match s).1.filter (fun o => decide (o.Order = id))).map
        (fun o => Accrual.float64Contribution p o.Price))
      = ((repo.GetProductsInfo s).1.flatMap (fun p =>
          ((repo.ParseMatch p.Match s).1.filter (fun o => decide (o.Order = id))).map
            (fun o => Accrual.specContribution p o.Price))).map Float64.finite := by
    rw [List.map_flatMap]
    apply flatMap_congr_mem
    intro p hp
    rw [List.map_map]
    apply List.map_congr_left
    intro o ho
    obtain ⟨ho1, ho2⟩ := List.mem_filter.mp ho
    simp only [decide_eq_true_eq] at ho2
    exact float64Contribution_exact p o.Price (hterm p hp o ho1 ho2)
  rw [hmap, float64_zero]
  have h := float64_foldl_add_exact
    ((repo.GetProductsInfo s).1.flatMap (fun p =>
      ((repo.ParseMatch p.Match s).1.filter (fun o => decide (o.Order = id))).map
        (fun o => Accrual.specContribution p o.Price))) 0
    (fun k _ => by
      rw [zero_add]
      exact hsum k)
  rw [zero_add] at h
  exact h

theorem entryCall_mem_pre {σ : Type} (repo : Accrual.Repository σ) (ctxDone : Nat → Bool)
    (rangeOrder : List (Int × List Accrual.orderProductMatch) →
      List (Int × List Accrual.orderProductMatch))
    (s : σ) (hctx : ∀ i, ctxDone i = false) (hperm : ∀ m, (rangeOrder m).Perm m)
    (c : Accrual.Call)
    (hc : c ∈ Accrual.Call.GetProductsInfo ::
      ((repo.GetProductsInfo s).1.map (fun p => Accrual.Call.ParseMatch p.Match) ++
        (rangeOrder (Accrual.Service.collectMatches repo ctxDone s 0
          (repo.GetProductsInfo s).1 ([], [])).orderProducts).map
            Accrual.Service.entryCall)) :
    c ≠ Accrual.Call.GetUnprocessedOrders ∧
    (∀ id a st, c = Accrual.Call.UpdateAccrualInfo id a st →
      id ∈ Accrual.Service.matchedIDs repo s) := by
  obtain ⟨_, _, _, _, c5, _⟩ := collectMatches_spec repo ctxDone s hctx
    (repo.GetProductsInfo s).1 0 ([], []) (by simp)
  simp only [List.mem_cons, List.mem_append, List.mem_map] at hc
  rcases hc with hc | ⟨p, _, hp⟩ | ⟨e, he, hec⟩
  · subst hc
    exact ⟨by simp, fun id a st h => by cases h⟩
  · subst hp
    exact ⟨by simp, fun id a st h => by cases h⟩
  · subst hec
    have hem : e ∈ (Accrual.Service.collectMatches repo ctxDone s 0
        (repo.GetProductsInfo s).1 ([], [])).orderProducts := (hperm _).mem_iff.mp he
    have hkey : e.1 ∈ (Accrual.Service.collectMatches repo ctxDone s 0
        (repo.GetProductsInfo s).1 ([], [])).orderProducts.map Prod.fst :=
      List.mem_map.mpr ⟨e, hem, rfl⟩
    have hmatched := (c5 e.1).mp hkey
    simp only [List.map_nil, List.not_mem_nil, false_or] at hmatched
    unfold Accrual.Service.entryCall
    split_ifs
    · exact ⟨by simp, fun id a st h => by cases h⟩
    · refine ⟨by simp, ?_⟩
      intro id a st h
      simp only [Accrual.Call.UpdateAccrualInfo.injEq] at h
      rw [← h.1]
      exact hmatched

theorem entryCall_mem_pre_total {σ : Type} (repo : Accrual.Repository σ)
    (ctxDone : Nat → Bool)
    (rangeOrder : List (Int × List Accrual.orderProductMatch) →
      List (Int × List Accrual.orderProductMatch))
    (s : σ) (hperm : ∀ m, (rangeOrder m).Perm m)
    (c : Accrual.Call)
    (hc : c ∈ Accrual.Call.GetProductsInfo ::
      ((repo.GetProductsInfo s).1.map (fun p => Accrual.Call.ParseMatch p.Match) ++
        (rangeOrder (Accrual.Service.collectMatches repo ctxDone s 0
          (repo.GetProductsInfo s).1 ([], [])).orderProducts).map
            Accrual.Service.entryCall)) :
    ∀ id a st, c = Accrual.Call.UpdateAccrualInfo id a st →
      st = "PROCESSED" ∧
      ∃ e ∈ (Accrual.Service.collectMatches repo ctxDone s 0
          (repo.GetProductsInfo s).1 ([], [])).orderProducts,
        e.1 = id ∧ a = Accrual.Service.totalAccrual e.2 := by
  simp only [List.mem_cons, List.mem_append, List.mem_map] at hc
  rcases hc with hc | ⟨p, _, hp⟩ | ⟨e, he, hec⟩
  · subst hc
    intro id a st h
    cases h
  · subst hp
    intro id a st h
    cases h
  · subst hec
    have hem : e ∈ (Accrual.Service.collectMatches repo ctxDone s 0
        (repo.GetProductsInfo s).1 ([], [])).orderProducts := (hperm _).mem_iff.mp he
    unfold Accrual.Service.entryCall
    split_ifs
    · intro id a st h
      cases h
    · intro id a st h
      simp only [Accrual.Call.UpdateAccrualInfo.injEq] at h
      exact ⟨h.2.2.symm, e, hem, h.1, h.2.1.symm⟩

theorem count_zero_updates (ids : List Int) (processed : List Int) (id : Int)
    (hid : id ∉ processed) :
    ((ids.filter (fun x => decide (x ∉ processed))).map
        (fun x => Accrual.Call.UpdateAccrualInfo x 0 Accrual.Processed)).count
      (Accrual.Call.UpdateAccrualInfo id 0 Accrual.Processed) = ids.count id := by
  induction ids with
  | nil => rfl
  | cons x rest ih =>
    by_cases hx : x ∈ processed
    · have hne : x ≠ id := fun h => hid (h ▸ hx)
      simp only [List.filter_cons, hx, not_true_eq_false, decide_False, Bool.false_eq_true,
        if_false, ih]
      rw [List.count_cons_of_ne hne.symm]
    · simp only [List.filter_cons, hx, not_false_eq_true, decide_True, if_true, List.map_cons]
      by_cases hxid : x = id
      · subst hxid
        rw [List.count_cons_self, List.count_cons_self, ih]
      · have h1 : Accrual.Call.UpdateAccrualInfo id 0 Accrual.Processed
            ≠ Accrual.Call.UpdateAccrualInfo x 0 Accrual.Processed := by
          intro h
          simp only [Accrual.Call.UpdateAccrualInfo.injEq] at h
          exact hxid h.1.symm
        rw [List.count_cons_of_ne h1, List.count_cons_of_ne (fun h => hxid h.symm), ih]

theorem matcher_zero_updates_aux {σ : Type} (repo : Accrual.Repository σ)
    (ctxDone : Nat → Bool)
    (rangeOrder : List (Int × List Accrual.orderProductMatch) →
      List (Int × List Accrual.orderProductMatch))
    (s : σ) (hprod : (repo.GetProductsInfo s).2 = none) (hctx : ∀ i, ctxDone i = false)
    (hperm : ∀ m, (rangeOrder m).Perm m) :
    ∃ pre zero : List Accrual.Call,
      (Accrual.Service.processOrders repo ctxDone rangeOrder s).2.2
        = pre ++ Accrual.Call.GetUnprocessedOrders :: zero ∧
      Accrual.Call.GetUnprocessedOrders ∉ pre ∧
      (∀ id a st, Accrual.Call.UpdateAccrualInfo id a st ∈ pre →
        id ∈ Accrual.Service.matchedIDs repo s) ∧
      (∀ c ∈ zero, ∃ id, id ∉ Accrual.Service.matchedIDs repo s ∧
        c = Accrual.Call.UpdateAccrualInfo id 0 "PROCESSED") ∧
      ((repo.GetUnprocessedOrders
          (Accrual.Service.stateAfterMatched repo ctxDone rangeOrder s)).2 = none →
        ∀ id, id ∉ Accrual.Service.matchedIDs repo s →
          zero.count (Accrual.Call.UpdateAccrualInfo id 0 "PROCESSED")
            = (repo.GetUnprocessedOrders
                (Accrual.Service.stateAfterMatched repo ctxDone rangeOrder s)).1.count id ∧
          (Accrual.Service.processOrders repo ctxDone rangeOrder s).2.2.count
              (Accrual.Call.UpdateAccrualInfo id 0 "PROCESSED")
            = (repo.GetUnprocessedOrders
                (Accrual.Service.stateAfterMatched repo ctxDone rangeOrder s)).1.count id) ∧
      (∀ id a st, Accrual.Call.UpdateAccrualInfo id a st ∈ pre →
        st = "PROCESSED" ∧
        ∃ e ∈ (Accrual.Service.collectMatches repo ctxDone s 0
            (repo.GetProductsInfo s).1 ([], [])).orderProducts,
          e.1 = id ∧ a = Accrual.Service.totalAccrual e.2) := by
  obtain ⟨_, _, _, _, _, c6⟩ := collectMatches_spec repo ctxDone s hctx
    (repo.GetProductsInfo s).1 0 ([], []) (by simp)
  have hproc : ∀ id, id ∈ (Accrual.Service.collectMatches repo ctxDone s 0
      (repo.GetProductsInfo s).1 ([], [])).processedOrderIDs ↔
      id ∈ Accrual.Service.matchedIDs repo s := by
    intro id
    rw [c6 id]
    simp [Accrual.Service.matchedIDs]
  obtain ⟨_, hcalls⟩ := processOrders_calls repo ctxDone rangeOrder s hprod hctx
  refine ⟨_, _, hcalls, ?_, ?_, ?_, ?_, ?_⟩
  rotate_right
  · intro id a st h
    exact entryCall_mem_pre_total repo ctxDone rangeOrder s hperm _ h id a st rfl
  · intro h
    exact (entryCall_mem_pre repo ctxDone rangeOrder s hctx hperm _ h).1 rfl
  · intro id a st h
    exact (entryCall_mem_pre repo ctxDone rangeOrder s hctx hperm _ h).2 id a st rfl
  · intro c hc
    split at hc
    · simp at hc
    · obtain ⟨x, hx, hxc⟩ := List.mem_map.mp hc
      have hx2 := (List.mem_filter.mp hx).2
      simp only [decide_eq_true_eq] at hx2
      exact ⟨x, fun h => hx2 ((hproc x).mpr h), hxc.symm⟩
  · intro hg id hid
    have hnp : id ∉ (Accrual.Service.collectMatches repo ctxDone s 0
        (repo.GetProductsInfo s).1 ([], [])).processedOrderIDs :=
      fun h => hid ((hproc id).mp h)
    have hz := count_zero_updates (repo.GetUnprocessedOrders
      (Accrual.Service.stateAfterMatched repo ctxDone rangeOrder s)).1 _ id hnp
    have hpre : (Accrual.Call.GetProductsInfo ::
        ((repo.GetProductsInfo s).1.map (fun p => Accrual.Call.ParseMatch p.Match) ++
          (rangeOrder (Accrual.Service.collectMatches repo ctxDone s 0
            (repo.GetProductsInfo s).1 ([], [])).orderProducts).map
              Accrual.Service.entryCall)).count
        (Accrual.Call.UpdateAccrualInfo id 0 "PROCESSED") = 0 := by
      rw [List.count_eq_zero]
      intro h
      exact hid ((entryCall_mem_pre repo ctxDone rangeOrder s hctx hperm _ h).2 id 0 _ rfl)
    simp only [hg]
    refine ⟨hz, ?_⟩
    rw [hcalls]
    simp only [hg]
    rw [List.count_append, hpre, List.count_cons_of_ne (by simp), zero_add]
    exact hz

/-- C13 (counterexample). The rule `Bork` of 0 percent and the registered order 9278923470
with the line `Bork toaster`: the order is matched by the rule in the tick, and the tick
makes the zero-accrual update `UpdateAccrualInfo(9278923470, 0, PROCESSED)` for it, in the
loop over the matched orders, whose total for this order is 0. -/
theorem matcher_zero_update_matched :
    (9278923470 : Int) ∈ Accrual.Service.matchedIDs (Accrual.PostgresDB.repository plainPostgres)
      scenarioZeroReward ∧
    (Accrual.Service.processOrders (Accrual.PostgresDB.repository plainPostgres)
        (fun _ => false) id scenarioZeroReward).2.2
      = [Accrual.Call.GetProductsInfo, Accrual.Call.ParseMatch (str "Bork"),
         Accrual.Call.UpdateAccrualInfo 9278923470 0 "PROCESSED",
         Accrual.Call.GetUnprocessedOrders] := by
  refine ⟨by decide!, by decide!⟩

/-- C13 (amended). In one matcher tick in which `GetProductsInfo` succeeds and the context is
not done, the calls after `GetUnprocessedOrders` are `UpdateAccrualInfo(id, 0, PROCESSED)`
calls for ids matched by no product rule in this tick, and for every id matched by no rule
the number of `UpdateAccrualInfo(id, 0, PROCESSED)` calls in the tick is the number of times
`GetUnprocessedOrders` returned it, that is exactly one for a returned id when the returned
ids are distinct, as the values of the primary key `order_id` are. For an id matched by
some rule in this tick no call after `GetUnprocessedOrders` is an update of it: the
`UpdateAccrualInfo` calls before `GetUnprocessedOrders` are for matched ids only, each with
the status PROCESSED and with the total of the contributions of the matches of its id, so
that a matched id gets a zero-accrual update only when that total is 0. -/
theorem matcher_zero_updates {σ : Type} (repo : Accrual.Repository σ)
    (ctxDone : Nat → Bool)
    (rangeOrder : List (Int × List Accrual.orderProductMatch) →
      List (Int × List Accrual.orderProductMatch))
    (s : σ) (hprod : (repo.GetProductsInfo s).2 = none) (hctx : ∀ i, ctxDone i = false)
    (hperm : ∀ m, (rangeOrder m).Perm m)
    (hok : (repo.GetUnprocessedOrders
      (Accrual.Service.stateAfterMatched repo ctxDone rangeOrder s)).2 = none)
    (hdistinct : (repo.GetUnprocessedOrders
      (Accrual.Service.stateAfterMatched repo ctxDone rangeOrder s)).1.Nodup) :
    (∃ pre zero : List Accrual.Call,
      (Accrual.Service.processOrders repo ctxDone rangeOrder s).2.2
        = pre ++ Accrual.Call.GetUnprocessedOrders :: zero ∧
      Accrual.Call.GetUnprocessedOrders ∉ pre ∧
      (∀ id a st, Accrual.Call.UpdateAccrualInfo id a st ∈ pre →
        id ∈ Accrual.Service.matchedIDs repo s) ∧
      (∀ c ∈ zero, ∃ id, id ∉ Accrual.Service.matchedIDs repo s ∧
        c = Accrual.Call.UpdateAccrualInfo id 0 "PROCESSED") ∧
      (∀ id ∈ Accrual.Service.matchedIDs repo s, ∀ a st,
        Accrual.Call.UpdateAccrualInfo id a st ∉ zero) ∧
      (∀ id a st, Accrual.Call.UpdateAccrualInfo id a st ∈ pre →
        st = "PROCESSED" ∧
        ∃ e ∈ (Accrual.Service.collectMatches repo ctxDone s 0
            (repo.GetProductsInfo s).1 ([], [])).orderProducts,
          e.1 = id ∧ a = Accrual.Service.totalAccrual e.2)) ∧
    (∀ id ∈ (repo.GetUnprocessedOrders
        (Accrual.Service.stateAfterMatched repo ctxDone rangeOrder s)).1,
      id ∉ Accrual.Service.matchedIDs repo s →
      (Accrual.Service.processOrders repo ctxDone rangeOrder s).2.2.count
        (Accrual.Call.UpdateAccrualInfo id 0 "PROCESSED") = 1) := by
  obtain ⟨pre, zero, h1, h2, h3, h4, h5, h6⟩ :=
    matcher_zero_updates_aux repo ctxDone rangeOrder s hprod hctx hperm
  refine ⟨⟨pre, zero, h1, h2, h3, h4, ?_, h6⟩, ?_⟩
  · intro id hid a st hmem
    obtain ⟨id2, hid2, hc⟩ := h4 _ hmem
    simp only [Accrual.Call.UpdateAccrualInfo.injEq] at hc
    exact hid2 (hc.1 ▸ hid)
  · intro id hid hnm
    rw [(h5 hok id hnm).2]
    exact List.count_eq_one_of_mem hdistinct hid

theorem accrualOf_nonneg (m : Accrual.orderProductMatch) (hr : 0 ≤ m.Product.Reward)
    (hp : 0 ≤ m.Order.Price) : 0 ≤ Accrual.Service.accrualOf m := by
  unfold Accrual.Service.accrualOf
  split_ifs
  · exact float64_div_hundred_nonneg _ (float64_mul_nonneg _ _ hp hr)
  · exact (float64_finite_nonneg _).mpr hr

theorem mapAppend_mem {α : Type} (m : List (Int × List α)) (k : Int) (v : α) :
    ∀ e ∈ Accrual.mapAppend m k v, ∀ x ∈ e.2, x = v ∨ ∃ e' ∈ m, x ∈ e'.2 := by
  induction m with
  | nil =>
    intro e he x hx
    simp only [Accrual.mapAppend, List.mem_singleton] at he
    subst he
    simp only [List.mem_singleton] at hx
    exact Or.inl hx
  | cons e0 rest ih =>
    obtain ⟨k', vs⟩ := e0
    intro e he x hx
    by_cases hk : k' = k
    · simp only [Accrual.mapAppend, hk, if_true, List.mem_cons] at he
      rcases he with he | he
      · subst he
        simp only [List.mem_append, List.mem_singleton] at hx
        rcases hx with hx | hx
        · exact Or.inr ⟨(k', vs), List.mem_cons_self _ _, hx⟩
        · exact Or.inl hx
      · exact Or.inr ⟨e, List.mem_cons_of_mem _ he, hx⟩
    · simp only [Accrual.mapAppend, hk, if_false, List.mem_cons] at he
      rcases he with he | he
      · subst he
        exact Or.inr ⟨(k', vs), List.mem_cons_self _ _, hx⟩
      · rcases ih e he x hx with h | ⟨e', he', hxe⟩
        · exact Or.inl h
        · exact Or.inr ⟨e', List.mem_cons_of_mem _ he', hxe⟩

theorem addOrders_nonneg (product : Accrual.ProductReward) (rows : List Accrual.ParseMatch)
    (hrows : ∀ o ∈ rows, 0 ≤ Accrual.Service.accrualOf { Order := o, Product := product }) :
    ∀ acc : List (Int × List Accrual.orderProductMatch) × List Int,
      (∀ e ∈ acc.1, ∀ x ∈ e.2, 0 ≤ Accrual.Service.accrualOf x) →
      ∀ e ∈ (Accrual.Service.addOrders product rows acc).1, ∀ x ∈ e.2,
        0 ≤ Accrual.Service.accrualOf x := by
  induction rows with
  | nil => intro acc h; simpa [Accrual.Service.addOrders] using h
  | cons o rest ih =>
    intro acc h
    simp only [Accrual.Service.addOrders]
    apply ih (fun o' ho' => hrows o' (List.mem_cons_of_mem _ ho'))
    intro e he x hx
    rcases mapAppend_mem acc.1 o.Order _ e he x hx with hxv | ⟨e', he', hxe⟩
    · rw [hxv]
      exact hrows o (List.mem_cons_self _ _)
    · exact h e' he' x hxe

theorem collectMatches_nonneg {σ : Type} (repo : Accrual.Repository σ) (ctxDone : Nat → Bool)
    (s : σ) (products : List Accrual.ProductReward)
    (hrows : ∀ p ∈ products, ∀ o ∈ (repo.ParseMatch p.Match s).1,
      0 ≤ Accrual.Service.accrualOf { Order := o, Product := p }) :
    ∀ (i : Nat) (acc : List (Int × List Accrual.orderProductMatch) × List Int),
      (∀ e ∈ acc.1, ∀ x ∈ e.2, 0 ≤ Accrual.Service.accrualOf x) →
      (∀ e ∈ (Accrual.Service.collectMatches repo ctxDone s i products acc).orderProducts,
        ∀ x ∈ e.2, 0 ≤ Accrual.Service.accrualOf x) ∧
      (∀ c ∈ (Accrual.Service.collectMatches repo ctxDone s i products acc).calls,
        c.keepsInvariant) := by
  induction products with
  | nil =>
    intro i acc h
    simp only [Accrual.Service.collectMatches]
    exact ⟨h, fun c hc => by cases hc⟩
  | cons p rest ih =>
    intro i acc h
    by_cases hd : ctxDone i = true
    · simp only [Accrual.Service.collectMatches, hd, if_true]
      exact ⟨h, fun c hc => by cases hc⟩
    · have hacc : ∀ e ∈ (Accrual.Service.addOrders p (Accrual.Service.usedRows repo s p) acc).1,
          ∀ x ∈ e.2, 0 ≤ Accrual.Service.accrualOf x := by
        apply addOrders_nonneg p _ _ acc h
        intro o ho
        unfold Accrual.Service.usedRows at ho
        split at ho
        · cases ho
        · exact hrows p (List.mem_cons_self _ _) o ho
      obtain ⟨h1, h2⟩ := ih (fun q hq => hrows q (List.mem_cons_of_mem _ hq)) (i + 1) _ hacc
      rw [collectMatches_cons repo ctxDone s i p rest acc (by simpa using hd)]
      dsimp only
      refine ⟨h1, ?_⟩
      intro c hc
      simp only [List.mem_cons] at hc
      rcases hc with hc | hc
      · subst hc; trivial
      · exact h2 c hc

theorem totalAccrual_nonneg (l : List Accrual.orderProductMatch)
    (h : ∀ x ∈ l, 0 ≤ Accrual.Service.accrualOf x) : 0 ≤ Accrual.Service.totalAccrual l := by
  have hfold : ∀ (l : List Accrual.orderProductMatch) (a : Float64), 0 ≤ a →
      (∀ x ∈ l, 0 ≤ Accrual.Service.accrualOf x) →
      0 ≤ l.foldl (fun total m => Float64.add total (Accrual.Service.accrualOf m)) a := by
    intro l
    induction l with
    | nil => intro a ha _; exact ha
    | cons x rest ih =>
      intro a ha hl
      simp only [List.foldl_cons]
      exact ih _ (float64_add_nonneg _ _ ha (hl x (List.mem_cons_self _ _)))
        (fun y hy => hl y (List.mem_cons_of_mem _ hy))
  exact hfold l 0 ((float64_nonneg_iff 0).mpr (Or.inr ⟨0, le_refl _, float64_zero⟩)) h

theorem updateMatched_nonneg {σ : Type} (repo : Accrual.Repository σ) (ctxDone : Nat → Bool)
    (entries : List (Int × List Accrual.orderProductMatch))
    (h : ∀ e ∈ entries, ∀ x ∈ e.2, 0 ≤ Accrual.Service.accrualOf x) :
    ∀ (i : Nat) (s : σ), ∀ c ∈ (Accrual.Service.updateMatched repo ctxDone i entries s).2.2,
      c.keepsInvariant := by
  induction entries with
  | nil => intro i s c hc; simp [Accrual.Service.updateMatched] at hc
  | cons e rest ih =>
    intro i s c hc
    have hrest := ih (fun e' he' => h e' (List.mem_cons_of_mem _ he'))
    by_cases hd : ctxDone i = true
    · simp [Accrual.Service.updateMatched, hd] at hc
    · by_cases hv : (!ValidateLuhn (Accrual.FormatInt e.1)
          || !ContainsOnlyDigits (Accrual.FormatInt e.1)) = true
      · simp only [Accrual.Service.updateMatched, hd, Bool.false_eq_true, if_false, hv, if_true,
          List.mem_cons] at hc
        rcases hc with hc | hc
        · subst hc; exact rfl
        · exact hrest _ _ c hc
      · simp only [Accrual.Service.updateMatched, hd, Bool.false_eq_true, if_false, hv,
          List.mem_cons] at hc
        rcases hc with hc | hc
        · subst hc
          exact ⟨rfl, totalAccrual_nonneg e.2 (h e (List.mem_cons_self _ _))⟩
        · exact hrest _ _ c hc

theorem updateUnmatched_nonneg {σ : Type} (repo : Accrual.Repository σ) (processed : List Int)
    (ids : List Int) (s : σ) :
    ∀ c ∈ (Accrual.Service.updateUnmatched repo processed ids s).2, c.keepsInvariant := by
  intro c hc
  rw [updateUnmatched_calls] at hc
  obtain ⟨x, _, hxc⟩ := List.mem_map.mp hc
  subst hxc
  exact ⟨rfl, (float64_nonneg_iff 0).mpr (Or.inr ⟨0, le_refl _, float64_zero⟩)⟩

theorem processOrders_keepsInvariant {σ : Type} (repo : Accrual.Repository σ)
    (ctxDone : Nat → Bool)
    (rangeOrder : List (Int × List Accrual.orderProductMatch) →
      List (Int × List Accrual.orderProductMatch))
    (s : σ) (hperm : ∀ m, (rangeOrder m).Perm m)
    (hreward : ∀ p ∈ (repo.GetProductsInfo s).1, 0 ≤ p.Reward)
    (hprice : ∀ p ∈ (repo.GetProductsInfo s).1, ∀ o ∈ (repo.ParseMatch p.Match s).1,
      0 ≤ o.Price) :
    ∀ c ∈ (Accrual.Service.processOrders repo ctxDone rangeOrder s).2.2, c.keepsInvariant := by
  have hrows : ∀ p ∈ (repo.GetProductsInfo s).1, ∀ o ∈ (repo.ParseMatch p.Match s).1,
      0 ≤ Accrual.Service.accrualOf { Order := o, Product := p } :=
    fun p hp o ho => accrualOf_nonneg _ (hreward p hp) (hprice p hp o ho)
  obtain ⟨hm, hmc⟩ := collectMatches_nonneg repo ctxDone s (repo.GetProductsInfo s).1 hrows 0
    ([], []) (fun e he => by cases he)
  have hentries : ∀ e ∈ rangeOrder (Accrual.Service.collectMatches repo ctxDone s 0
      (repo.GetProductsInfo s).1 ([], [])).orderProducts,
      ∀ x ∈ e.2, 0 ≤ Accrual.Service.accrualOf x :=
    fun e he => hm e ((hperm _).mem_iff.mp he)
  have hu := updateMatched_nonneg repo ctxDone _ hentries (repo.GetProductsInfo s).1.length s
  intro c hc
  unfold Accrual.Service.processOrders at hc
  split at hc
  · simp only [List.mem_singleton] at hc
    subst hc; trivial
  · dsimp only at hc
    split_ifs at hc
    · simp only [List.mem_cons] at hc
      rcases hc with hc | hc
      · subst hc; trivial
      · exact hmc c hc
    · simp only [List.mem_cons, List.mem_append] at hc
      rcases hc with hc | hc | hc
      · subst hc; trivial
      · exact hmc c hc
      · exact hu c hc
    · split at hc
      · simp only [List.mem_cons, List.mem_append, List.mem_singleton] at hc
        rcases hc with hc | (hc | hc) | hc
        · subst hc; trivial
        · exact hmc c hc
        · exact hu c hc
        · rcases hc with hc | hc
          · subst hc; trivial
          · cases hc
      · simp only [List.mem_cons, List.mem_append] at hc
        rcases hc with hc | (hc | hc) | hc | hc
        · subst hc; trivial
        · exact hmc c hc
        · exact hu c hc
        · subst hc; trivial
        · exact updateUnmatched_nonneg repo _ _ _ c hc

/-- C14 (counterexample). The rule `Bork` with the fixed reward -10 and the registered order
9278923470 with the line `Bork toaster`: after one tick the order is PROCESSED with the
accrual -10. -/
theorem matcher_negative_accrual :
    (Accrual.Service.processOrders (Accrual.PostgresDB.repository plainPostgres)
        (fun _ => false) id scenarioNegativeReward).2.1.orders_accrual
      = [{ order_id := 9278923470,
           goods := [{ Description := str "Bork toaster", Price := 7000 }],
           status := "PROCESSED", accrual := some (-10) }] ∧
    ((-10 : ℚ) < 0) ∧
    ((-10 : Float64) = .finite (-10)) ∧ ((-10 : Float64) < 0) := by
  refine ⟨by decide!, by norm_num, by decide!, by decide!⟩

/-- C14 (amended). For every set of product rules with rewards that are not negative and of
registered orders whose matched goods lines have prices that are not negative, in every
tick (completed or not): every `UpdateAccrualInfo` call of the matcher sets the status
PROCESSED with an accrual `>= 0`, and every order it puts in status INVALID is written by
`UpdateStatus`, whose statement sets the status only and leaves the accrual of every row as
it was (unset when it was unset). -/
theorem matcher_nonnegative_accrual {σ : Type} (repo : Accrual.Repository σ)
    (ctxDone : Nat → Bool)
    (rangeOrder : List (Int × List Accrual.orderProductMatch) →
      List (Int × List Accrual.orderProductMatch))
    (s : σ) (hperm : ∀ m, (rangeOrder m).Perm m)
    (hreward : ∀ p ∈ (repo.GetProductsInfo s).1, 0 ≤ p.Reward)
    (hprice : ∀ p ∈ (repo.GetProductsInfo s).1, ∀ o ∈ (repo.ParseMatch p.Match s).1,
      0 ≤ o.Price) :
    (∀ id a st, Accrual.Call.UpdateAccrualInfo id a st ∈
        (Accrual.Service.processOrders repo ctxDone rangeOrder s).2.2 →
      st = "PROCESSED" ∧ 0 ≤ a) ∧
    (∀ st id, Accrual.Call.UpdateStatus st id ∈
        (Accrual.Service.processOrders repo ctxDone rangeOrder s).2.2 → st = "INVALID") ∧
    (∀ (db : Accrual.DB) (st : String) (id : Int),
      (Accrual.PostgresDB.UpdateStatus db st id).2.orders_accrual.map (fun o => o.accrual)
        = db.orders_accrual.map (fun o => o.accrual)) := by
  have h := processOrders_keepsInvariant repo ctxDone rangeOrder s hperm hreward hprice
  refine ⟨fun id a st hc => h _ hc, fun st id hc => h _ hc, ?_⟩
  intro db st id
  simp only [Accrual.PostgresDB.UpdateStatus, List.map_map]
  apply List.map_congr_left
  intro o _
  simp only [Function.comp]
  split_ifs <;> rfl

theorem updateStatus_invalid_self (db : Accrual.DB) (id : Int) :
    ∀ o ∈ (Accrual.PostgresDB.UpdateStatus db Accrual.Invalid id).2.orders_accrual,
      o.order_id = id → o.status = "INVALID" := by
  intro o ho hid
  simp only [Accrual.PostgresDB.UpdateStatus, List.mem_map] at ho
  obtain ⟨r, _, hr⟩ := ho
  split_ifs at hr with h
  · subst hr; rfl
  · subst hr; exact absurd hid h

theorem updateStatus_invalid_other (db : Accrual.DB) (st : String) (id other : Int)
    (hne : other ≠ id)
    (h : ∀ o ∈ db.orders_accrual, o.order_id = id → o.status = "INVALID") :
    ∀ o ∈ (Accrual.PostgresDB.UpdateStatus db st other).2.orders_accrual,
      o.order_id = id → o.status = "INVALID" := by
  intro o ho hid
  simp only [Accrual.PostgresDB.UpdateStatus, List.mem_map] at ho
  obtain ⟨r, hr, hro⟩ := ho
  split_ifs at hro with hc
  · subst hro
    exact absurd (hc.symm.trans hid) hne
  · subst hro; exact h _ hr hid

theorem updateAccrualInfo_invalid_other (db : Accrual.DB) (a : Float64) (st : String)
    (id other : Int) (hne : other ≠ id)
    (h : ∀ o ∈ db.orders_accrual, o.order_id = id → o.status = "INVALID") :
    ∀ o ∈ (Accrual.PostgresDB.UpdateAccrualInfo db other a st).2.orders_accrual,
      o.order_id = id → o.status = "INVALID" := by
  intro o ho hid
  simp only [Accrual.PostgresDB.UpdateAccrualInfo, List.mem_map] at ho
  obtain ⟨r, hr, hro⟩ := ho
  split_ifs at hro with hc
  · subst hro
    exact absurd (hc.symm.trans hid) hne
  · subst hro; exact h _ hr hid

theorem updateStatus_ids (db : Accrual.DB) (st : String) (id : Int) :
    (Accrual.PostgresDB.UpdateStatus db st id).2.orders_accrual.map (fun o => o.order_id)
      = db.orders_accrual.map (fun o => o.order_id) := by
  simp only [Accrual.PostgresDB.UpdateStatus, List.map_map]
  apply List.map_congr_left
  intro o _
  simp only [Function.comp]
  split_ifs <;> rfl

theorem updateAccrualInfo_ids (db : Accrual.DB) (a : Float64) (st : String) (id : Int) :
    (Accrual.PostgresDB.UpdateAccrualInfo db id a st).2.orders_accrual.map (fun o => o.order_id)
      = db.orders_accrual.map (fun o => o.order_id) := by
  simp only [Accrual.PostgresDB.UpdateAccrualInfo, List.map_map]
  apply List.map_congr_left
  intro o _
  simp only [Function.comp]
  split_ifs <;> rfl

theorem updateMatched_ids (pg : Accrual.Postgres) (ctxDone : Nat → Bool)
    (entries : List (Int × List Accrual.orderProductMatch)) :
    ∀ (i : Nat) (db : Accrual.DB),
      (Accrual.Service.updateMatched (Accrual.PostgresDB.repository pg) ctxDone i entries
          db).2.1.orders_accrual.map (fun o => o.order_id)
        = db.orders_accrual.map (fun o => o.order_id) := by
  induction entries with
  | nil => intro i db; rfl
  | cons e rest ih =>
    intro i db
    by_cases hd : ctxDone i = true
    · simp [Accrual.Service.updateMatched, hd]
    · by_cases hv : (!ValidateLuhn (Accrual.FormatInt e.1)
          || !ContainsOnlyDigits (Accrual.FormatInt e.1)) = true
      · simp only [Accrual.Service.updateMatched, hd, Bool.false_eq_true, if_false, hv, if_true]
        rw [ih]
        exact updateStatus_ids db _ _
      · simp only [Accrual.Service.updateMatched, hd, Bool.false_eq_true, if_false, hv]
        rw [ih]
        exact updateAccrualInfo_ids db _ _ _

theorem updateUnmatched_ids (pg : Accrual.Postgres) (processed : List Int) (ids : List Int) :
    ∀ db : Accrual.DB,
      (Accrual.Service.updateUnmatched (Accrual.PostgresDB.repository pg) processed ids
          db).1.orders_accrual.map (fun o => o.order_id)
        = db.orders_accrual.map (fun o => o.order_id) := by
  induction ids with
  | nil => intro db; rfl
  | cons x rest ih =>
    intro db
    by_cases hp : x ∈ processed
    · simp only [Accrual.Service.updateUnmatched, hp, if_true]
      exact ih db
    · simp only [Accrual.Service.updateUnmatched, hp, if_false]
      rw [ih]
      exact updateAccrualInfo_ids db _ _ _

theorem updateMatched_invalid (pg : Accrual.Postgres) (ctxDone : Nat → Bool)
    (hctx : ∀ i, ctxDone i = false) (id : Int)
    (hfail : (!ValidateLuhn (Accrual.FormatInt id)
      || !ContainsOnlyDigits (Accrual.FormatInt id)) = true)
    (entries : List (Int × List Accrual.orderProductMatch)) :
    ∀ (i : Nat) (db : Accrual.DB),
      ((∃ e ∈ entries, e.1 = id) ∨
        ∀ o ∈ db.orders_accrual, o.order_id = id → o.status = "INVALID") →
      ∀ o ∈ (Accrual.Service.updateMatched (Accrual.PostgresDB.repository pg) ctxDone i entries
          db).2.1.orders_accrual, o.order_id = id → o.status = "INVALID" := by
  induction entries with
  | nil =>
    intro i db h
    rcases h with ⟨e, he, _⟩ | h
    · cases he
    · exact h
  | cons e rest ih =>
    intro i db h
    by_cases heq : e.1 = id
    · have hv : (!ValidateLuhn (Accrual.FormatInt e.1)
          || !ContainsOnlyDigits (Accrual.FormatInt e.1)) = true := by rw [heq]; exact hfail
      simp only [Accrual.Service.updateMatched, hctx, Bool.false_eq_true, if_false, hv, if_true]
      apply ih
      right
      rw [heq]
      exact updateStatus_invalid_self db id
    · have hrest : (∃ e' ∈ rest, e'.1 = id) ∨
          ∀ o ∈ db.orders_accrual, o.order_id = id → o.status = "INVALID" := by
        rcases h with ⟨e', he', hid⟩ | h
        · rcases List.mem_cons.mp he' with h1 | h1
          · exact absurd (h1 ▸ hid) heq
          · exact Or.inl ⟨e', h1, hid⟩
        · exact Or.inr h
      by_cases hv : (!ValidateLuhn (Accrual.FormatInt e.1)
          || !ContainsOnlyDigits (Accrual.FormatInt e.1)) = true
      · simp only [Accrual.Service.updateMatched, hctx, Bool.false_eq_true, if_false, hv,
          if_true]
        apply ih
        rcases hrest with h1 | h1
        · exact Or.inl h1
        · exact Or.inr (updateStatus_invalid_other db _ id e.1 heq h1)
      · simp only [Accrual.Service.updateMatched, hctx, Bool.false_eq_true, if_false, hv]
        apply ih
        rcases hrest with h1 | h1
        · exact Or.inl h1
        · exact Or.inr (updateAccrualInfo_invalid_other db _ _ id e.1 heq h1)

theorem updateUnmatched_invalid (pg : Accrual.Postgres) (processed : List Int) (id : Int)
    (hid : id ∈ processed) (ids : List Int) :
    ∀ db : Accrual.DB,
      (∀ o ∈ db.orders_accrual, o.order_id = id → o.status = "INVALID") →
      ∀ o ∈ (Accrual.Service.updateUnmatched (Accrual.PostgresDB.repository pg) processed ids
          db).1.orders_accrual, o.order_id = id → o.status = "INVALID" := by
  induction ids with
  | nil => intro db h; exact h
  | cons x rest ih =>
    intro db h
    by_cases hp : x ∈ processed
    · simp only [Accrual.Service.updateUnmatched, hp, if_true]
      exact ih db h
    · simp only [Accrual.Service.updateUnmatched, hp, if_false]
      apply ih
      exact updateAccrualInfo_invalid_other db _ _ id x (fun hx => hp (hx ▸ hid)) h

theorem processOrders_state {σ : Type} (repo : Accrual.Repository σ) (ctxDone : Nat → Bool)
    (rangeOrder : List (Int × List Accrual.orderProductMatch) →
      List (Int × List Accrual.orderProductMatch))
    (s : σ) (hprod : (repo.GetProductsInfo s).2 = none) (hctx : ∀ i, ctxDone i = false)
    (hok : (repo.GetUnprocessedOrders
      (Accrual.Service.stateAfterMatched repo ctxDone rangeOrder s)).2 = none) :
    (Accrual.Service.processOrders repo ctxDone rangeOrder s).2.1
      = (Accrual.Service.updateUnmatched repo
          (Accrual.Service.collectMatches repo ctxDone s 0 (repo.GetProductsInfo s).1
            ([], [])).processedOrderIDs
          (repo.GetUnprocessedOrders
            (Accrual.Service.stateAfterMatched repo ctxDone rangeOrder s)).1
          (Accrual.Service.stateAfterMatched repo ctxDone rangeOrder s)).1 := by
  obtain ⟨c1, _⟩ := collectMatches_spec repo ctxDone s hctx (repo.GetProductsInfo s).1 0
    ([], []) (by simp)
  have hu := updateMatched_calls repo ctxDone hctx
    (rangeOrder (Accrual.Service.collectMatches repo ctxDone s 0
      (repo.GetProductsInfo s).1 ([], [])).orderProducts) (repo.GetProductsInfo s).1.length s
  simp only [Accrual.Service.stateAfterMatched] at hok
  simp only [Accrual.Service.processOrders, hprod, c1, Bool.false_eq_true, if_false, hu.1,
    Accrual.Service.stateAfterMatched, hok]

theorem parseMatch_mem (pg : Accrual.Postgres) (db : Accrual.DB) (o : Accrual.OrderRow)
    (ho : o ∈ db.orders_accrual) (hnt : Accrual.nonTerminal o.status = true)
    (p : Accrual.ProductReward) (g : Accrual.Goods) (hg : g ∈ o.goods)
    (hlike : pg.like g.Description ((37 : Byte) :: (p.Match ++ [(37 : Byte)])) = true) :
    o.order_id ∈ (Accrual.Service.usedRows (Accrual.PostgresDB.repository pg) db p).map
      (fun r => r.Order) := by
  have hrows : Accrual.Service.usedRows (Accrual.PostgresDB.repository pg) db p
      = (Accrual.PostgresDB.ParseMatch pg db p.Match).1 := rfl
  rw [hrows]
  simp only [Accrual.PostgresDB.ParseMatch, List.mem_map, List.mem_flatMap]
  refine ⟨{ Order := o.order_id, Price := g.Price }, ⟨o, ho, ?_⟩, rfl⟩
  rw [if_pos hnt]
  exact List.mem_map.mpr ⟨g, List.mem_filter.mpr ⟨hg, hlike⟩, rfl⟩

theorem matcher_invalid_aux (pg : Accrual.Postgres) (ctxDone : Nat → Bool)
    (rangeOrder : List (Int × List Accrual.orderProductMatch) →
      List (Int × List Accrual.orderProductMatch))
    (db : Accrual.DB) (hctx : ∀ i, ctxDone i = false) (hperm : ∀ m, (rangeOrder m).Perm m)
    (o : Accrual.OrderRow) (ho : o ∈ db.orders_accrual)
    (hnt : Accrual.nonTerminal o.status = true)
    (hluhn : ValidateLuhn (Accrual.FormatInt o.order_id) = false)
    (hmatch : ∃ p ∈ db.products, ∃ g ∈ o.goods,
      pg.like g.Description ((37 : Byte) :: (p.Match ++ [(37 : Byte)])) = true) :
    (Accrual.Service.processOrders (Accrual.PostgresDB.repository pg) ctxDone rangeOrder
        db).1 = none ∧
    (Accrual.Service.processOrders (Accrual.PostgresDB.repository pg) ctxDone rangeOrder
        db).2.1.orders_accrual.map (fun r => r.order_id)
      = db.orders_accrual.map (fun r => r.order_id) ∧
    (∀ r ∈ (Accrual.Service.processOrders (Accrual.PostgresDB.repository pg) ctxDone
        rangeOrder db).2.1.orders_accrual, r.order_id = o.order_id → r.status = "INVALID") := by
  obtain ⟨p, hp, g, hg, hlike⟩ := hmatch
  have hprod : ((Accrual.PostgresDB.repository pg).GetProductsInfo db).1 = db.products := rfl
  obtain ⟨c1, _, _, _, c5, c6⟩ := collectMatches_spec (Accrual.PostgresDB.repository pg) ctxDone
    db hctx db.products 0 ([], []) (by simp)
  have hmem : o.order_id ∈ db.products.flatMap (fun p =>
      (Accrual.Service.usedRows (Accrual.PostgresDB.repository pg) db p).map
        (fun r => r.Order)) :=
    List.mem_flatMap.mpr ⟨p, hp, parseMatch_mem pg db o ho hnt p g hg hlike⟩
  have hkey := (c5 o.order_id).mpr (Or.inr hmem)
  have hproc := (c6 o.order_id).mpr (Or.inr hmem)
  have hentry : ∃ e ∈ rangeOrder (Accrual.Service.collectMatches
      (Accrual.PostgresDB.repository pg) ctxDone db 0 db.products ([], [])).orderProducts,
      e.1 = o.order_id := by
    obtain ⟨e, he, hid⟩ := List.mem_map.mp hkey
    exact ⟨e, (hperm _).mem_iff.mpr he, hid⟩
  have hfail : (!ValidateLuhn (Accrual.FormatInt o.order_id)
      || !ContainsOnlyDigits (Accrual.FormatInt o.order_id)) = true := by simp [hluhn]
  have hstate := processOrders_state (Accrual.PostgresDB.repository pg) ctxDone rangeOrder db
    rfl hctx rfl
  refine ⟨(processOrders_calls (Accrual.PostgresDB.repository pg) ctxDone rangeOrder db rfl
    hctx).1, ?_, ?_⟩
  · rw [hstate, updateUnmatched_ids]
    exact updateMatched_ids pg ctxDone _ _ db
  · rw [hstate]
    apply updateUnmatched_invalid pg _ o.order_id hproc
    exact updateMatched_invalid pg ctxDone hctx o.order_id hfail _ _ _ (Or.inl hentry)

/-- C12 (counterexample). The registered order 1234567890, whose id fails the Luhn check, with
the one line `Acme widget` that the only rule `Bork` does not match: after one tick without
repository errors its status is PROCESSED with accrual 0, not INVALID. -/
theorem matcher_invalid_unmatched :
    ValidateLuhn (Accrual.FormatInt 1234567890) = false ∧
    (Accrual.Service.processOrders (Accrual.PostgresDB.repository plainPostgres)
        (fun _ => false) id scenarioS3).1 = none ∧
    (Accrual.Service.processOrders (Accrual.PostgresDB.repository plainPostgres)
        (fun _ => false) id scenarioS3).2.1.orders_accrual
      = [{ order_id := 1234567890,
           goods := [{ Description := str "Acme widget", Price := 100 }],
           status := "PROCESSED", accrual := some 0 }] := by
  refine ⟨by decide!, by decide!, by decide!⟩

/-- C12 (amended). For every registered (non-terminal) Accrual order whose numeric id fails
the Luhn check and that has a goods line matched by at least one product rule, after one
matcher tick in which the context is not done, on the store without failures: the tick
returns no error, the order ids of the rows are as before, and the status of the order is
INVALID. -/
theorem matcher_invalid_luhn (pg : Accrual.Postgres) (ctxDone : Nat → Bool)
    (rangeOrder : List (Int × List Accrual.orderProductMatch) →
      List (Int × List Accrual.orderProductMatch))
    (db : Accrual.DB) (hctx : ∀ i, ctxDone i = false) (hperm : ∀ m, (rangeOrder m).Perm m)
    (o : Accrual.OrderRow) (ho : o ∈ db.orders_accrual)
    (hnt : Accrual.nonTerminal o.status = true)
    (hluhn : ValidateLuhn (Accrual.FormatInt o.order_id) = false)
    (hmatch : ∃ p ∈ db.products, ∃ g ∈ o.goods,
      pg.like g.Description ((37 : Byte) :: (p.Match ++ [(37 : Byte)])) = true) :
    (Accrual.Service.processOrders (Accrual.PostgresDB.repository pg) ctxDone rangeOrder
        db).1 = none ∧
    (Accrual.Service.processOrders (Accrual.PostgresDB.repository pg) ctxDone rangeOrder
        db).2.1.orders_accrual.map (fun r => r.order_id)
      = db.orders_accrual.map (fun r => r.order_id) ∧
    (∀ r ∈ (Accrual.Service.processOrders (Accrual.PostgresDB.repository pg) ctxDone
        rangeOrder db).2.1.orders_accrual, r.order_id = o.order_id → r.status = "INVALID") :=
  matcher_invalid_aux pg ctxDone rangeOrder db hctx hperm o ho hnt hluhn hmatch

/-- C11 (witness). Scenario S2: the rule `Bork` of 10 percent and the order 9278923470 with
the line `Bork toaster` of price 7000; the tick makes the one call
`UpdateAccrualInfo(9278923470, 700, PROCESSED)` for it. -/
theorem matcher_accrual_update_witness :
    validOrderNumber (Accrual.FormatInt 9278923470) = true ∧
    (Accrual.Service.processOrders (Accrual.PostgresDB.repository plainPostgres)
        (fun _ => false) id scenarioS2).2.2.filter
        (Accrual.Call.isUpdateAccrualInfoOf 9278923470)
      = [Accrual.Call.UpdateAccrualInfo 9278923470 (.finite 700) "PROCESSED"] := by
  have hvalid : validOrderNumber (Accrual.FormatInt 9278923470) = true := by decide!
  have h := (matcher_accrual_update (Accrual.PostgresDB.repository plainPostgres)
    (fun _ => false) id scenarioS2 rfl (fun _ _ => rfl) (fun _ => rfl)
    (fun m => List.Perm.refl m) 9278923470 hvalid (by decide!)).1
  refine ⟨hvalid, ?_⟩
  rw [h]
  decide!

/-- C12 (witness). Scenario S4 with the rule of S1: the order 1234567890, whose id fails the
Luhn check, registered with the line `Bork toaster` that the rule `Bork` matches; after the
tick its status is INVALID. -/
theorem matcher_invalid_luhn_witness :
    ValidateLuhn (Accrual.FormatInt 1234567890) = false ∧
    (∀ r ∈ (Accrual.Service.processOrders (Accrual.PostgresDB.repository plainPostgres)
        (fun _ => false) id scenarioS2).2.1.orders_accrual,
      r.order_id = 1234567890 → r.status = "INVALID") ∧
    (Accrual.Service.processOrders (Accrual.PostgresDB.repository plainPostgres)
        (fun _ => false) id scenarioS2).2.1.orders_accrual.map (fun r => r.order_id)
      = [9278923470, 1234567890] := by
  have hluhn : ValidateLuhn (Accrual.FormatInt 1234567890) = false := by decide!
  have h := matcher_invalid_luhn plainPostgres (fun _ => false) id scenarioS2 (fun _ => rfl)
    (fun m => List.Perm.refl m)
    { order_id := 1234567890,
      goods := [{ Description := str "Bork toaster", Price := 7000 }],
      status := "REGISTERED", accrual := none }
    (by simp [scenarioS2]) (by decide) hluhn (by decide!)
  exact ⟨hluhn, h.2.2, h.2.1⟩

/-- C13 (witness). Scenario S3: the order 1234567890 with the line `Acme widget`, which the
rule `Bork` does not match; the tick makes the call
`UpdateAccrualInfo(1234567890, 0, PROCESSED)` exactly once. -/
theorem matcher_zero_updates_witness :
    (1234567890 : Int) ∉ Accrual.Service.matchedIDs (Accrual.PostgresDB.repository plainPostgres)
      scenarioS3 ∧
    (Accrual.Service.processOrders (Accrual.PostgresDB.repository plainPostgres)
        (fun _ => false) id scenarioS3).2.2.count
      (Accrual.Call.UpdateAccrualInfo 1234567890 0 "PROCESSED") = 1 := by
  have hnm : (1234567890 : Int) ∉ Accrual.Service.matchedIDs
      (Accrual.PostgresDB.repository plainPostgres) scenarioS3 := by decide!
  exact ⟨hnm, (matcher_zero_updates (Accrual.PostgresDB.repository plainPostgres)
    (fun _ => false) id scenarioS3 rfl (fun _ => rfl) (fun m => List.Perm.refl m) rfl
    (by decide!)).2 1234567890 (by decide!) hnm⟩

/-- C14 (witness). Scenario S2, whose rule has the reward 10 and whose goods lines have the
price 7000: every `UpdateAccrualInfo` call of the tick sets PROCESSED with an accrual that
is not negative, and every `UpdateStatus` call sets INVALID. -/
theorem matcher_nonnegative_accrual_witness :
    (∀ p ∈ scenarioS2.products, 0 ≤ p.Reward) ∧
    (∀ order a st, Accrual.Call.UpdateAccrualInfo order a st ∈
        (Accrual.Service.processOrders (Accrual.PostgresDB.repository plainPostgres)
          (fun _ => false) id scenarioS2).2.2 →
      st = "PROCESSED" ∧ 0 ≤ a) ∧
    (∀ st order, Accrual.Call.UpdateStatus st order ∈
        (Accrual.Service.processOrders (Accrual.PostgresDB.repository plainPostgres)
          (fun _ => false) id scenarioS2).2.2 → st = "INVALID") := by
  have hreward : ∀ p ∈ scenarioS2.products, 0 ≤ p.Reward := by decide!
  have h := matcher_nonnegative_accrual (Accrual.PostgresDB.repository plainPostgres)
    (fun _ => false) id scenarioS2 (fun m => List.Perm.refl m) hreward (by decide!)
  exact ⟨hreward, h.1, h.2.1⟩

/-! ## `ValidateLuhn` and the standard Luhn sum -/

theorem luhnDigit_standard (b : Byte) (isSecond : Bool) (k : Nat) (hb : isDecimalDigit b)
    (hk : k % 2 = if isSecond then 0 else 1) :
    luhnDigit b isSecond = ((standardLuhnTerm k (b.val - 48) : Nat) : Int) := by
  obtain ⟨h1, h2⟩ := hb
  have hd : (b.val + 256 - 48) % 256 = b.val - 48 := by omega
  cases isSecond
  · simp only [luhnDigit, standardLuhnTerm, hd] at hk ⊢
    have : ¬ k % 2 = 0 := by simp at hk; omega
    simp [this]
  · simp only [luhnDigit, standardLuhnTerm, hd, if_true] at hk ⊢
    simp only [hk, if_true]
    split_ifs <;> omega

theorem luhnLoop_standard (l : List Byte) (hl : ∀ b ∈ l, isDecimalDigit b) :
    ∀ (sum : Int) (isSecond : Bool) (k : Nat), (k % 2 = if isSecond then 0 else 1) →
      luhnLoop l sum isSecond
        = sum + (((l.enumFrom k).map
            (fun p => standardLuhnTerm p.1 (p.2.val - 48))).sum : Nat) := by
  induction l with
  | nil => intro sum isSecond k _; simp [luhnLoop]
  | cons b rest ih =>
    intro sum isSecond k hk
    have hb : isDecimalDigit b := hl b (List.mem_cons_self _ _)
    have hrest : ∀ b ∈ rest, isDecimalDigit b := fun x hx => hl x (List.mem_cons_of_mem _ hx)
    have hk' : (k + 1) % 2 = if (!isSecond) then 0 else 1 := by
      cases isSecond <;> simp at hk ⊢ <;> omega
    rw [luhnLoop, ih hrest _ _ (k + 1) hk', luhnDigit_standard b isSecond k hb hk]
    simp only [List.enumFrom_cons, List.map_cons, List.sum_cons]
    push_cast
    ring

theorem validateLuhn_standard_aux (n : GoString) (hd : ∀ b ∈ n, isDecimalDigit b) :
    ValidateLuhn n = true ↔ 10 ∣ standardLuhnSum n := by
  have h := luhnLoop_standard n.reverse (fun b hb => hd b (List.mem_reverse.mp hb)) 0 false 1
    (by simp)
  simp only [ValidateLuhn, standardLuhnSum, h, zero_add, beq_iff_eq]
  omega

/-- C26. For every non-empty string `n` of decimal digits, `ValidateLuhn(n)` is true if and
only if the standard Luhn sum of `n` is divisible by 10, where the sum takes the digits
from right to left, leaves the 1st, 3rd, 5th ... digit unchanged and replaces every 2nd,
4th ... digit `d` by `2d` if `2d <= 9` and by `2d - 9` otherwise. -/
theorem validateLuhn_standard (n : GoString) (_hne : n ≠ [])
    (hd : ∀ b ∈ n, isDecimalDigit b) :
    ValidateLuhn n = true ↔ 10 ∣ standardLuhnSum n :=
  validateLuhn_standard_aux n hd

/-- C26 (witness). The numbers `12345678903` and `2377225624` of the tests are valid and
`1234567890` is not: their standard Luhn sums are 50, 40 and 43. -/
theorem validateLuhn_standard_witness :
    (ValidateLuhn (str "12345678903") = true ↔ 10 ∣ standardLuhnSum (str "12345678903")) ∧
    standardLuhnSum (str "12345678903") = 50 ∧ ValidateLuhn (str "12345678903") = true ∧
    standardLuhnSum (str "2377225624") = 40 ∧ ValidateLuhn (str "2377225624") = true ∧
    standardLuhnSum (str "1234567890") = 43 ∧ ValidateLuhn (str "1234567890") = false :=
  ⟨validateLuhn_standard (str "12345678903") (by decide) (by decide!),
    by decide!, by decide!, by decide!, by decide!, by decide!, by decide!⟩

/-! ## The path of `Handler.GetAccrualInfo` -/

theorem getAccrualInfo_none_iff {σ : Type} (ParseInt : GoString → Int × Option GoError)
    (service : Accrual.Handler.Service σ) (path : GoString) (s : σ) :
    Accrual.Handler.GetAccrualInfo ParseInt service path s = none ↔
      (Accrual.stringsSplit 47 path).length = 3 := by
  rcases Nat.lt_trichotomy (Accrual.stringsSplit 47 path).length 3 with hlt | heq | hgt
  · have h : Accrual.Handler.GetAccrualInfo ParseInt service path s
        = some { status := 400, body := none } := by
      simp only [Accrual.Handler.GetAccrualInfo, hlt, if_true]
    rw [h]
    constructor
    · intro hh
      cases hh
    · intro hh
      omega
  · have hnone : (Accrual.stringsSplit 47 path).get? 3 = none :=
      List.get?_eq_none.mpr (by omega)
    have h : Accrual.Handler.GetAccrualInfo ParseInt service path s = none := by
      simp only [Accrual.Handler.GetAccrualInfo, heq, lt_irrefl, if_false, hnone]
    rw [h]
    exact ⟨fun _ => heq, fun _ => rfl⟩
  · obtain ⟨n, hn⟩ : ∃ n, (Accrual.stringsSplit 47 path).get? 3 = some n := by
      cases hget : (Accrual.stringsSplit 47 path).get? 3 with
      | none =>
        have := List.get?_eq_none.mp hget
        omega
      | some n => exact ⟨n, rfl⟩
    rw [getAccrualInfo_handler_aux ParseInt service path n s hn]
    constructor
    · intro hh
      exfalso
      revert hh
      split
      · intro hh; cases hh
      · split
        · intro hh; cases hh
        · split
          · intro hh; cases hh
          · split
            · intro hh; cases hh
            · intro hh; cases hh
    · intro hh
      omega

theorem routesToGetAccrualInfo_spec (path : GoString)
    (h : Accrual.routesToGetAccrualInfo path = true) :
    ∃ n : GoString, n ≠ [] ∧ (∀ b ∈ n, b ≠ 47) ∧ path = str "/api/orders/" ++ n := by
  simp only [Accrual.routesToGetAccrualInfo, Bool.and_eq_true, Bool.not_eq_true',
    List.isEmpty_eq_false, List.all_eq_true, bne_iff_ne, ne_eq] at h
  obtain ⟨⟨hpre, hne⟩, hall⟩ := h
  have hpre' : str "/api/orders/" <+: path := List.isPrefixOf_iff_prefix.mp hpre
  have hlen : (str "/api/orders/").length = 12 := by decide
  refine ⟨path.drop 12, hne, hall, ?_⟩
  have := List.prefix_iff_eq_append.mp hpre'
  rw [hlen] at this
  exact this.symm

/-- C27 (counterexample). The path `/api/orders` splits at `/` into the three parts the empty
string, `api` and `orders`; three is not less than 3, so the handler does not answer 400
and reads the part of index 3, which does not exist: the read is out of range (the model
returns `none` where the handler panics). The same holds for `/a/b`. With four parts, as
in `/api/orders/x`, the read is in range. The router does not hand these two paths to the
handler. -/
theorem getAccrualInfo_three_parts :
    Accrual.stringsSplit 47 (str "/api/orders") = [[], str "api", str "orders"] ∧
    Accrual.Handler.GetAccrualInfo strconvAtoi
        ({ CreateProductReward := fun _ _ _ s => (none, s)
           RegisterNewOrder := fun _ s => ((false, none), s)
           GetAccrualInfo := fun _ _ => ("PROCESSED", .finite 100.5, true, none) } :
          Accrual.Handler.Service Unit)
        (str "/api/orders") () = none ∧
    Accrual.Handler.GetAccrualInfo strconvAtoi
        ({ CreateProductReward := fun _ _ _ s => (none, s)
           RegisterNewOrder := fun _ s => ((false, none), s)
           GetAccrualInfo := fun _ _ => ("PROCESSED", .finite 100.5, true, none) } :
          Accrual.Handler.Service Unit)
        (str "/a/b") () = none ∧
    Accrual.Handler.GetAccrualInfo strconvAtoi
        ({ CreateProductReward := fun _ _ _ s => (none, s)
           RegisterNewOrder := fun _ s => ((false, none), s)
           GetAccrualInfo := fun _ _ => ("PROCESSED", .finite 100.5, true, none) } :
          Accrual.Handler.Service Unit)
        (str "/api/orders/x") () = some { status := 400, body := none } ∧
    Accrual.routesToGetAccrualInfo (str "/api/orders") = false ∧
    Accrual.routesToGetAccrualInfo (str "/a/b") = false := by
  refine ⟨by decide, by decide!, by decide!, by decide!, by decide!, by decide!⟩

/-- C27 (amended). For every request URL path that the router hands to the Accrual
`GetAccrualInfo` handler, the paths `/api/orders/{number}`, the path splits into four parts
and the handler's read of the part of index 3 is in bounds. As a function of the path, the
handler answers 400 before the read for every path that splits into fewer than three
parts, reads in bounds for every path that splits into four parts or more, and fails with
an index out of range exactly for the paths that split into three parts. -/
theorem getAccrualInfo_route_in_bounds {σ : Type} (ParseInt : GoString → Int × Option GoError)
    (service : Accrual.Handler.Service σ) (s : σ) :
    (∀ path : GoString, Accrual.routesToGetAccrualInfo path = true →
      (Accrual.stringsSplit 47 path).length = 4 ∧
      (Accrual.stringsSplit 47 path).get? 3 = some (path.drop 12) ∧
      Accrual.Handler.GetAccrualInfo ParseInt service path s ≠ none) ∧
    (∀ path : GoString, (Accrual.stringsSplit 47 path).length < 3 →
      Accrual.Handler.GetAccrualInfo ParseInt service path s
        = some { status := 400, body := none }) ∧
    (∀ path : GoString, 4 ≤ (Accrual.stringsSplit 47 path).length →
      ∃ n response, (Accrual.stringsSplit 47 path).get? 3 = some n ∧
        Accrual.Handler.GetAccrualInfo ParseInt service path s = some response) ∧
    (∀ path : GoString, Accrual.Handler.GetAccrualInfo ParseInt service path s = none ↔
      (Accrual.stringsSplit 47 path).length = 3) := by
  refine ⟨?_, ?_, ?_, ?_⟩
  · intro path hroute
    obtain ⟨n, _, hn, hpath⟩ := routesToGetAccrualInfo_spec path hroute
    have hsplit := stringsSplit_orders_path n hn
    have hdrop : path.drop 12 = n := by
      rw [hpath]
      have hlen : (str "/api/orders/").length = 12 := by decide
      rw [← hlen, List.drop_left]
    rw [hdrop, hpath, hsplit]
    refine ⟨rfl, rfl, ?_⟩
    intro hnone
    have := (getAccrualInfo_none_iff ParseInt service (str "/api/orders/" ++ n) s).mp hnone
    rw [hsplit] at this
    cases this
  · intro path hlt
    simp only [Accrual.Handler.GetAccrualInfo, hlt, if_true]
  · intro path hge
    obtain ⟨n, hn⟩ : ∃ n, (Accrual.stringsSplit 47 path).get? 3 = some n := by
      cases hget : (Accrual.stringsSplit 47 path).get? 3 with
      | none =>
        have := List.get?_eq_none.mp hget
        omega
      | some n => exact ⟨n, rfl⟩
    cases hres : Accrual.Handler.GetAccrualInfo ParseInt service path s with
    | none =>
      have := (getAccrualInfo_none_iff ParseInt service path s).mp hres
      omega
    | some response => exact ⟨n, response, hn, rfl⟩
  · intro path
    exact getAccrualInfo_none_iff ParseInt service path s

/-! ## `PostgresErrorClassifier.Classify` -/

theorem errorsAsPgError_iff (e : StoreError) (code : GoString) :
    errorsAsPgError e = some code ↔ e.isOrWraps code := by
  induction e with
  | pgError c =>
    simp only [errorsAsPgError, Option.some.injEq]
    constructor
    · intro h; subst h; exact .self c
    · intro h; cases h; rfl
  | plain t =>
    simp only [errorsAsPgError]
    constructor
    · intro h; cases h
    · intro h; cases h
  | wrap pre err ih =>
    simp only [errorsAsPgError, ih]
    constructor
    · intro h; exact .wrap pre err code h
    · intro h; cases h; assumption

theorem stringsHasPrefix_iff (s p : GoString) :
    stringsHasPrefix s p = true ↔ ∃ rest, s = p ++ rest := by
  induction p generalizing s with
  | nil => cases s <;> simp [stringsHasPrefix]
  | cons c p ih =>
    cases s with
    | nil => simp [stringsHasPrefix]
    | cons b s =>
      simp only [stringsHasPrefix, Bool.and_eq_true, beq_iff_eq, ih, List.cons_append,
        List.cons.injEq]
      constructor
      · rintro ⟨hb, rest, hs⟩; exact ⟨rest, hb, hs⟩
      · rintro ⟨rest, hb, hs⟩; exact ⟨hb, rest, hs⟩

theorem classifyPostgresError_iff (code : GoString) :
    PostgresErrorClassifier.classifyPostgresError code = .Retriable ↔
      specRetriableCode code := by
  unfold PostgresErrorClassifier.classifyPostgresError specRetriableCode
  by_cases hp : stringsHasPrefix code (str "08") = true
  · simp only [hp, if_true, true_iff]
    exact Or.inl ((stringsHasPrefix_iff _ _).mp hp)
  · have hn : ¬ ∃ rest, code = str "08" ++ rest := fun h => hp ((stringsHasPrefix_iff _ _).mpr h)
    simp only [hp, Bool.false_eq_true, if_false, hn, false_or, pgerrcode.SerializationFailure,
      pgerrcode.DeadlockDetected, pgerrcode.AdminShutdown, pgerrcode.CrashShutdown,
      pgerrcode.CannotConnectNow]
    split_ifs with h
    · simp [h]
    · simp [h]

theorem classify_retriable_aux (e : Option StoreError) :
    PostgresErrorClassifier.Classify e = .Retriable ↔
      ∃ err code, e = some err ∧ err.isOrWraps code ∧ specRetriableCode code := by
  cases e with
  | none => simp [PostgresErrorClassifier.Classify]
  | some err =>
    simp only [PostgresErrorClassifier.Classify, Option.some.injEq, exists_and_left,
      exists_eq_left']
    cases h : errorsAsPgError err with
    | none =>
      simp only [false_iff, not_exists, not_and, reduceCtorEq]
      intro code hw
      rw [← errorsAsPgError_iff, h] at hw
      cases hw
    | some c =>
      simp only [classifyPostgresError_iff]
      constructor
      · intro hc; exact ⟨c, (errorsAsPgError_iff _ _).mp h, hc⟩
      · rintro ⟨code, hw, hc⟩
        rw [← errorsAsPgError_iff, h] at hw
        cases hw
        exact hc

/-- C24. For every error `e` (an optional chain of errors, `none` being nil),
`Classify(e) = Retriable` if and only if `e` is, or wraps, a Postgres error whose code
starts with `08` or is one of 40001, 40P01, 57P01, 57P02, 57P03; every other value is
`NonRetriable`, in particular nil, every error that is not and does not wrap a Postgres
error, and every Postgres error with another code. -/
theorem classify_retriable_iff (e : Option StoreError) :
    (PostgresErrorClassifier.Classify e = .Retriable ↔
      ∃ err code, e = some err ∧ err.isOrWraps code ∧ specRetriableCode code) ∧
    (PostgresErrorClassifier.Classify e = .NonRetriable ↔
      ¬ ∃ err code, e = some err ∧ err.isOrWraps code ∧ specRetriableCode code) ∧
    PostgresErrorClassifier.Classify none = .NonRetriable ∧
    (∀ text, PostgresErrorClassifier.Classify (some (.plain text)) = .NonRetriable) ∧
    (∀ code, ¬ specRetriableCode code →
      PostgresErrorClassifier.Classify (some (.pgError code)) = .NonRetriable) ∧
    PostgresErrorClassifier.Classify (some (.wrap "wrapper: " (.pgError (str "40001"))))
      = .Retriable ∧
    PostgresErrorClassifier.Classify (some (.pgError (str "08000"))) = .Retriable ∧
    PostgresErrorClassifier.Classify (some (.pgError (str "23505"))) = .NonRetriable := by
  have h := classify_retriable_aux e
  refine ⟨h, ?_, rfl, fun _ => rfl, ?_, by decide, by decide, by decide⟩
  · rw [← h]
    cases PostgresErrorClassifier.Classify e <;> simp
  · intro code hc
    have h2 := classify_retriable_aux (some (.pgError code))
    cases hcl : PostgresErrorClassifier.Classify (some (.pgError code)) with
    | NonRetriable => rfl
    | Retriable =>
      obtain ⟨err, c, he, hw, hs⟩ := h2.mp hcl
      cases he
      cases hw
      exact absurd hs hc

/-! ## `PostgresStorage.CreateUser` and `HashPassword` -/

theorem createUser_cases (Sum256 EncodeToString : GoString → GoString)
    (faults : CreateUserFaults) (users : List User) (id : Int) (now : Nat)
    (login password : GoString) :
    (∃ err, PostgresStorage.CreateUser Sum256 EncodeToString faults users id now login password
      = (.error err, users)) ∨
    PostgresStorage.CreateUser Sum256 EncodeToString faults users id now login password
      = (.ok { ID := id, Login := login,
               PasswordHash := HashPassword Sum256 EncodeToString password, CreatedAt := now },
          users ++ [{ ID := id, Login := login,
                      PasswordHash := HashPassword Sum256 EncodeToString password,
                      CreatedAt := now }]) := by
  unfold PostgresStorage.CreateUser
  cases PostgresStorage.GetUserByLogin faults.getUserByLogin users login with
  | error err => exact Or.inl ⟨_, rfl⟩
  | ok found =>
    cases found with
    | some u => exact Or.inl ⟨_, rfl⟩
    | none =>
      cases hi : faults.insert with
      | some err => exact Or.inl ⟨.wrap "failed to create user: " err, by simp [hi]⟩
      | none => exact Or.inr (by simp [hi])

/-- C25 (counterexample). There are no two successful registrations with the same password,
for any logins, states of table `users`, ids and times, whose stored `password_hash` values
differ: the stored value is forced by the password. -/
theorem createUser_same_password_same_hash :
    ¬ ∃ (Sum256 EncodeToString : GoString → GoString) (faults1 faults2 : CreateUserFaults)
        (users1 users2 : List User) (id1 id2 : Int) (now1 now2 : Nat)
        (login1 login2 password : GoString) (u1 u2 : User),
      (PostgresStorage.CreateUser Sum256 EncodeToString faults1 users1 id1 now1 login1
        password).1 = .ok u1 ∧
      (PostgresStorage.CreateUser Sum256 EncodeToString faults2 users2 id2 now2 login2
        password).1 = .ok u2 ∧
      u1.PasswordHash ≠ u2.PasswordHash := by
  rintro ⟨sha, enc, f1, f2, users1, users2, id1, id2, now1, now2, login1, login2, password,
    u1, u2, h1, h2, hne⟩
  apply hne
  rcases createUser_cases sha enc f1 users1 id1 now1 login1 password with ⟨e, he⟩ | hok
  · rw [he] at h1; cases h1
  · rcases createUser_cases sha enc f2 users2 id2 now2 login2 password with ⟨e, he⟩ | hok2
    · rw [he] at h2; cases h2
    · rw [hok] at h1
      rw [hok2] at h2
      cases h1
      cases h2
      rfl

/-- C25 (amended). The credential verifier stored for a user is a hash of the password
alone: a call of `CreateUser` either fails and leaves table `users` as it was, or stores one
new row whose `password_hash` is `HashPassword(password)`, the hex encoding of the SHA-256
digest of the password, in which neither the login nor any salt takes part. -/
theorem createUser_password_hash (Sum256 EncodeToString : GoString → GoString)
    (faults : CreateUserFaults) (users : List User) (id : Int) (now : Nat)
    (login password : GoString) :
    ((∃ err, PostgresStorage.CreateUser Sum256 EncodeToString faults users id now login password
      = (.error err, users)) ∨
    PostgresStorage.CreateUser Sum256 EncodeToString faults users id now login password
      = (.ok { ID := id, Login := login,
               PasswordHash := EncodeToString (Sum256 password), CreatedAt := now },
          users ++ [{ ID := id, Login := login,
                      PasswordHash := EncodeToString (Sum256 password),
                      CreatedAt := now }])) ∧
    (faults.getUserByLogin = none → faults.insert = none →
      (∀ u ∈ users, u.Login ≠ login) →
      PostgresStorage.CreateUser Sum256 EncodeToString faults users id now login password
        = (.ok { ID := id, Login := login,
                 PasswordHash := EncodeToString (Sum256 password), CreatedAt := now },
            users ++ [{ ID := id, Login := login,
                        PasswordHash := EncodeToString (Sum256 password),
                        CreatedAt := now }])) := by
  refine ⟨createUser_cases Sum256 EncodeToString faults users id now login password, ?_⟩
  intro h1 h2 hnew
  have hfind : users.find? (fun u => decide (u.Login = login)) = none := by
    rw [List.find?_eq_none]
    intro u hu
    simpa using hnew u hu
  simp [PostgresStorage.CreateUser, PostgresStorage.GetUserByLogin, h1, h2, hfind,
    HashPassword]

/-! ## The backoff of the Accrual client -/

theorem wrapInt64_of_fits (x : Int) (h1 : -(2 ^ 63 : Int) ≤ x) (h2 : x < 2 ^ 63) :
    wrapInt64 x = x := by
  unfold wrapInt64
  omega

theorem strconvAtoi_invalid_zero (s : GoString)
    (h : (strconvAtoi s).2 = some (.other "strconv.Atoi: invalid syntax")) :
    (strconvAtoi s).1 = 0 := by
  unfold strconvAtoi at h ⊢
  dsimp only at h ⊢
  split_ifs at h ⊢ <;> first
    | rfl
    | (split
       · rfl
       · rename_i n hn
         rw [hn] at h
         dsimp only at h
         split_ifs at h
         simp at h)

/-- C21 (counterexample). An answer 429 whose header `Retry-After` is `0`: the header is
present and parses as the integer 0, and the client sleeps 60 seconds, not 0. -/
theorem queryAccrualService_retry_after_zero :
    strconvAtoi (str "0") = (0, none) ∧
    OrderListener.queryAccrualService strconvAtoi
        (.ok { StatusCode := 429, RetryAfter := some (str "0"),
               Body := .error (.other "EOF") })
      = (.failed (.other "rate limit"), [60 * 1000000000]) := by
  refine ⟨by decide, by decide!⟩

/-- C21 (amended). For every 429 response from Accrual, the client sleeps once and then
reports the transient error `rate limit`, never a result. With `v` the value that
`strconv.Atoi` returns for the header `Retry-After`, the sleep is `v` seconds when `v` is
not zero (and `v` seconds fit the nanosecond count of a duration) and 60 seconds when `v`
is zero; `v` is zero when the header is absent and when it is not a decimal integer, and
it is the integer value of the header when the header parses. -/
theorem queryAccrualService_backoff (Atoi : GoString → Int × Option GoError)
    (reply : AccrualReply) (h429 : reply.StatusCode = 429) :
    (OrderListener.queryAccrualService Atoi (.ok reply)).1 = .failed (.other "rate limit") ∧
    (OrderListener.queryAccrualService Atoi (.ok reply)).2
      = [wrapInt64 ((if (Atoi (headerGet reply.RetryAfter)).1 = 0 then 60
          else (Atoi (headerGet reply.RetryAfter)).1) * timeSecond)] ∧
    ((Atoi (headerGet reply.RetryAfter)).1 ≠ 0 →
      -9223372036 ≤ (Atoi (headerGet reply.RetryAfter)).1 →
      (Atoi (headerGet reply.RetryAfter)).1 ≤ 9223372036 →
      (OrderListener.queryAccrualService Atoi (.ok reply)).2
        = [(Atoi (headerGet reply.RetryAfter)).1 * 1000000000]) ∧
    ((Atoi (headerGet reply.RetryAfter)).1 = 0 →
      (OrderListener.queryAccrualService Atoi (.ok reply)).2 = [60 * 1000000000]) ∧
    (strconvAtoi (headerGet none)).1 = 0 ∧
    (∀ s, (strconvAtoi s).2 = some (.other "strconv.Atoi: invalid syntax") →
      (strconvAtoi s).1 = 0) := by
  have hr : OrderListener.queryAccrualService Atoi (.ok reply)
      = (.failed (.other "rate limit"),
          [wrapInt64 ((if (Atoi (headerGet reply.RetryAfter)).1 = 0 then 60
            else (Atoi (headerGet reply.RetryAfter)).1) * timeSecond)]) := by
    simp [OrderListener.queryAccrualService, h429]
  refine ⟨by rw [hr], by rw [hr], ?_, ?_, by decide, strconvAtoi_invalid_zero⟩
  · intro hne hlo hhi
    rw [hr]
    simp only [hne, if_false, timeSecond]
    rw [wrapInt64_of_fits _ (by omega) (by omega)]
  · intro hz
    rw [hr]
    simp only [hz, if_true, timeSecond]
    rw [wrapInt64_of_fits _ (by norm_num) (by norm_num)]

/-- C21 (witness). An answer 429 with `Retry-After: 5`: one sleep of 5 seconds, then the
error `rate limit`; without the header, one sleep of 60 seconds. -/
theorem queryAccrualService_backoff_witness :
    OrderListener.queryAccrualService strconvAtoi
        (.ok { StatusCode := 429, RetryAfter := some (str "5"),
               Body := .error (.other "EOF") })
      = (.failed (.other "rate limit"), [5 * 1000000000]) ∧
    OrderListener.queryAccrualService strconvAtoi
        (.ok { StatusCode := 429, RetryAfter := none, Body := .error (.other "EOF") })
      = (.failed (.other "rate limit"), [60 * 1000000000]) := by
  have h5 : (strconvAtoi (headerGet (some (str "5")))).1 = 5 := by decide
  have h := queryAccrualService_backoff strconvAtoi
    { StatusCode := 429, RetryAfter := some (str "5"), Body := .error (.other "EOF") } rfl
  have h0 := queryAccrualService_backoff strconvAtoi
    { StatusCode := 429, RetryAfter := none, Body := .error (.other "EOF") } rfl
  refine ⟨Prod.ext h.1 ?_, Prod.ext h0.1 ?_⟩
  · have := h.2.2.1 (by rw [h5]; decide) (by rw [h5]; decide) (by rw [h5]; decide)
    rw [this, h5]
  · exact h0.2.2.2.1 (by decide)

/-! ## `Encrypt` and `decrypt` -/

theorem decrypt_encrypt_aux {Block : Type} (lib : CryptoLibrary Block)
    (rand : Nat → Except GoError GoString)
    (hgcm : ∀ block gcm, lib.NewGCM block = .ok gcm → ∀ nonce text : GoString,
      nonce.length = gcm.NonceSize → gcm.Open nonce (gcm.Seal nonce text) = .ok text)
    (hbase64 : ∀ data, lib.DecodeString (lib.EncodeToString data) = .ok data)
    (hrand : ∀ n nonce, rand n = .ok nonce → nonce.length = n)
    (s c : GoString) (henc : Encrypt lib rand s = .ok c) : decrypt lib c = .ok s := by
  unfold Encrypt at henc
  unfold decrypt
  cases hblock : lib.NewCipher encryptionKey with
  | error err => rw [hblock] at henc; cases henc
  | ok block =>
    rw [hblock] at henc
    dsimp only at henc
    cases hg : lib.NewGCM block with
    | error err => rw [hg] at henc; cases henc
    | ok gcm =>
      rw [hg] at henc
      dsimp only at henc
      cases hr : rand gcm.NonceSize with
      | error err => rw [hr] at henc; cases henc
      | ok nonce =>
        rw [hr] at henc
        dsimp only at henc
        have hlen := hrand _ _ hr
        have hc : c = lib.EncodeToString (nonce ++ gcm.Seal nonce s) := by
          cases henc; rfl
        rw [hc, hbase64]
        dsimp only
        rw [hg]
        dsimp only
        have hnot : ¬ (nonce ++ gcm.Seal nonce s).length < gcm.NonceSize := by
          rw [List.length_append, hlen]; omega
        rw [if_neg hnot, ← hlen, List.take_left, List.drop_left,
          hgcm block gcm hg nonce s hlen]

/-- C22. For every user-id string `s` and every nonce that `rand.Read` draws: whenever
`Encrypt(s)` succeeds with value `c`, `decrypt(c)` succeeds and returns `s`; and `Encrypt(s)`
succeeds whenever `aes.NewCipher`, `cipher.NewGCM` and `rand.Read` do. The library functions
are taken with their contracts: `Open` undoes `Seal` under the same nonce of `NonceSize`
bytes, `DecodeString` undoes `EncodeToString`, and `rand.Read` fills the whole slice. -/
theorem decrypt_encrypt {Block : Type} (lib : CryptoLibrary Block)
    (rand : Nat → Except GoError GoString)
    (hgcm : ∀ block gcm, lib.NewGCM block = .ok gcm → ∀ nonce text : GoString,
      nonce.length = gcm.NonceSize → gcm.Open nonce (gcm.Seal nonce text) = .ok text)
    (hbase64 : ∀ data, lib.DecodeString (lib.EncodeToString data) = .ok data)
    (hrand : ∀ n nonce, rand n = .ok nonce → nonce.length = n) (s : GoString) :
    (∀ c, Encrypt lib rand s = .ok c → decrypt lib c = .ok s) ∧
    (∀ block gcm nonce, lib.NewCipher encryptionKey = .ok block → lib.NewGCM block = .ok gcm →
      rand gcm.NonceSize = .ok nonce →
      Encrypt lib rand s = .ok (lib.EncodeToString (nonce ++ gcm.Seal nonce s))) ∧
    encryptionKey.length = 32 := by
  refine ⟨fun c henc => decrypt_encrypt_aux lib rand hgcm hbase64 hrand s c henc, ?_,
    by decide⟩
  intro block gcm nonce hb hg hr
  simp [Encrypt, hb, hg, hr]

/-- C22 (witness). The user id `123` of the middleware test, under a nonce of twelve bytes 7:
the value of the cookie decrypts to `123`. -/
theorem decrypt_encrypt_witness :
    Encrypt plainLibrary (fun n => .ok (List.replicate n 7)) (str "123")
      = .ok (List.replicate 12 7 ++ str "123") ∧
    decrypt plainLibrary (List.replicate 12 7 ++ str "123") = .ok (str "123") := by
  have h := decrypt_encrypt plainLibrary (fun n => .ok (List.replicate n 7))
    (fun block gcm hg nonce text _ => by cases hg; rfl) (fun _ => rfl)
    (fun n nonce hn => by cases hn; simp) (str "123")
  have henc : Encrypt plainLibrary (fun n => .ok (List.replicate n 7)) (str "123")
      = .ok (List.replicate 12 7 ++ str "123") := rfl
  exact ⟨henc, h.1 _ henc⟩

/-! ## The middleware `AccessCookieMiddleware` -/

theorem accessCookie_cases {Block : Type} (lib : CryptoLibrary Block)
    (Atoi : GoString → Int × Option GoError)
    (repoGetUserByID : Int → Except GoError (Option User)) (now : Int)
    (cookie : Except GoError Cookie) :
    (∃ text, AccessCookieMiddleware lib Atoi repoGetUserByID now cookie
        = .rejected (httpError text 401) ∧
      ¬ ∃ c s u, cookie = .ok c ∧ (∀ t, c.Expires = some t → ¬ t < now) ∧
        decrypt lib c.Value = .ok s ∧ (Atoi s).2 = none ∧
        GofemartService.GetUserByID repoGetUserByID (Atoi s).1 = .ok (some u)) ∨
    (∃ c s u, cookie = .ok c ∧ (∀ t, c.Expires = some t → ¬ t < now) ∧
      decrypt lib c.Value = .ok s ∧ (Atoi s).2 = none ∧
      GofemartService.GetUserByID repoGetUserByID (Atoi s).1 = .ok (some u) ∧
      AccessCookieMiddleware lib Atoi repoGetUserByID now cookie = .next s) := by
  cases cookie with
  | error err =>
    left
    refine ⟨_, rfl, ?_⟩
    rintro ⟨c, s, u, hc, _⟩
    cases hc
  | ok c =>
    by_cases hexp : (match c.Expires with
        | some expires => decide (expires < now)
        | none => false) = true
    · left
      refine ⟨"cookie expired", by simp only [AccessCookieMiddleware, hexp, if_true], ?_⟩
      rintro ⟨c', s, u, hc, he, _⟩
      cases hc
      cases hx : c.Expires with
      | none => rw [hx] at hexp; simp at hexp
      | some t =>
        rw [hx] at hexp
        exact he t hx (by simpa using hexp)
    · have hfresh : ∀ t, c.Expires = some t → ¬ t < now := by
        intro t ht hlt
        apply hexp
        rw [ht]
        simpa using hlt
      cases hd : decrypt lib c.Value with
      | error err =>
        left
        refine ⟨"invalid authentication cookie",
          by simp only [AccessCookieMiddleware, hexp, hd]; rfl, ?_⟩
        rintro ⟨c', s, u, hc, _, hd', _⟩
        cases hc
        rw [hd] at hd'
        cases hd'
      | ok s =>
        cases ha : (Atoi s).2 with
        | some err =>
          left
          refine ⟨"invalid user ID in cookie",
            by simp only [AccessCookieMiddleware, hexp, hd, ha]; rfl, ?_⟩
          rintro ⟨c', s', u, hc, _, hd', ha', _⟩
          cases hc
          rw [hd] at hd'
          cases hd'
          rw [ha] at ha'
          cases ha'
        | none =>
          cases hu : GofemartService.GetUserByID repoGetUserByID (Atoi s).1 with
          | error err =>
            left
            refine ⟨"user not found",
              by simp only [AccessCookieMiddleware, hexp, hd, ha, hu]; rfl, ?_⟩
            rintro ⟨c', s', u, hc, _, hd', _, hu'⟩
            cases hc
            rw [hd] at hd'
            cases hd'
            rw [hu] at hu'
            cases hu'
          | ok found =>
            cases found with
            | none =>
              left
              refine ⟨"user not found",
                by simp only [AccessCookieMiddleware, hexp, hd, ha, hu]; rfl, ?_⟩
              rintro ⟨c', s', u, hc, _, hd', _, hu'⟩
              cases hc
              rw [hd] at hd'
              cases hd'
              rw [hu] at hu'
              cases hu'
            | some u =>
              right
              exact ⟨c, s, u, rfl, hfresh, hd, ha, hu,
                by simp only [AccessCookieMiddleware, hexp, hd, ha, hu]; rfl⟩

theorem getUserByID_some_iff (repoGetUserByID : Int → Except GoError (Option User))
    (userID : Int) (u : User) :
    GofemartService.GetUserByID repoGetUserByID userID = .ok (some u) ↔
      0 < userID ∧ repoGetUserByID userID = .ok (some u) := by
  unfold GofemartService.GetUserByID
  by_cases h : userID ≤ 0
  · simp only [h, if_true]
    constructor
    · intro hc; cases hc
    · rintro ⟨hpos, _⟩; omega
  · simp only [h, if_false]
    constructor
    · intro hc; exact ⟨by omega, hc⟩
    · rintro ⟨_, hc⟩; exact hc

/-- C23. For every request (whose cookie, read from the header `Cookie`, carries no expiry
time), the auth middleware invokes the wrapped handler if and only if the request carries
a `userID` cookie whose value decrypts successfully, the plaintext parses as an integer,
and `GetUserByID` for that integer returns a non-nil user without error (which it does
exactly when the integer is positive and the repository returns such a user); in that case
it places the decrypted id string in the request context, and in every other case it
responds 401 and does not invoke the wrapped handler. -/
theorem accessCookie_middleware {Block : Type} (lib : CryptoLibrary Block)
    (Atoi : GoString → Int × Option GoError)
    (repoGetUserByID : Int → Except GoError (Option User)) (now : Int)
    (cookie : Except GoError Cookie) (hreq : ∀ c, cookie = .ok c → c.Expires = none) :
    ((∃ id, AccessCookieMiddleware lib Atoi repoGetUserByID now cookie = .next id) ↔
      ∃ c s u, cookie = .ok c ∧ decrypt lib c.Value = .ok s ∧ (Atoi s).2 = none ∧
        GofemartService.GetUserByID repoGetUserByID (Atoi s).1 = .ok (some u)) ∧
    (∀ id, AccessCookieMiddleware lib Atoi repoGetUserByID now cookie = .next id →
      ∃ c, cookie = .ok c ∧ decrypt lib c.Value = .ok id) ∧
    ((¬ ∃ c s u, cookie = .ok c ∧ decrypt lib c.Value = .ok s ∧ (Atoi s).2 = none ∧
        GofemartService.GetUserByID repoGetUserByID (Atoi s).1 = .ok (some u)) →
      ∃ text, AccessCookieMiddleware lib Atoi repoGetUserByID now cookie
        = .rejected (httpError text 401)) ∧
    (∀ n u, GofemartService.GetUserByID repoGetUserByID n = .ok (some u) ↔
      0 < n ∧ repoGetUserByID n = .ok (some u)) := by
  have hcases := accessCookie_cases lib Atoi repoGetUserByID now cookie
  have hdrop : (∃ c s u, cookie = .ok c ∧ (∀ t, c.Expires = some t → ¬ t < now) ∧
        decrypt lib c.Value = .ok s ∧ (Atoi s).2 = none ∧
        GofemartService.GetUserByID repoGetUserByID (Atoi s).1 = .ok (some u)) ↔
      ∃ c s u, cookie = .ok c ∧ decrypt lib c.Value = .ok s ∧ (Atoi s).2 = none ∧
        GofemartService.GetUserByID repoGetUserByID (Atoi s).1 = .ok (some u) := by
    constructor
    · rintro ⟨c, s, u, hc, _, hd, ha, hu⟩
      exact ⟨c, s, u, hc, hd, ha, hu⟩
    · rintro ⟨c, s, u, hc, hd, ha, hu⟩
      refine ⟨c, s, u, hc, ?_, hd, ha, hu⟩
      intro t ht
      rw [hreq c hc] at ht
      cases ht
  rw [hdrop] at hcases
  refine ⟨?_, ?_, ?_, getUserByID_some_iff repoGetUserByID⟩
  · constructor
    · rintro ⟨id, hid⟩
      rcases hcases with ⟨text, hrej, _⟩ | ⟨c, s, u, hc, _, hd, ha, hu, _⟩
      · rw [hrej] at hid; cases hid
      · exact ⟨c, s, u, hc, hd, ha, hu⟩
    · intro hex
      rcases hcases with ⟨text, _, hno⟩ | ⟨c, s, u, _, _, _, _, _, hnext⟩
      · exact absurd hex hno
      · exact ⟨s, hnext⟩
  · intro id hid
    rcases hcases with ⟨text, hrej, _⟩ | ⟨c, s, u, hc, _, hd, _, _, hnext⟩
    · rw [hrej] at hid; cases hid
    · rw [hnext] at hid
      cases hid
      exact ⟨c, hc, hd⟩
  · intro hno
    rcases hcases with ⟨text, hrej, _⟩ | ⟨c, s, u, hc, _, hd, ha, hu, _⟩
    · exact ⟨text, hrej⟩
    · exact absurd ⟨c, s, u, hc, hd, ha, hu⟩ hno

/-- C23 (witness). The tests `Success`, `UserNotFound` and `NoCookie`: with the cookie of
user `123`, whom the repository knows, the wrapped handler is invoked with `123` in the
context; with the cookie of user `999`, for whom the repository returns `(nil, nil)`, and
without a cookie, the answer is 401. -/
theorem accessCookie_middleware_witness :
    (∃ id, AccessCookieMiddleware plainLibrary strconvAtoi
        (fun n => if n = 123 then
          .ok (some { ID := 123, Login := str "testuser", PasswordHash := [], CreatedAt := 0 })
          else .ok none) 0
        (.ok { Value := List.replicate 12 7 ++ str "123", Expires := none }) = .next id) ∧
    AccessCookieMiddleware plainLibrary strconvAtoi
        (fun n => if n = 123 then
          .ok (some { ID := 123, Login := str "testuser", PasswordHash := [], CreatedAt := 0 })
          else .ok none) 0
        (.ok { Value := List.replicate 12 7 ++ str "123", Expires := none })
      = .next (str "123") ∧
    AccessCookieMiddleware plainLibrary strconvAtoi
        (fun n => if n = 123 then
          .ok (some { ID := 123, Login := str "testuser", PasswordHash := [], CreatedAt := 0 })
          else .ok none) 0
        (.ok { Value := List.replicate 12 7 ++ str "999", Expires := none })
      = .rejected (httpError "user not found" 401) ∧
    AccessCookieMiddleware plainLibrary strconvAtoi
        (fun n => if n = 123 then
          .ok (some { ID := 123, Login := str "testuser", PasswordHash := [], CreatedAt := 0 })
          else .ok none) 0
        (.error (.other "http: named cookie not present"))
      = .rejected (httpError "authentication required" 401) :=
  ⟨(accessCookie_middleware plainLibrary strconvAtoi
      (fun n => if n = 123 then
        .ok (some { ID := 123, Login := str "testuser", PasswordHash := [], CreatedAt := 0 })
        else .ok none) 0
      (.ok { Value := List.replicate 12 7 ++ str "123", Expires := none })
      (fun c hc => by cases hc; rfl)).1.mpr
      ⟨{ Value := List.replicate 12 7 ++ str "123", Expires := none }, str "123",
        { ID := 123, Login := str "testuser", PasswordHash := [], CreatedAt := 0 },
        rfl, rfl, by decide, by rfl⟩,
    by decide!, by decide!, by decide!⟩

/-! ## The invariant of the rate limiter -/

theorem limitStep_counter (maxRequests timeout : Int) (limiter : Accrual.Limiter)
    (now resetTime : Int) (a b : GoString) :
    (Accrual.LimitRequestsMiddleware maxRequests timeout limiter now resetTime a).1.requests b
      = (if now - limiter.lastReset > timeout then 0 else limiter.requests b)
        + (if (decide ((Accrual.LimitRequestsMiddleware maxRequests timeout limiter now
              resetTime a).2 = Accrual.LimitOutcome.passed) && decide (a = b)) = true
            then 1 else 0) ∧
    ((Accrual.LimitRequestsMiddleware maxRequests timeout limiter now resetTime a).2
        = Accrual.LimitOutcome.passed →
      (if now - limiter.lastReset > timeout then 0 else limiter.requests a) < maxRequests) := by
  unfold Accrual.LimitRequestsMiddleware
  by_cases hexp : now - limiter.lastReset > timeout
  · simp only [hexp, if_true]
    by_cases hlim : (0 : Int) ≥ maxRequests
    · simp [hlim, httpError]
    · simp only [hlim, if_false, decide_True, Bool.true_and, decide_eq_true_eq]
      refine ⟨?_, fun _ => by omega⟩
      by_cases hab : a = b
      · subst hab; simp
      · simp [hab, Function.update_noteq (Ne.symm hab)]
  · simp only [hexp, if_false]
    by_cases hlim : limiter.requests a ≥ maxRequests
    · simp [hlim, httpError]
    · simp only [hlim, if_false, decide_True, Bool.true_and, decide_eq_true_eq]
      refine ⟨?_, fun _ => by omega⟩
      by_cases hab : a = b
      · subst hab; simp
      · simp [hab, Function.update_noteq (Ne.symm hab)]

theorem serveRequests_append (maxRequests timeout : Int) (pre post : List Accrual.LimitedRequest) :
    ∀ limiter : Accrual.Limiter,
      Accrual.serveRequests maxRequests timeout limiter (pre ++ post)
        = ((Accrual.serveRequests maxRequests timeout
              (Accrual.serveRequests maxRequests timeout limiter pre).1 post).1,
            (Accrual.serveRequests maxRequests timeout limiter pre).2 ++
              (Accrual.serveRequests maxRequests timeout
                (Accrual.serveRequests maxRequests timeout limiter pre).1 post).2) := by
  induction pre with
  | nil => intro limiter; simp [Accrual.serveRequests]
  | cons r rest ih =>
    intro limiter
    rw [List.cons_append]
    simp only [Accrual.serveRequests]
    rw [ih]
    rfl

theorem serveRequests_bounds (maxRequests timeout : Int) (hmax : 0 ≤ maxRequests)
    (reqs : List Accrual.LimitedRequest) :
    ∀ limiter : Accrual.Limiter,
      (∀ b, 0 ≤ limiter.requests b ∧ limiter.requests b ≤ maxRequests) →
      ∀ b, 0 ≤ (Accrual.serveRequests maxRequests timeout limiter reqs).1.requests b ∧
        (Accrual.serveRequests maxRequests timeout limiter reqs).1.requests b ≤ maxRequests := by
  induction reqs with
  | nil => intro limiter h; simpa [Accrual.serveRequests] using h
  | cons r rest ih =>
    intro limiter h
    simp only [Accrual.serveRequests]
    apply ih
    intro b
    obtain ⟨hc, _⟩ := limitStep_counter maxRequests timeout limiter r.now r.resetTime r.ip b
    obtain ⟨_, hp⟩ := limitStep_counter maxRequests timeout limiter r.now r.resetTime r.ip r.ip
    rw [hc]
    have hb := h b
    have ha := h r.ip
    by_cases hpass : (Accrual.LimitRequestsMiddleware maxRequests timeout limiter r.now
        r.resetTime r.ip).2 = Accrual.LimitOutcome.passed
    · have hlt := hp hpass
      by_cases hab : r.ip = b
      · subst hab
        simp only [hpass, decide_True, Bool.and_self, if_true]
        split_ifs at hlt ⊢ <;> omega
      · simp only [hab, decide_False, Bool.and_false, Bool.false_eq_true, if_false, add_zero]
        split_ifs <;> omega
    · simp only [hpass, decide_False, Bool.false_and, Bool.false_eq_true, if_false, add_zero]
      split_ifs <;> omega

theorem serveRequests_no_reset (maxRequests timeout : Int) (ip : GoString)
    (reqs : List Accrual.LimitedRequest) :
    ∀ limiter : Accrual.Limiter,
      (∀ st ∈ (Accrual.serveRequests maxRequests timeout limiter reqs).2, st.reset = false) →
      (Accrual.serveRequests maxRequests timeout limiter reqs).1.requests ip
        = limiter.requests ip
          + (Accrual.passedFrom ip (Accrual.serveRequests maxRequests timeout limiter reqs).2 :
              Nat) := by
  induction reqs with
  | nil => intro limiter _; simp [Accrual.serveRequests, Accrual.passedFrom]
  | cons r rest ih =>
    intro limiter h
    simp only [Accrual.serveRequests, List.mem_cons, forall_eq_or_imp] at h ⊢
    obtain ⟨h0, hrest⟩ := h
    have hnr : ¬ r.now - limiter.lastReset > timeout := by simpa using h0
    rw [ih _ hrest, (limitStep_counter maxRequests timeout limiter r.now r.resetTime r.ip ip).1]
    simp only [hnr, if_false, Accrual.passedFrom, List.countP_cons]
    push_cast
    split_ifs <;> omega

theorem serveRequests_segment (maxRequests timeout : Int) (hmax : 0 ≤ maxRequests)
    (ip : GoString) (seg : List Accrual.LimitedRequest) (limiter : Accrual.Limiter)
    (hinv : ∀ b, 0 ≤ limiter.requests b ∧ limiter.requests b ≤ maxRequests)
    (hseg : ∀ st ∈ (Accrual.serveRequests maxRequests timeout limiter seg).2.tail,
      st.reset = false) :
    (Accrual.passedFrom ip (Accrual.serveRequests maxRequests timeout limiter seg).2 : Int)
      ≤ maxRequests := by
  cases seg with
  | nil => simpa [Accrual.serveRequests, Accrual.passedFrom] using hmax
  | cons r rest =>
    simp only [Accrual.serveRequests, List.tail_cons] at hseg ⊢
    have hfin := (serveRequests_bounds maxRequests timeout hmax (r :: rest) limiter hinv ip).2
    simp only [Accrual.serveRequests] at hfin
    rw [serveRequests_no_reset maxRequests timeout ip rest _ hseg,
      (limitStep_counter maxRequests timeout limiter r.now r.resetTime r.ip ip).1] at hfin
    have hb := (hinv ip).1
    simp only [Accrual.passedFrom, List.countP_cons] at hfin ⊢
    push_cast at hfin ⊢
    split_ifs at hfin ⊢ <;> omega

/-- C28. For every `maxRequests >= 0` and every sequence of requests with arbitrary times
and remote addresses, served one after the other from the creation of the limiter: after
every part `pre` of the sequence every per-address counter is between 0 and `maxRequests`;
and in every run `seg` of consecutive requests that follows, of which none but possibly
the first resets the counters (the requests between two consecutive resets, from the
first of them on), at most `maxRequests` requests from any one remote address are passed
to the wrapped handler. The steps of `pre`, `seg` and the rest `post` are those of the
whole sequence. -/
theorem limiter_counters_bounded (maxRequests timeout : Int) (hmax : 0 ≤ maxRequests)
    (created : Int) (pre seg post : List Accrual.LimitedRequest) (ip : GoString) :
    (0 ≤ (Accrual.serveRequests maxRequests timeout (Accrual.newLimiter created)
        pre).1.requests ip ∧
      (Accrual.serveRequests maxRequests timeout (Accrual.newLimiter created)
        pre).1.requests ip ≤ maxRequests) ∧
    ((∀ st ∈ (Accrual.serveRequests maxRequests timeout
          (Accrual.serveRequests maxRequests timeout (Accrual.newLimiter created) pre).1
          seg).2.tail, st.reset = false) →
      (Accrual.passedFrom ip (Accrual.serveRequests maxRequests timeout
          (Accrual.serveRequests maxRequests timeout (Accrual.newLimiter created) pre).1
          seg).2 : Int) ≤ maxRequests) ∧
    (Accrual.serveRequests maxRequests timeout (Accrual.newLimiter created)
        (pre ++ (seg ++ post))).2
      = (Accrual.serveRequests maxRequests timeout (Accrual.newLimiter created) pre).2 ++
        ((Accrual.serveRequests maxRequests timeout
            (Accrual.serveRequests maxRequests timeout (Accrual.newLimiter created) pre).1
            seg).2 ++
          (Accrual.serveRequests maxRequests timeout
            (Accrual.serveRequests maxRequests timeout
              (Accrual.serveRequests maxRequests timeout (Accrual.newLimiter created) pre).1
              seg).1 post).2) := by
  have hinit : ∀ b, 0 ≤ (Accrual.newLimiter created).requests b ∧
      (Accrual.newLimiter created).requests b ≤ maxRequests := fun b => ⟨le_refl _, hmax⟩
  have hpre := serveRequests_bounds maxRequests timeout hmax pre _ hinit
  refine ⟨hpre ip, ?_, ?_⟩
  · intro hseg
    exact serveRequests_segment maxRequests timeout hmax ip seg _ hpre hseg
  · rw [serveRequests_append, serveRequests_append]

/-- C28 (witness). The limit 2 and the window 10: of five requests from one address at the
times 1 to 5 two are passed and three rejected, and the counter ends at 2; the request at
the time 20 resets the counters and is passed. -/
theorem limiter_counters_bounded_witness :
    (0 : Int) ≤ 2 ∧
    (Accrual.serveRequests 2 10 (Accrual.newLimiter 0)
        [⟨1, 1, str "a"⟩, ⟨2, 2, str "a"⟩, ⟨3, 3, str "a"⟩, ⟨4, 4, str "a"⟩,
         ⟨5, 5, str "a"⟩]).2
      = [⟨false, str "a", true⟩, ⟨false, str "a", true⟩, ⟨false, str "a", false⟩,
         ⟨false, str "a", false⟩, ⟨false, str "a", false⟩] ∧
    (Accrual.serveRequests 2 10 (Accrual.newLimiter 0)
        [⟨1, 1, str "a"⟩, ⟨2, 2, str "a"⟩, ⟨3, 3, str "a"⟩, ⟨4, 4, str "a"⟩,
         ⟨5, 5, str "a"⟩]).1.requests (str "a") ≤ 2 ∧
    (Accrual.serveRequests 2 10 (Accrual.newLimiter 0)
        [⟨1, 1, str "a"⟩, ⟨2, 2, str "a"⟩, ⟨3, 3, str "a"⟩, ⟨4, 4, str "a"⟩,
         ⟨5, 5, str "a"⟩, ⟨20, 20, str "a"⟩]).2.getLast?
      = some ⟨true, str "a", true⟩ :=
  ⟨by decide, by decide!,
    (limiter_counters_bounded 2 10 (by decide) 0
      [⟨1, 1, str "a"⟩, ⟨2, 2, str "a"⟩, ⟨3, 3, str "a"⟩, ⟨4, 4, str "a"⟩, ⟨5, 5, str "a"⟩]
      [] [] (str "a")).1.2,
    by decide!⟩

/-! ## Leading zeros and the Luhn verdict -/

theorem parseDigits_snoc (init : GoString) (d : Byte) :
    ∀ acc : Nat, parseDigits (init ++ [d]) acc
      = match parseDigits init acc with
        | none => none
        | some v => if 48 ≤ d.val ∧ d.val ≤ 57 then some (v * 10 + (d.val - 48)) else none := by
  induction init with
  | nil => intro acc; simp [parseDigits]
  | cons b rest ih =>
    intro acc
    by_cases hb : 48 ≤ b.val ∧ b.val ≤ 57
    · rw [List.cons_append]
      simp only [parseDigits, hb, and_self, if_true]
      exact ih _
    · rw [List.cons_append]
      simp only [parseDigits, hb, if_false]

theorem parseDigits_digits (s : GoString) (hd : ∀ b ∈ s, isDecimalDigit b) :
    ∀ acc : Nat, ∃ n, parseDigits s acc = some n := by
  induction s with
  | nil => intro acc; exact ⟨acc, rfl⟩
  | cons b rest ih =>
    intro acc
    have hb : 48 ≤ b.val ∧ b.val ≤ 57 := hd b (List.mem_cons_self _ _)
    simp only [parseDigits, hb, and_self, if_true]
    exact ih (fun x hx => hd x (List.mem_cons_of_mem _ hx)) _

theorem parseDigits_zero (s : GoString) :
    parseDigits s 0 = some 0 → s = List.replicate s.length (48 : Byte) := by
  induction s using List.reverseRecOn with
  | nil => intro _; rfl
  | append_singleton init d ih =>
    intro h
    rw [parseDigits_snoc] at h
    cases hi : parseDigits init 0 with
    | none => rw [hi] at h; cases h
    | some v =>
      rw [hi] at h
      dsimp only at h
      split_ifs at h with hdig
      simp only [Option.some.injEq] at h
      have hv : v = 0 := by omega
      have hdv : d = (48 : Byte) := by
        apply Fin.ext
        have : d.val = 48 := by omega
        simpa using this
      subst hv
      rw [List.length_append, List.length_singleton, List.replicate_succ', ← ih hi, hdv]

theorem digits_eq_zeros_append (s : GoString) :
    ∀ n, parseDigits s 0 = some n → s ≠ [] → ∀ fuel, n < 10 ^ fuel → 0 < fuel →
      ∃ k, s = List.replicate k (48 : Byte) ++ Accrual.decimalDigits fuel n := by
  induction s using List.reverseRecOn with
  | nil => intro n _ hne; exact absurd rfl hne
  | append_singleton init d ih =>
    intro n h _ fuel hlt hfuel
    rw [parseDigits_snoc] at h
    cases hi : parseDigits init 0 with
    | none => rw [hi] at h; cases h
    | some m =>
      rw [hi] at h
      dsimp only at h
      split_ifs at h with hdig
      simp only [Option.some.injEq] at h
      obtain ⟨f, rfl⟩ : ∃ f, fuel = f + 1 := ⟨fuel - 1, by omega⟩
      have hlast : (⟨48 + n % 10, by omega⟩ : Byte) = d := by
        apply Fin.ext
        show 48 + n % 10 = d.val
        omega
      by_cases hsmall : n < 10
      · have hm : m = 0 := by omega
        subst hm
        refine ⟨init.length, ?_⟩
        simp only [Accrual.decimalDigits, hsmall, if_true]
        rw [hlast, ← parseDigits_zero init hi]
      · have hm1 : 1 ≤ m := by omega
        have hmf : m < 10 ^ f := by
          rw [pow_succ] at hlt
          omega
        have hf : 0 < f := by
          rcases Nat.eq_zero_or_pos f with h0 | h0
          · subst h0; simp at hmf; omega
          · exact h0
        have hinit : init ≠ [] := by
          intro h0
          subst h0
          simp [parseDigits] at hi
          omega
        obtain ⟨k, hk⟩ := ih m hi hinit f hmf hf
        refine ⟨k, ?_⟩
        have hdiv : n / 10 = m := by omega
        simp only [Accrual.decimalDigits, hsmall, if_false, hdiv]
        rw [hlast, ← List.append_assoc, ← hk]

theorem luhnLoop_append (a b : List Byte) :
    ∀ (sum : Int) (isSecond : Bool), ∃ flag,
      luhnLoop (a ++ b) sum isSecond = luhnLoop b (luhnLoop a sum isSecond) flag := by
  induction a with
  | nil => intro sum isSecond; exact ⟨isSecond, rfl⟩
  | cons x rest ih =>
    intro sum isSecond
    obtain ⟨flag, h⟩ := ih (sum + luhnDigit x isSecond) (!isSecond)
    refine ⟨flag, ?_⟩
    rw [List.cons_append]
    simp only [luhnLoop]
    exact h

theorem luhnLoop_zeros (k : Nat) :
    ∀ (sum : Int) (isSecond : Bool), luhnLoop (List.replicate k (48 : Byte)) sum isSecond = sum := by
  induction k with
  | zero => intro sum isSecond; rfl
  | succ k ih =>
    intro sum isSecond
    have hz : luhnDigit (48 : Byte) isSecond = 0 := by cases isSecond <;> decide
    simp only [List.replicate_succ, luhnLoop, hz, add_zero, ih]

theorem validateLuhn_zeros_append (k : Nat) (t : GoString) :
    ValidateLuhn (List.replicate k (48 : Byte) ++ t) = ValidateLuhn t := by
  unfold ValidateLuhn
  rw [List.reverse_append, List.reverse_replicate]
  obtain ⟨flag, h⟩ := luhnLoop_append t.reverse (List.replicate k (48 : Byte)) 0 false
  rw [h, luhnLoop_zeros]

theorem parseInt_digits (s : GoString) (hne : s ≠ []) (hd : ∀ b ∈ s, isDecimalDigit b)
    (hp : (strconvParseInt s).2 = none) :
    ∃ n : Nat, parseDigits s 0 = some n ∧ n < 2 ^ 63 ∧ (strconvParseInt s).1 = (n : Int) := by
  obtain ⟨b, rest, rfl⟩ := List.exists_cons_of_ne_nil hne
  have hb : 48 ≤ b.val ∧ b.val ≤ 57 := hd b (List.mem_cons_self _ _)
  have h45 : ¬ (b = (45 : Byte)) := by
    intro h; rw [h] at hb; revert hb; decide
  have h43 : ¬ (b = (43 : Byte)) := by
    intro h; rw [h] at hb; revert hb; decide
  obtain ⟨n, hn⟩ := parseDigits_digits (b :: rest) hd 0
  unfold strconvParseInt at hp ⊢
  simp only [List.head?_cons, Option.some.injEq, h45, h43, or_self, if_false, decide_False,
    Bool.false_eq_true, hn, reduceCtorEq] at hp ⊢
  by_cases hr : n ≥ 2 ^ 63
  · split_ifs at hp
  · simp only [hr, if_false] at hp ⊢
    exact ⟨n, rfl, by omega, rfl⟩

theorem formatInt_parseInt_aux (s : GoString) (hne : s ≠ []) (hd : ∀ b ∈ s, isDecimalDigit b)
    (hp : (strconvParseInt s).2 = none) :
    ∃ k, s = List.replicate k (48 : Byte) ++ Accrual.FormatInt (strconvParseInt s).1 := by
  obtain ⟨n, hn, hlt, hv⟩ := parseInt_digits s hne hd hp
  have hfmt : Accrual.FormatInt (strconvParseInt s).1 = Accrual.decimalDigits 20 n := by
    rw [hv]
    unfold Accrual.FormatInt
    have : ¬ ((n : Int) < 0) := by omega
    simp [this]
  rw [hfmt]
  exact digits_eq_zeros_append s n hn hne 20 (by omega) (by decide)

/-- C29. For every non-empty string `s` of decimal digits that parses as a base-10 `int64`,
`ValidateLuhn(FormatInt(ParseInt(s))) = ValidateLuhn(s)`: `s` is the decimal form of the
parsed number after some leading zeros, which do not change the Luhn verdict; the decimal
form consists of digits only, so the validity test of the matcher on the stored numeric id
agrees with the test on the order string that was submitted. -/
theorem validateLuhn_formatInt_parseInt (s : GoString) (hne : s ≠ [])
    (hd : ∀ b ∈ s, isDecimalDigit b) (hp : (strconvParseInt s).2 = none) :
    ValidateLuhn (Accrual.FormatInt (strconvParseInt s).1) = ValidateLuhn s ∧
    (∃ k, s = List.replicate k (48 : Byte) ++ Accrual.FormatInt (strconvParseInt s).1) ∧
    validOrderNumber (Accrual.FormatInt (strconvParseInt s).1) = validOrderNumber s := by
  obtain ⟨k, hk⟩ := formatInt_parseInt_aux s hne hd hp
  have hl : ValidateLuhn (Accrual.FormatInt (strconvParseInt s).1) = ValidateLuhn s := by
    conv_rhs => rw [hk]
    rw [validateLuhn_zeros_append]
  have hdig : ∀ b ∈ Accrual.FormatInt (strconvParseInt s).1, isDecimalDigit b := by
    intro b hb
    apply hd b
    rw [hk]
    exact List.mem_append_right _ hb
  refine ⟨hl, ⟨k, hk⟩, ?_⟩
  unfold validOrderNumber
  rw [hl, (containsOnlyDigits_iff s).mpr hd, (containsOnlyDigits_iff _).mpr hdig]

/-- C29 (witness). The string `0012345678903` parses as 12345678903, whose decimal form
`12345678903` passes the Luhn check as the string with its leading zeros does; and
`001234567890` parses as 1234567890, and both fail. -/
theorem validateLuhn_formatInt_parseInt_witness :
    strconvParseInt (str "0012345678903") = (12345678903, none) ∧
    Accrual.FormatInt 12345678903 = str "12345678903" ∧
    ValidateLuhn (Accrual.FormatInt (strconvParseInt (str "0012345678903")).1)
      = ValidateLuhn (str "0012345678903") ∧
    ValidateLuhn (str "0012345678903") = true ∧
    ValidateLuhn (Accrual.FormatInt (strconvParseInt (str "001234567890")).1) = false ∧
    ValidateLuhn (str "001234567890") = false :=
  ⟨by decide!, by decide!,
    (validateLuhn_formatInt_parseInt (str "0012345678903") (by decide) (by decide!)
      (by decide!)).1,
    by decide!, by decide!, by decide!⟩

/-! ## The updates of one tick of the matcher -/

theorem collectMatches_general {σ : Type} (repo : Accrual.Repository σ) (ctxDone : Nat → Bool)
    (s : σ) (products : List Accrual.ProductReward) :
    ∀ (i : Nat) (acc : List (Int × List Accrual.orderProductMatch) × List Int),
      (acc.1.map Prod.fst).Nodup → (∀ k ∈ acc.1.map Prod.fst, k ∈ acc.2) →
      ((Accrual.Service.collectMatches repo ctxDone s i products acc).orderProducts.map
        Prod.fst).Nodup ∧
      (∀ k ∈ (Accrual.Service.collectMatches repo ctxDone s i products acc).orderProducts.map
          Prod.fst,
        k ∈ (Accrual.Service.collectMatches repo ctxDone s i products acc).processedOrderIDs) ∧
      (∀ k ∈ (Accrual.Service.collectMatches repo ctxDone s i products acc).processedOrderIDs,
        k ∈ acc.2 ∨ k ∈ products.flatMap (fun p =>
          (Accrual.Service.usedRows repo s p).map (fun o => o.Order))) ∧
      (∀ c ∈ (Accrual.Service.collectMatches repo ctxDone s i products acc).calls,
        ∃ m, c = Accrual.Call.ParseMatch m) := by
  induction products with
  | nil =>
    intro i acc h1 h2
    simp only [Accrual.Service.collectMatches]
    exact ⟨h1, h2, fun k hk => Or.inl hk, fun c hc => by cases hc⟩
  | cons p rest ih =>
    intro i acc h1 h2
    by_cases hd : ctxDone i = true
    · simp only [Accrual.Service.collectMatches, hd, if_true]
      exact ⟨h1, h2, fun k hk => Or.inl hk, fun c hc => by cases hc⟩
    · obtain ⟨a1, _, a3, a4⟩ := addOrders_spec p (Accrual.Service.usedRows repo s p) acc h1
      have hacc : ∀ k ∈ (Accrual.Service.addOrders p (Accrual.Service.usedRows repo s p)
          acc).1.map Prod.fst,
          k ∈ (Accrual.Service.addOrders p (Accrual.Service.usedRows repo s p) acc).2 := by
        intro k hk
        rcases (a3 k).mp hk with h | h
        · exact (a4 k).mpr (Or.inl (h2 k h))
        · exact (a4 k).mpr (Or.inr h)
      obtain ⟨r1, r2, r3, r4⟩ := ih (i + 1) _ a1 hacc
      rw [collectMatches_cons repo ctxDone s i p rest acc (by simpa using hd)]
      dsimp only
      refine ⟨r1, r2, ?_, ?_⟩
      · intro k hk
        rcases r3 k hk with h | h
        · rcases (a4 k).mp h with h' | h'
          · exact Or.inl h'
          · exact Or.inr (by
              rw [List.flatMap_cons]
              exact List.mem_append_left _ h')
        · exact Or.inr (by
            rw [List.flatMap_cons]
            exact List.mem_append_right _ h)
      · intro c hc
        rcases List.mem_cons.mp hc with h | h
        · exact ⟨_, h⟩
        · exact r4 c h

theorem updateMatched_sublist {σ : Type} (repo : Accrual.Repository σ) (ctxDone : Nat → Bool)
    (entries : List (Int × List Accrual.orderProductMatch)) :
    ∀ (i : Nat) (s : σ),
      (Accrual.Service.updateMatched repo ctxDone i entries s).2.2.Sublist
        (entries.map Accrual.Service.entryCall) := by
  induction entries with
  | nil => intro i s; simp [Accrual.Service.updateMatched]
  | cons e rest ih =>
    intro i s
    by_cases hd : ctxDone i = true
    · simp [Accrual.Service.updateMatched, hd]
    · by_cases hv : (!ValidateLuhn (Accrual.FormatInt e.1)
          || !ContainsOnlyDigits (Accrual.FormatInt e.1)) = true
      · simp only [Accrual.Service.updateMatched, hd, Bool.false_eq_true, if_false, hv, if_true,
          List.map_cons, Accrual.Service.entryCall]
        exact List.cons_sublist_cons.mpr (ih _ _)
      · simp only [Accrual.Service.updateMatched, hd, Bool.false_eq_true, if_false, hv,
          List.map_cons, Accrual.Service.entryCall]
        exact List.cons_sublist_cons.mpr (ih _ _)

theorem processOrders_sublist {σ : Type} (repo : Accrual.Repository σ) (ctxDone : Nat → Bool)
    (rangeOrder : List (Int × List Accrual.orderProductMatch) →
      List (Int × List Accrual.orderProductMatch))
    (s : σ) :
    (Accrual.Service.processOrders repo ctxDone rangeOrder s).2.2.Sublist
      (Accrual.Service.fullCalls repo ctxDone rangeOrder s) := by
  have hu := updateMatched_sublist repo ctxDone
    (rangeOrder (Accrual.Service.collectMatches repo ctxDone s 0
      (repo.GetProductsInfo s).1 ([], [])).orderProducts) (repo.GetProductsInfo s).1.length s
  unfold Accrual.Service.processOrders Accrual.Service.fullCalls
  split
  · exact List.cons_sublist_cons.mpr (List.nil_sublist _)
  · dsimp only
    split_ifs
    · apply List.cons_sublist_cons.mpr
      rw [List.append_assoc]
      exact List.sublist_append_left _ _
    · apply List.cons_sublist_cons.mpr
      exact ((List.Sublist.refl _).append hu).trans (List.sublist_append_left _ _)
    · split
      · apply List.cons_sublist_cons.mpr
        exact ((List.Sublist.refl _).append hu).append
          (List.cons_sublist_cons.mpr (List.nil_sublist _))
      · apply List.cons_sublist_cons.mpr
        rw [updateUnmatched_calls]
        exact ((List.Sublist.refl _).append hu).append (List.Sublist.refl _)

theorem countP_isUpdateOf_le {α : Type} (key : α → Int) (g : α → Accrual.Call)
    (hg : ∀ x id, (g x).isUpdateOf id = decide (key x = id)) (id : Int) (l : List α)
    (hn : (l.map key).Nodup) :
    (l.map g).countP (Accrual.Call.isUpdateOf id) ≤ 1 ∧
    (id ∉ l.map key → (l.map g).countP (Accrual.Call.isUpdateOf id) = 0) := by
  induction l with
  | nil => simp
  | cons x rest ih =>
    rw [List.map_cons, List.nodup_cons] at hn
    obtain ⟨ih1, ih2⟩ := ih hn.2
    by_cases hx : key x = id
    · have h0 := ih2 (hx ▸ hn.1)
      simp only [List.map_cons, List.countP_cons, hg, hx, decide_True, if_true, h0,
        List.mem_cons, true_or, not_true_eq_false, false_implies, and_true]
      omega
    · have hne : ¬ id = key x := fun h => hx h.symm
      simp only [List.map_cons, List.countP_cons, hg, hx, decide_False, Bool.false_eq_true,
        if_false, add_zero, List.mem_cons, hne, false_or]
      exact ⟨ih1, ih2⟩

theorem entryCall_isUpdateOf (e : Int × List Accrual.orderProductMatch) (id : Int) :
    (Accrual.Service.entryCall e).isUpdateOf id = decide (e.1 = id) := by
  unfold Accrual.Service.entryCall
  split_ifs <;> rfl

theorem matcher_updates_aux {σ : Type} (repo : Accrual.Repository σ) (ctxDone : Nat → Bool)
    (rangeOrder : List (Int × List Accrual.orderProductMatch) →
      List (Int × List Accrual.orderProductMatch))
    (s : σ) (hperm : ∀ m, (rangeOrder m).Perm m)
    (hdistinct : (repo.GetUnprocessedOrders
      (Accrual.Service.stateAfterMatched repo ctxDone rangeOrder s)).1.Nodup) :
    (∀ c ∈ Accrual.Service.fullCalls repo ctxDone rangeOrder s, ∀ id,
      c.isUpdateOf id = true →
      id ∈ Accrual.Service.matchedIDs repo s ∨
        id ∈ (repo.GetUnprocessedOrders
          (Accrual.Service.stateAfterMatched repo ctxDone rangeOrder s)).1) ∧
    (∀ id, (Accrual.Service.fullCalls repo ctxDone rangeOrder s).countP
      (Accrual.Call.isUpdateOf id) ≤ 1) := by
  obtain ⟨c1, c2, c3, c4⟩ := collectMatches_general repo ctxDone s (repo.GetProductsInfo s).1 0
    ([], []) (by simp) (by simp)
  have hkeys : ((rangeOrder (Accrual.Service.collectMatches repo ctxDone s 0
      (repo.GetProductsInfo s).1 ([], [])).orderProducts).map Prod.fst).Nodup :=
    ((hperm _).map Prod.fst).nodup_iff.mpr c1
  have hmatched : ∀ k ∈ (Accrual.Service.collectMatches repo ctxDone s 0
      (repo.GetProductsInfo s).1 ([], [])).processedOrderIDs,
      k ∈ Accrual.Service.matchedIDs repo s := by
    intro k hk
    rcases c3 k hk with h | h
    · cases h
    · exact h
  have hkeyproc : ∀ k ∈ (rangeOrder (Accrual.Service.collectMatches repo ctxDone s 0
      (repo.GetProductsInfo s).1 ([], [])).orderProducts).map Prod.fst,
      k ∈ (Accrual.Service.collectMatches repo ctxDone s 0
        (repo.GetProductsInfo s).1 ([], [])).processedOrderIDs := by
    intro k hk
    exact c2 k (((hperm _).map Prod.fst).mem_iff.mp hk)
  have hzero : ∀ (x id : Int),
      (Accrual.Call.UpdateAccrualInfo x 0 Accrual.Processed).isUpdateOf id
        = decide (x = id) := fun _ _ => rfl
  have hpm : ∀ id, (Accrual.Service.collectMatches repo ctxDone s 0
      (repo.GetProductsInfo s).1 ([], [])).calls.countP (Accrual.Call.isUpdateOf id) = 0 := by
    intro id
    rw [List.countP_eq_zero]
    intro c hc
    obtain ⟨m, rfl⟩ := c4 c hc
    simp [Accrual.Call.isUpdateOf]
  constructor
  · intro c hc id hid
    unfold Accrual.Service.fullCalls at hc
    simp only [List.mem_cons, List.mem_append, List.mem_map, List.mem_filter] at hc
    rcases hc with rfl | (hc | ⟨e, he, rfl⟩) | rfl | ⟨x, ⟨hx, _⟩, rfl⟩
    · cases hid
    · obtain ⟨m, rfl⟩ := c4 c hc
      cases hid
    · rw [entryCall_isUpdateOf] at hid
      have : e.1 = id := by simpa using hid
      subst this
      exact Or.inl (hmatched _ (hkeyproc _ (List.mem_map.mpr ⟨e, he, rfl⟩)))
    · cases hid
    · rw [hzero] at hid
      have : x = id := by simpa using hid
      subst this
      exact Or.inr hx
  · intro id
    obtain ⟨e1, e2⟩ := countP_isUpdateOf_le Prod.fst Accrual.Service.entryCall
      entryCall_isUpdateOf id _ hkeys
    have hfn : (((repo.GetUnprocessedOrders
        (Accrual.Service.stateAfterMatched repo ctxDone rangeOrder s)).1.filter
        (fun id => decide (id ∉ (Accrual.Service.collectMatches repo ctxDone s 0
          (repo.GetProductsInfo s).1 ([], [])).processedOrderIDs))).map (fun x => x)).Nodup := by
      rw [List.map_id']
      exact hdistinct.filter _
    obtain ⟨z1, z2⟩ := countP_isUpdateOf_le (fun x : Int => x)
      (fun x => Accrual.Call.UpdateAccrualInfo x 0 Accrual.Processed) hzero id _ hfn
    unfold Accrual.Service.fullCalls
    rw [List.countP_cons, List.countP_append, List.countP_append, List.countP_cons, hpm id]
    simp only [Accrual.Call.isUpdateOf, Bool.false_eq_true, if_false, add_zero, zero_add]
    by_cases hk : id ∈ (rangeOrder (Accrual.Service.collectMatches repo ctxDone s 0
        (repo.GetProductsInfo s).1 ([], [])).orderProducts).map Prod.fst
    · have hz := z2 (by
        rw [List.map_id']
        intro hmem
        have := (List.mem_filter.mp hmem).2
        simp only [decide_eq_true_eq] at this
        exact this (hkeyproc id hk))
      omega
    · have := e2 hk
      omega

/-- C30. In one matcher tick, whether or not it is interrupted and whatever the repository
answers (its updates may fail: their errors are only logged), given that
`GetUnprocessedOrders` returns distinct ids: the calls of the tick are calls of
`GetProductsInfo`, `ParseMatch`, `GetUnprocessedOrders`, `UpdateStatus` and
`UpdateAccrualInfo` only; every update is for an order id returned in the tick by
`ParseMatch` or by `GetUnprocessedOrders`; and for every order id the tick makes at most
one update. So an order that matched a rule and whose update failed is not written again,
with PROCESSED and zero accrual, in the same tick. -/
theorem matcher_updates_frame {σ : Type} (repo : Accrual.Repository σ)
    (ctxDone : Nat → Bool)
    (rangeOrder : List (Int × List Accrual.orderProductMatch) →
      List (Int × List Accrual.orderProductMatch))
    (s : σ) (hperm : ∀ m, (rangeOrder m).Perm m)
    (hdistinct : (repo.GetUnprocessedOrders
      (Accrual.Service.stateAfterMatched repo ctxDone rangeOrder s)).1.Nodup) :
    (∀ c ∈ (Accrual.Service.processOrders repo ctxDone rangeOrder s).2.2,
      c = Accrual.Call.GetProductsInfo ∨ c = Accrual.Call.GetUnprocessedOrders ∨
        (∃ m, c = Accrual.Call.ParseMatch m) ∨
        (∃ st id, c = Accrual.Call.UpdateStatus st id) ∨
        (∃ id a st, c = Accrual.Call.UpdateAccrualInfo id a st)) ∧
    (∀ c ∈ (Accrual.Service.processOrders repo ctxDone rangeOrder s).2.2, ∀ id,
      c.isUpdateOf id = true →
      id ∈ Accrual.Service.matchedIDs repo s ∨
        id ∈ (repo.GetUnprocessedOrders
          (Accrual.Service.stateAfterMatched repo ctxDone rangeOrder s)).1) ∧
    (∀ id, (Accrual.Service.processOrders repo ctxDone rangeOrder s).2.2.countP
      (Accrual.Call.isUpdateOf id) ≤ 1) := by
  have hsub := processOrders_sublist repo ctxDone rangeOrder s
  obtain ⟨h1, h2⟩ := matcher_updates_aux repo ctxDone rangeOrder s hperm hdistinct
  refine ⟨?_, fun c hc id hid => h1 c (hsub.subset hc) id hid,
    fun id => le_trans (hsub.countP_le _) (h2 id)⟩
  intro c hc
  have hfull := hsub.subset hc
  obtain ⟨_, _, _, c4⟩ := collectMatches_general repo ctxDone s (repo.GetProductsInfo s).1 0
    ([], []) (by simp) (by simp)
  unfold Accrual.Service.fullCalls at hfull
  simp only [List.mem_cons, List.mem_append, List.mem_map, List.mem_filter] at hfull
  rcases hfull with rfl | (hm | ⟨e, _, rfl⟩) | rfl | ⟨x, _, rfl⟩
  · exact Or.inl rfl
  · exact Or.inr (Or.inr (Or.inl (c4 c hm)))
  · unfold Accrual.Service.entryCall
    split_ifs
    · exact Or.inr (Or.inr (Or.inr (Or.inl ⟨_, _, rfl⟩)))
    · exact Or.inr (Or.inr (Or.inr (Or.inr ⟨_, _, _, rfl⟩)))
  · exact Or.inr (Or.inl rfl)
  · exact Or.inr (Or.inr (Or.inr (Or.inr ⟨_, _, _, rfl⟩)))

/-- C30 (witness). Scenario S2: the tick updates the order 9278923470 once, with PROCESSED
and 700, and the order 1234567890 once, with INVALID, and makes no other update. -/
theorem matcher_updates_frame_witness :
    (Accrual.Service.processOrders (Accrual.PostgresDB.repository plainPostgres)
        (fun _ => false) id scenarioS2).2.2
      = [Accrual.Call.GetProductsInfo, Accrual.Call.ParseMatch (str "Bork"),
         Accrual.Call.UpdateAccrualInfo 9278923470 700 "PROCESSED",
         Accrual.Call.UpdateStatus "INVALID" 1234567890,
         Accrual.Call.GetUnprocessedOrders] ∧
    (Accrual.Service.processOrders (Accrual.PostgresDB.repository plainPostgres)
        (fun _ => false) id scenarioS2).2.2.countP
      (Accrual.Call.isUpdateOf 9278923470) ≤ 1 :=
  ⟨by decide!,
    (matcher_updates_frame (Accrual.PostgresDB.repository plainPostgres) (fun _ => false) id
      scenarioS2 (fun m => List.Perm.refl m) (by decide!)).2.2 9278923470⟩

end Gophermart
